import Mathlib

/-!
# iDoctor: invoice financial model and cursor layout of `server.js`

A shallow embedding of the currency helpers, the invoice write path
(`POST /api/invoices`, `PATCH /api/invoices/:id`) and the amounts and
vertical cursor of the PDF route (`GET /api/invoices/:id/pdf`).

Modelling conventions.

* A JavaScript string is a `List Char`: its code points, where the program
  only looks at characters of the Basic Multilingual Plane.
* A JavaScript number is `JSNum`: `NaN`, the two infinities, or a finite
  value held as a rational; `-0` is identified with `0`.  The first sections
  compute exact values: `parseFloat` gives the value of the decimal text it
  reads, `JSNum.add`, `JSNum.sub` and `JSNum.mul` the exact sum, difference
  and product.  The section "Binary64 arithmetic" rounds each of them to
  IEEE 754 binary64 (`Binary64.ofRat`), with its overflow to `Infinity` and
  underflow to `0`, and gives the write path and the read routes again over
  the rounded operations.  What depends on the numbers computed (the
  threshold, the deduction, the total) is proved over the binary64
  definitions; what rounding does not change (which texts are read as
  numbers, the printed amounts read back, the rows of the table, the
  cursor) is proved over the exact ones.
* A thrown `TypeError` is the `none` of an `Option`.
* The store, `pdfkit`, `toUpperCase` and the date formatting are outside
  `server.js`: a row is a record of values, and the library calls are
  parameters of the layout.
-/

namespace IDoctor

/-! ## Numbers -/

/-- A JavaScript number; a finite value is held as a rational. -/
inductive JSNum where
  | nan
  | posInf
  | negInf
  | fin (q : ℚ)
  deriving DecidableEq

namespace JSNum

/-- The global `isNaN` on a number. -/
def isNaN : JSNum → Bool
  | nan => true
  | _ => false

/-- Unary minus. -/
def neg : JSNum → JSNum
  | nan => nan
  | posInf => negInf
  | negInf => posInf
  | fin q => fin (-q)

/-- The exact sum of two numbers, before the rounding of `Binary64.add`. -/
def add : JSNum → JSNum → JSNum
  | nan, _ => nan
  | _, nan => nan
  | posInf, negInf => nan
  | negInf, posInf => nan
  | posInf, _ => posInf
  | _, posInf => posInf
  | negInf, _ => negInf
  | _, negInf => negInf
  | fin a, fin b => fin (a + b)

/-- The exact difference, before the rounding of `Binary64.sub`. -/
def sub (a b : JSNum) : JSNum := add a (neg b)

/-- Multiplication of a finite value by an infinity of sign `pos`. -/
def mulInf (q : ℚ) (pos : Bool) : JSNum :=
  if q = 0 then nan
  else if (0 < q) = pos then posInf else negInf

/-- The exact product of two numbers, before the rounding of
`Binary64.mul`. -/
def mul : JSNum → JSNum → JSNum
  | nan, _ => nan
  | _, nan => nan
  | posInf, posInf => posInf
  | posInf, negInf => negInf
  | negInf, posInf => negInf
  | negInf, negInf => posInf
  | fin a, posInf => mulInf a true
  | fin a, negInf => mulInf a false
  | posInf, fin b => mulInf b true
  | negInf, fin b => mulInf b false
  | fin a, fin b => fin (a * b)

/-- The relational `a > b`; any comparison with `NaN` is false. -/
def gt : JSNum → JSNum → Bool
  | nan, _ => false
  | _, nan => false
  | posInf, posInf => false
  | posInf, _ => true
  | _, posInf => false
  | negInf, _ => false
  | fin _, negInf => true
  | fin a, fin b => decide (b < a)

/-- Truthiness of a number: `0` and `NaN` are falsy. -/
def truthy : JSNum → Bool
  | nan => false
  | fin q => decide (q ≠ 0)
  | _ => true

end JSNum

/-! ## Strings -/

/-- JavaScript strings as lists of characters. -/
abbrev JSString := List Char

/-- `WhiteSpace` and `LineTerminator` code points, as removed by
`String.prototype.trim` and skipped by `parseFloat`. -/
def isWhiteSpace (c : Char) : Bool :=
  let n := c.toNat
  n = 0x09 || n = 0x0A || n = 0x0B || n = 0x0C || n = 0x0D || n = 0x20 ||
  n = 0xA0 || n = 0x1680 || (0x2000 ≤ n && n ≤ 0x200A) || n = 0x2028 ||
  n = 0x2029 || n = 0x202F || n = 0x205F || n = 0x3000 || n = 0xFEFF

/-- `String.prototype.trim`. -/
def trim (s : JSString) : JSString :=
  ((s.dropWhile isWhiteSpace).reverse.dropWhile isWhiteSpace).reverse

/-- `s.replace(/[€$]/g, '')`: every euro and dollar sign removed. -/
def stripSymbols (s : JSString) : JSString :=
  s.filter (fun c => !(c = '€' || c = '$'))

/-- `s.replace(a, b)` for one-character strings `a` and `b`: only the first
occurrence is replaced. -/
def replaceFirst (a b : Char) : JSString → JSString
  | [] => []
  | c :: cs => if c = a then b :: cs else c :: replaceFirst a b cs

/-- The chain `.replace(/[€$]/g, '').replace(',', '.').trim()` shared by
`cleanCurrency` and both `parseCurrency` helpers. -/
def cleanText (s : JSString) : JSString :=
  trim (replaceFirst ',' '.' (stripSymbols s))

/-- Whether `p` is an initial segment of `s`. -/
def startsWith : JSString → JSString → Bool
  | [], _ => true
  | _ :: _, [] => false
  | a :: p, b :: s => a = b && startsWith p s

/-- Value of a run of decimal digits, most significant first. -/
def digitsToNat (ds : JSString) : ℕ :=
  ds.foldl (fun acc c => 10 * acc + (c.toNat - 48)) 0

/-- The longest run of decimal digits at the front. -/
def leadingDigits (s : JSString) : JSString := s.takeWhile Char.isDigit

/-- What follows the longest run of decimal digits at the front. -/
def afterDigits (s : JSString) : JSString := s.dropWhile Char.isDigit

/-- Value of the `SignedInteger` at the front of the text, or `0` when
there is none. -/
def signedInteger : JSString → ℤ
  | '+' :: r => if leadingDigits r = [] then 0 else (digitsToNat (leadingDigits r) : ℤ)
  | '-' :: r => if leadingDigits r = [] then 0 else -(digitsToNat (leadingDigits r) : ℤ)
  | r => if leadingDigits r = [] then 0 else (digitsToNat (leadingDigits r) : ℤ)

/-- Exponent read from the text after the mantissa: `ExponentPart` is
`e` or `E`, an optional sign and at least one digit; anything else means no
exponent. -/
def parseExponent : JSString → ℤ
  | c :: r => if c = 'e' ∨ c = 'E' then signedInteger r else 0
  | [] => 0

/-- The number `m * 10 ^ e`. -/
def scale10 (m : ℕ) (e : ℤ) : ℚ :=
  if 0 ≤ e then ((m * 10 ^ e.toNat : ℕ) : ℚ) else mkRat m (10 ^ (-e).toNat)

/-- Value of the mantissa and exponent that start at a `.` or right after
the integer digits `ip`; `none` when neither side of the point has a
digit. -/
def parseMantissa (ip : JSString) : JSString → Option JSNum
  | '.' :: r2 =>
    if ip = [] ∧ leadingDigits r2 = [] then none
    else some (JSNum.fin (scale10 (digitsToNat (ip ++ leadingDigits r2))
      (parseExponent (afterDigits r2) - (leadingDigits r2).length)))
  | r1 =>
    if ip = [] then none
    else some (JSNum.fin (scale10 (digitsToNat ip) (parseExponent r1)))

/-- Longest prefix that is a `StrUnsignedDecimalLiteral`, as a value:
`Infinity`, or digits with an optional fraction and exponent; `none` when no
prefix is a literal. -/
def parseUnsigned (s : JSString) : Option JSNum :=
  if startsWith "Infinity".toList s then some JSNum.posInf
  else parseMantissa (leadingDigits s) (afterDigits s)

/-- Longest prefix that is a `StrDecimalLiteral`: an optional sign and an
unsigned literal. -/
def parseSigned : JSString → Option JSNum
  | '+' :: r => parseUnsigned r
  | '-' :: r => (parseUnsigned r).map JSNum.neg
  | r => parseUnsigned r

/-- The global `parseFloat` on a string, before rounding: leading white
space is skipped, the longest prefix that is a `StrDecimalLiteral` is read
and its exact value returned, and `NaN` is returned when there is none.
`Binary64.parseFloat` rounds that value. -/
def parseFloat (s : JSString) : JSNum :=
  (parseSigned (s.dropWhile isWhiteSpace)).getD JSNum.nan

/-! ## Numbers to strings -/

/-- Decimal digits of a natural number, most significant first. -/
def natDigits (n : ℕ) : JSString := Nat.toDigits 10 n

/-- Least `sc` from the start value on with `den ∣ 10 ^ sc`, looking at no
more than `fuel` candidates. -/
def decScale (den : ℕ) : ℕ → ℕ → ℕ
  | 0, sc => sc
  | fuel + 1, sc => if 10 ^ sc % den = 0 then sc else decScale den fuel (sc + 1)

/-- Number of trailing decimal zeros of `m`, looking at no more than `fuel`
digits. -/
def trailingZeros : ℕ → ℕ → ℕ
  | 0, _ => 0
  | fuel + 1, m => if m ≠ 0 ∧ m % 10 = 0 then trailingZeros fuel (m / 10) + 1 else 0

/-- The integers `s` and `e` with `q = s * 10 ^ e` and `s` not a multiple of
ten, for a positive terminating decimal `q`: the digits of `s` are the
significant digits that `Number::toString` prints. -/
def decimalRepr (q : ℚ) : ℕ × ℤ :=
  let sc := decScale q.den q.den 0
  let m := q.num.natAbs * (10 ^ sc / q.den)
  if sc = 0 then
    let z := trailingZeros m m
    (m / 10 ^ z, (z : ℤ))
  else (m, -(sc : ℤ))

/-- `Number::toString` (radix 10) of a positive finite number. -/
def positiveToString (q : ℚ) : JSString :=
  let s := natDigits (decimalRepr q).1
  let k : ℤ := s.length
  let n : ℤ := k + (decimalRepr q).2
  if k ≤ n ∧ n ≤ 21 then s ++ List.replicate (n - k).toNat '0'
  else if 0 < n ∧ n ≤ 21 then s.take n.toNat ++ '.' :: s.drop n.toNat
  else if -6 < n ∧ n ≤ 0 then '0' :: '.' :: (List.replicate (-n).toNat '0' ++ s)
  else
    let ex := (if n - 1 < 0 then '-' else '+') :: natDigits (n - 1).natAbs
    if s.length = 1 then s ++ 'e' :: ex
    else s.take 1 ++ '.' :: (s.drop 1 ++ 'e' :: ex)

/-- `Number::toString` (radix 10). -/
def numberToString : JSNum → JSString
  | JSNum.nan => "NaN".toList
  | JSNum.posInf => "Infinity".toList
  | JSNum.negInf => "-Infinity".toList
  | JSNum.fin q =>
    if q = 0 then ['0']
    else if q < 0 then '-' :: positiveToString (-q)
    else positiveToString q

/-- The digits of `n` for `toFixed(2)`: its decimal digits, with zeros put in
front until there are three. -/
def fixedDigits (n : ℕ) : JSString :=
  let m := if n = 0 then ['0'] else natDigits n
  if m.length ≤ 2 then List.replicate (3 - m.length) '0' ++ m else m

/-- A point put before the last two characters. -/
def insertPoint (m : JSString) : JSString :=
  m.take (m.length - 2) ++ '.' :: m.drop (m.length - 2)

/-- `Number.prototype.toFixed(2)` on a non-negative finite number: the
integer `n` nearest to `100 * q` (the larger one on a tie), printed with a
point before its last two digits; from `10 ^ 21` on, `Number::toString`. -/
def toFixed2Abs (q : ℚ) : JSString :=
  if (10 : ℚ) ^ 21 ≤ q then numberToString (JSNum.fin q)
  else insertPoint (fixedDigits (Rat.floor (q * 100 + 1 / 2)).toNat)

/-- `Number.prototype.toFixed(2)`. -/
def toFixed2 : JSNum → JSString
  | JSNum.fin q => if q < 0 then '-' :: toFixed2Abs (-q) else toFixed2Abs q
  | x => numberToString x

/-! ## Values -/

/-- A JavaScript value as it reaches the handlers: a JSON value of a request
body or a column of a row.  An array or object stands as `obj`, carrying the
text its `toString` method returns; it has no `replace` method. -/
inductive JSVal where
  | undefined
  | null
  | bool (b : Bool)
  | num (x : JSNum)
  | str (s : JSString)
  | obj (text : JSString)
  deriving DecidableEq

namespace JSVal

/-- `ToBoolean`. -/
def truthy : JSVal → Bool
  | undefined => false
  | null => false
  | bool b => b
  | num x => x.truthy
  | str s => !s.isEmpty
  | obj _ => true

/-- The method call `v.toString()`; it throws on `undefined` and `null`. -/
def toStringMethod : JSVal → Option JSString
  | undefined => none
  | null => none
  | bool b => some (if b then "true".toList else "false".toList)
  | num x => some (numberToString x)
  | str s => some s
  | obj t => some t

/-- The abstract operation `ToString`, applied by `parseFloat` to its
argument. -/
def toStr : JSVal → JSString
  | undefined => "undefined".toList
  | null => "null".toList
  | bool b => if b then "true".toList else "false".toList
  | num x => numberToString x
  | str s => s
  | obj t => t

end JSVal

/-- The global `parseFloat` on any value. -/
def parseFloatVal (v : JSVal) : JSNum := parseFloat v.toStr

/-- The decimal `77.47`, before rounding. -/
def threshold : JSNum := JSNum.fin 77.47

/-- A row of `invoices` joined with its patient, as both read routes receive
it from the store; a column that is absent or NULL is `undefined` or
`null`. -/
structure Invoice where
  id : JSVal
  dueamount : JSVal
  withholding : JSVal
  ritenuta : JSVal
  system : JSVal
  invoicedate : JSVal
  traced : JSVal
  collecteddate : JSVal
  fiscalcode : JSVal
  patient_name : JSVal
  patient_address : JSVal
  patient_city : JSVal
  patient_postalcode : JSVal
  patient_province : JSVal
  patient_country : JSVal

/-- The amounts a read route derives from one row. -/
structure Amounts where
  dueAmount : JSNum
  withholding : JSNum
  ritenuta : JSNum
  ritenutaDeduction : JSNum
  total : JSNum
  deriving DecidableEq

/-! ## `GET /invoices` -/

namespace InvoiceList

/-- The helper `parseCurrency` of `GET /invoices`; `none` is the `TypeError`
of calling `replace` on a value that has no such method. -/
def parseCurrency (v : JSVal) : Option JSNum :=
  if !v.truthy then some (JSNum.fin 0)
  else
    match v with
    | JSVal.str s =>
      let num := parseFloat (cleanText s)
      some (if num.isNaN then JSNum.fin 0 else num)
    | _ => none

/-- The amounts computed for one row by the `map` callback; `none` when a
`parseCurrency` call throws. -/
def amounts (invoice : Invoice) : Option Amounts :=
  match parseCurrency invoice.dueamount, parseCurrency invoice.withholding,
      parseCurrency invoice.ritenuta with
  | some dueAmount, some withholding, some ritenuta =>
    let ritenutaDeduction :=
      if ritenuta.gt (JSNum.fin 0) then dueAmount.mul (JSNum.fin 0.20) else JSNum.fin 0
    some
      { dueAmount := dueAmount
        withholding := withholding
        ritenuta := ritenuta
        ritenutaDeduction := ritenutaDeduction
        total := (dueAmount.sub ritenutaDeduction).add withholding }
  | _, _, _ => none

/-- The `total` text of one row: `'€' + total.toFixed(2).replace('.', ',')`. -/
def totalText (invoice : Invoice) : Option JSString :=
  (amounts invoice).map (fun a => '€' :: replaceFirst '.' ',' (toFixed2 a.total))

end InvoiceList

/-! ## `GET /api/invoices/:id/pdf` -/

namespace Pdf

/-- The helper `parseCurrency` of the PDF route; `none` would be a thrown
error. -/
def parseCurrency (v : JSVal) : Option JSNum :=
  if !v.truthy then some (JSNum.fin 0)
  else
    match v.toStringMethod with
    | some s =>
      let num := parseFloat (cleanText s)
      some (if num.isNaN then JSNum.fin 0 else num)
    | none => none

/-- The helper `formatCurrency`. -/
def formatCurrency (num : JSNum) : JSString :=
  '€' :: replaceFirst '.' ',' (toFixed2 num)

/-- The operand choice of `x || 0` on a number. -/
def orZero (x : JSNum) : JSNum := if x.truthy then x else JSNum.fin 0

/-- The section "Calculate amounts"; `none` when a `parseCurrency` call
throws. -/
def amounts (invoice : Invoice) : Option Amounts :=
  match parseCurrency invoice.dueamount, parseCurrency invoice.withholding,
      parseCurrency invoice.ritenuta with
  | some dueAmount, some withholding, some r =>
    let ritenuta := orZero r
    let ritenutaDeduction :=
      if ritenuta.gt (JSNum.fin 0) then dueAmount.mul (JSNum.fin 0.20) else JSNum.fin 0
    some
      { dueAmount := dueAmount
        withholding := withholding
        ritenuta := ritenuta
        ritenutaDeduction := ritenutaDeduction
        total := (dueAmount.sub ritenutaDeduction).add withholding }
  | _, _, _ => none

/-- The flag `requiresStamp`: `dueAmount > 77.47`. -/
def requiresStamp (invoice : Invoice) : Option Bool :=
  (amounts invoice).map (fun a => a.dueAmount.gt threshold)

/-- The text shown in the totals box: `formatCurrency(total)`. -/
def totalText (invoice : Invoice) : Option JSString :=
  (amounts invoice).map (fun a => formatCurrency a.total)

end Pdf

/-! ## `POST /api/invoices` -/

namespace Create

/-- The fields the handler destructures from `req.body`; an absent field is
`undefined`. -/
structure Body where
  dueamount : JSVal
  system : JSVal
  invoicedate : JSVal
  traced : JSVal
  collecteddate : JSVal
  fiscalcode : JSVal
  ts : JSVal
  ritenuta : JSVal

/-- The helper `cleanCurrency` of the create route; `none` is the
`TypeError` of calling `replace` on a value that has no such method. -/
def cleanCurrency (value : JSVal) : Option JSString :=
  if !value.truthy then some ['0']
  else
    match value with
    | JSVal.str s => some (cleanText s)
    | _ => none

/-- The withholding text derived from the parsed due amount. -/
def withholdingOf (dueAmountNum : JSNum) : JSString :=
  if dueAmountNum.gt threshold then "2.00".toList else "0.00".toList

/-- The test `fiscalcode && fiscalcode.trim() !== ''`; `none` is the
`TypeError` of calling `trim` on a value that has no such method. -/
def hasFiscalCode (fiscalcode : JSVal) : Option Bool :=
  if !fiscalcode.truthy then some false
  else
    match fiscalcode with
    | JSVal.str s => some (decide (trim s ≠ []))
    | _ => none

/-- The operand choice of `v || false`. -/
def orFalse (v : JSVal) : JSVal := if v.truthy then v else JSVal.bool false

/-- The rate marker `ritenuta ? 20 : 0`. -/
def rateMarker (ritenuta : JSVal) : JSVal :=
  JSVal.num (JSNum.fin (if ritenuta.truthy then 20 else 0))

/-- The handler up to the `INSERT`: the columns and the values bound to
them; `none` when it throws before the query (answered with status 500). -/
def insertRow (b : Body) : Option (List (String × JSVal)) :=
  match cleanCurrency b.dueamount with
  | none => none
  | some dueamount =>
    let dueAmountNum := parseFloat dueamount
    let withholding := withholdingOf dueAmountNum
    match hasFiscalCode b.fiscalcode with
    | none => none
    | some true =>
      some [("dueamount", JSVal.str dueamount), ("withholding", JSVal.str withholding),
        ("system", b.system), ("invoicedate", b.invoicedate), ("traced", orFalse b.traced),
        ("collecteddate", b.collecteddate), ("fiscalcode", b.fiscalcode),
        ("ts", orFalse b.ts), ("ritenuta", rateMarker b.ritenuta)]
    | some false =>
      some [("dueamount", JSVal.str dueamount), ("withholding", JSVal.str withholding),
        ("system", b.system), ("invoicedate", b.invoicedate), ("traced", orFalse b.traced),
        ("collecteddate", b.collecteddate), ("ts", orFalse b.ts),
        ("ritenuta", rateMarker b.ritenuta)]

end Create

/-! ## `PATCH /api/invoices/:id` -/

/-- A plain object: its own properties in order. -/
abbrev Obj := List (String × JSVal)

namespace Obj

/-- Property read `o.k`: `undefined` when there is no such property. -/
def get : Obj → String → JSVal
  | [], _ => JSVal.undefined
  | (a, b) :: o, k => if a = k then b else get o k

/-- Whether `o` has an own property `k`. -/
def has : Obj → String → Bool
  | [], _ => false
  | (a, _) :: o, k => if a = k then true else has o k

/-- The value of the property `k` replaced by `v`, in place. -/
def replace : Obj → String → JSVal → Obj
  | [], _, _ => []
  | (a, b) :: o, k, v => if a = k then (k, v) :: replace o k v else (a, b) :: replace o k v

/-- Assignment `o.k = v`: an existing property keeps its place, a new one
goes last. -/
def set (o : Obj) (k : String) (v : JSVal) : Obj :=
  if has o k then replace o k v else o ++ [(k, v)]

/-- The statement `delete o.k`. -/
def delete : Obj → String → Obj
  | [], _ => []
  | (a, b) :: o, k => if a = k then delete o k else (a, b) :: delete o k

end Obj

namespace Patch

/-- What the handler does with a request. -/
inductive Outcome where
  /-- An error thrown before the query: status 500, nothing written. -/
  | threw
  /-- Status 400, "No update data provided": nothing written. -/
  | noData
  /-- The `UPDATE` runs with these fields and values in its `SET` clause. -/
  | update (updates : Obj)
  deriving DecidableEq

/-- The helper `cleanCurrency` of the update route; `none` is the
`TypeError` of calling `replace` on a value that has no such method. -/
def cleanCurrency (value : JSVal) : Option JSVal :=
  if !value.truthy then some value
  else
    match value with
    | JSVal.num x => some (JSVal.num x)
    | JSVal.str s => some (JSVal.str (cleanText s))
    | _ => none

/-- The block `if (updates.dueamount)`: the due amount is cleaned and the
withholding is set from it. -/
def recalculate (updates : Obj) : Option Obj :=
  if (updates.get "dueamount").truthy then
    match cleanCurrency (updates.get "dueamount") with
    | none => none
    | some cleaned =>
      let updates := updates.set "dueamount" cleaned
      let dueAmountNum := parseFloatVal (updates.get "dueamount")
      some (updates.set "withholding"
        (JSVal.str (if dueAmountNum.gt threshold then "2.00".toList else "0.00".toList)))
  else some updates

/-- The block `if (updates.withholding && !updates.dueamount)`. -/
def ignoreManualWithholding (updates : Obj) : Obj :=
  if (updates.get "withholding").truthy && !(updates.get "dueamount").truthy then
    updates.delete "withholding"
  else updates

/-- The test `v === true || v === 'true'`. -/
def isTrue (v : JSVal) : Bool := v = JSVal.bool true || v = JSVal.str "true".toList

/-- The blocks for `traced` and `ts`. -/
def booleanField (k : String) (updates : Obj) : Obj :=
  if updates.get k ≠ JSVal.undefined then
    updates.set k (JSVal.bool (isTrue (updates.get k)))
  else updates

/-- The block "Handle ritenuta calculation". -/
def ritenutaField (updates : Obj) : Obj :=
  if updates.get "ritenuta" ≠ JSVal.undefined then
    updates.set "ritenuta"
      (JSVal.num (JSNum.fin (if isTrue (updates.get "ritenuta") then 20 else 0)))
  else updates

/-- The blocks for the two date fields. -/
def dateFields (updates : Obj) : Obj :=
  let updates :=
    if (updates.get "invoicedate").truthy then
      updates.set "invoicedate" (updates.get "invoicedate")
    else updates
  if (updates.get "collecteddate").truthy then
    updates.set "collecteddate"
      (if (updates.get "collecteddate").truthy then updates.get "collecteddate"
        else JSVal.null)
  else updates

/-- The update set after every normalising block, as long as none throws. -/
def normalise (body : Obj) : Option Obj :=
  (recalculate body).map (fun updates =>
    dateFields (ritenutaField (booleanField "ts" (booleanField "traced"
      (ignoreManualWithholding updates)))))

/-- The handler up to the query, from a copy of `req.body`. -/
def handler (body : Obj) : Outcome :=
  match normalise body with
  | none => Outcome.threw
  | some updates => if updates.length = 0 then Outcome.noData else Outcome.update updates

end Patch

/-! ## The two-column detail block of the PDF -/

namespace Pdf

/-- A `PDFDocument`: its vertical cursor `doc.y`, and the rest of its
state. -/
structure Doc (σ : Type) where
  y : ℚ
  rest : σ

/-- What the route takes from outside `server.js`: the methods of
`PDFDocument` used by the detail block, `String.prototype.toUpperCase`, and
the date formatting of `toLocaleDateString`.  None is interpreted. -/
structure Env (σ : Type) where
  fontSize : ℚ → Doc σ → Doc σ
  fillColor : JSString → Doc σ → Doc σ
  font : JSString → Doc σ → Doc σ
  /-- The call `doc.text(str, x, y)`. -/
  text : JSString → ℚ → ℚ → Doc σ → Doc σ
  /-- The call `doc.text(str, x, y, options)` with a width and an alignment. -/
  textIn : JSString → ℚ → ℚ → ℚ → JSString → Doc σ → Doc σ
  moveDown : ℚ → Doc σ → Doc σ
  toUpperCase : JSString → JSString
  toLocaleDateString : JSVal → JSString

/-- The helper `formatDate`. -/
def formatDate {σ : Type} (env : Env σ) (dateStr : JSVal) : JSString :=
  if !dateStr.truthy then "N/A".toList else env.toLocaleDateString dateStr

/-- The operand choice of `v || fallback`, converted to text. -/
def orText (v : JSVal) (fallback : String) : JSString :=
  if v.truthy then v.toStr else fallback.toList

/-- The city line: the postal code, the city and the bracketed province,
the falsy ones dropped, joined by single spaces. -/
def cityLine (invoice : Invoice) : JSString :=
  let province : JSVal :=
    if invoice.patient_province.truthy then
      JSVal.str ('(' :: (invoice.patient_province.toStr ++ [')']))
    else JSVal.null
  let parts := [invoice.patient_postalcode, invoice.patient_city, province].filter JSVal.truthy
  List.intercalate [' '] (parts.map JSVal.toStr)

/-- The test guarding the country line; `none` is the `TypeError` of calling
`toUpperCase` on a truthy value that is not a string. -/
def showsCountry {σ : Type} (env : Env σ) (country : JSVal) : Option Bool :=
  if !country.truthy then some false
  else
    match country with
    | JSVal.str s =>
      some (decide (env.toUpperCase s ≠ "ITALY".toList) &&
        decide (env.toUpperCase s ≠ "ITALIA".toList))
    | _ => none

/-- The state at the end of the detail block. -/
structure DetailBlock (σ : Type) where
  /-- The value of `startY`. -/
  startY : ℚ
  /-- The value of `currentY` when the left column is complete. -/
  leftY : ℚ
  /-- The value of `currentY` when the right column is complete. -/
  rightY : ℚ
  /-- The document after `doc.y = Math.max(doc.y, currentY + 30)`. -/
  merged : Doc σ
  /-- The document after the closing `doc.moveDown(1)`. -/
  final : Doc σ

/-- The left column, "Patient Information": the final `currentY` and the
document. -/
def leftColumn {σ : Type} (env : Env σ) (invoice : Invoice) (doc : Doc σ) :
    Option (ℚ × Doc σ) :=
  let leftColumn : ℚ := 50
  let currentY := doc.y
  let doc := env.text "BILLED TO:".toList leftColumn currentY
    (env.fillColor "#999999".toList (env.fontSize 10 doc))
  let currentY := currentY + 20
  let doc := env.text (orText invoice.patient_name "Unknown Patient") leftColumn currentY
    (env.font "Helvetica-Bold".toList (env.fillColor "#000000".toList (env.fontSize 14 doc)))
  let currentY := currentY + 20
  let doc := env.text ("Fiscal Code: ".toList ++ orText invoice.fiscalcode "N/A") leftColumn
    currentY (env.fillColor "#666666".toList (env.font "Helvetica".toList (env.fontSize 10 doc)))
  let (currentY, doc) :=
    if invoice.patient_address.truthy then
      (currentY + 15,
        env.textIn invoice.patient_address.toStr leftColumn (currentY + 15) 240 "left".toList doc)
    else (currentY, doc)
  let (currentY, doc) :=
    if invoice.patient_city.truthy || invoice.patient_postalcode.truthy then
      (currentY + 15,
        if cityLine invoice ≠ [] then env.text (cityLine invoice) leftColumn (currentY + 15) doc
        else doc)
    else (currentY, doc)
  match showsCountry env invoice.patient_country with
  | none => none
  | some true =>
    some (currentY + 15,
      env.font "Helvetica".toList
        (env.text (env.toUpperCase invoice.patient_country.toStr) leftColumn (currentY + 15)
          (env.font "Helvetica-Bold".toList doc)))
  | some false => some (currentY, doc)

/-- The right column, "Invoice Information", from `currentY = startY`: the
final `currentY` and the document. -/
def rightColumn {σ : Type} (env : Env σ) (invoice : Invoice) (startY : ℚ) (doc : Doc σ) :
    ℚ × Doc σ :=
  let rightColumn : ℚ := 320
  let currentY := startY
  let doc := env.text "INVOICE DETAILS:".toList rightColumn currentY
    (env.fillColor "#999999".toList (env.fontSize 10 doc))
  let currentY := currentY + 20
  let doc := env.text "Invoice Date:".toList rightColumn currentY
    (env.fillColor "#000000".toList (env.fontSize 10 doc))
  let doc := env.text (formatDate env invoice.invoicedate) (rightColumn + 100) currentY doc
  let currentY := currentY + 18
  let doc := env.text "Payment System:".toList rightColumn currentY doc
  let doc := env.text (orText invoice.system "Not specified") (rightColumn + 100) currentY doc
  let currentY := currentY + 18
  let doc := env.text "Status:".toList rightColumn currentY doc
  let doc := env.text (if invoice.traced.truthy then "Traced".toList else "Not Traced".toList)
    (rightColumn + 100) currentY
    (env.fillColor (if invoice.traced.truthy then "#28a745".toList else "#dc3545".toList) doc)
  if invoice.collecteddate.truthy then
    let currentY := currentY + 18
    let doc := env.text "Collected Date:".toList rightColumn currentY
      (env.fillColor "#000000".toList doc)
    (currentY, env.text (formatDate env invoice.collecteddate) (rightColumn + 100) currentY doc)
  else (currentY, doc)

/-- The section "INVOICE DETAILS SECTION - Two columns", from the document
as the header left it; `none` when the country test throws. -/
def detailBlock {σ : Type} (env : Env σ) (invoice : Invoice) (doc : Doc σ) :
    Option (DetailBlock σ) :=
  let startY := doc.y
  match leftColumn env invoice doc with
  | none => none
  | some (leftY, doc) =>
    let (currentY, doc) := rightColumn env invoice startY doc
    let merged : Doc σ := { doc with y := max doc.y (currentY + 30) }
    some
      { startY := startY
        leftY := leftY
        rightY := currentY
        merged := merged
        final := env.moveDown 1 merged }

end Pdf

end IDoctor

namespace IDoctor

/-! ## Sample inputs -/

/-- The row an `INSERT` wrote, read back with every column as it was
written; the columns of the joined patient are absent. -/
def storedInvoice (row : Obj) : Invoice where
  id := Obj.get row "id"
  dueamount := Obj.get row "dueamount"
  withholding := Obj.get row "withholding"
  ritenuta := Obj.get row "ritenuta"
  system := Obj.get row "system"
  invoicedate := Obj.get row "invoicedate"
  traced := Obj.get row "traced"
  collecteddate := Obj.get row "collecteddate"
  fiscalcode := Obj.get row "fiscalcode"
  patient_name := JSVal.undefined
  patient_address := JSVal.undefined
  patient_city := JSVal.undefined
  patient_postalcode := JSVal.undefined
  patient_province := JSVal.undefined
  patient_country := JSVal.undefined

/-- A create request that sends only a due amount and a deduction flag. -/
def sampleBody (dueamount : String) (ritenuta : Bool) : Create.Body where
  dueamount := JSVal.str dueamount.toList
  system := JSVal.undefined
  invoicedate := JSVal.undefined
  traced := JSVal.undefined
  collecteddate := JSVal.undefined
  fiscalcode := JSVal.undefined
  ts := JSVal.undefined
  ritenuta := JSVal.bool ritenuta

/-- A row with an address, a city and a collected date. -/
def sampleInvoice : Invoice where
  id := JSVal.num (JSNum.fin 7)
  dueamount := JSVal.str "100.00".toList
  withholding := JSVal.str "2.00".toList
  ritenuta := JSVal.num (JSNum.fin 20)
  system := JSVal.str "POS".toList
  invoicedate := JSVal.str "2024-01-15".toList
  traced := JSVal.bool true
  collecteddate := JSVal.str "2024-02-01".toList
  fiscalcode := JSVal.str "RSSMRA80A01H501U".toList
  patient_name := JSVal.str "Mario Rossi".toList
  patient_address := JSVal.str "Via Roma 1".toList
  patient_city := JSVal.str "Lyon".toList
  patient_postalcode := JSVal.undefined
  patient_province := JSVal.undefined
  patient_country := JSVal.str "France".toList

/-- The row of `sampleInvoice` with its rate marker held as text. -/
def sampleTextInvoice : Invoice :=
  { sampleInvoice with ritenuta := JSVal.str "20".toList }

/-- A stand-in for the library: every text call leaves the cursor twelve
points under the line it drew, `moveDown(n)` advances by twelve points a
line, and the other calls change nothing. -/
def sampleEnv : Pdf.Env Unit where
  fontSize := fun _ d => d
  fillColor := fun _ d => d
  font := fun _ d => d
  text := fun _ _ y d => { d with y := y + 12 }
  textIn := fun _ _ y _ _ d => { d with y := y + 12 }
  moveDown := fun n d => { d with y := d.y + 12 * n }
  toUpperCase := fun s => s.map Char.toUpper
  toLocaleDateString := fun v => v.toStr

/-! ## Auxiliary predicates -/

/-- The characters at which every scan of a numeric literal stops whatever
came before: not a digit, a sign or an exponent mark, and not a letter of
`Infinity`. -/
def Stopper (x : Char) : Prop :=
  x.isDigit = false ∧ x ≠ '+' ∧ x ≠ '-' ∧ x ≠ 'e' ∧ x ≠ 'E' ∧ x ∉ "Infinity".toList

instance (x : Char) : Decidable (Stopper x) := by
  unfold Stopper
  infer_instance


/-- Whether the first character is a decimal digit. -/
def headIsDigit : JSString → Bool
  | [] => false
  | d :: _ => d.isDigit

/-- Whether the text begins with a `StrUnsignedDecimalLiteral`: `Infinity`,
a digit, or a point followed by a digit. -/
def startsUnsignedLiteral (r : JSString) : Bool :=
  startsWith "Infinity".toList r ||
    match r with
    | [] => false
    | c :: r1 => c.isDigit || (c = '.' && headIsDigit r1)

/-- Whether the text begins with an optional sign and an unsigned
literal. -/
def startsSignedLiteral : JSString → Bool
  | '+' :: r => startsUnsignedLiteral r
  | '-' :: r => startsUnsignedLiteral r
  | r => startsUnsignedLiteral r

/-- Whether the text, after leading white space, begins with a
`StrDecimalLiteral`: an optional sign and an unsigned literal. -/
def startsLiteral (t : JSString) : Bool :=
  startsSignedLiteral (t.dropWhile isWhiteSpace)

/-- The reading of "a valid decimal number" for a whole text: an optional
sign, then digits with at most one point among them and at least one digit,
and nothing else. -/
def isDecimalNumber (t : JSString) : Bool :=
  let u :=
    match t with
    | '+' :: r => r
    | '-' :: r => r
    | r => r
  match afterDigits u with
  | [] => !(leadingDigits u).isEmpty
  | '.' :: r2 => (!(leadingDigits u).isEmpty || !r2.isEmpty) && r2.all Char.isDigit
  | _ => false

/-! ## The whole page of the PDF -/

namespace Pdf

/-- The methods of `PDFDocument` and of `Date` used by the rest of the
route, next to those of `Env`.  None is interpreted; `image` returns `none`
when it throws, as it does when the file is missing. -/
structure Kit (σ : Type) extends Env σ where
  rect : ℚ → ℚ → ℚ → ℚ → Doc σ → Doc σ
  strokeColor : JSString → Doc σ → Doc σ
  lineWidth : ℚ → Doc σ → Doc σ
  /-- The call `doc.dash(length, { space })`. -/
  dash : ℚ → ℚ → Doc σ → Doc σ
  undash : Doc σ → Doc σ
  stroke : Doc σ → Doc σ
  fill : Doc σ → Doc σ
  moveTo : ℚ → ℚ → Doc σ → Doc σ
  lineTo : ℚ → ℚ → Doc σ → Doc σ
  /-- The call `doc.text(str, { align })`, which draws at the cursor. -/
  textFlow : JSString → JSString → Doc σ → Doc σ
  /-- The call `doc.text(str, x, y, { align })`. -/
  textAlign : JSString → ℚ → ℚ → JSString → Doc σ → Doc σ
  /-- The call `doc.image(path, x, y, { width, align })`. -/
  image : JSString → ℚ → ℚ → ℚ → JSString → Doc σ → Option (Doc σ)
  /-- The call `doc.end()`. -/
  endDoc : Doc σ → Doc σ
  /-- The value of `new Date()`. -/
  now : JSVal
  toLocaleString : JSVal → JSString

/-- A straight line from `(x1, y)` to `(x2, y)`:
`doc.moveTo(x1, y).lineTo(x2, y).strokeColor(color).lineWidth(width).stroke()`. -/
def strokeLine {σ : Type} (kit : Kit σ) (x1 x2 y : ℚ) (color : String) (width : ℚ)
    (doc : Doc σ) : Doc σ :=
  kit.stroke (kit.lineWidth width (kit.strokeColor color.toList
    (kit.lineTo x2 y (kit.moveTo x1 y doc))))

/-- The section "STAMP PLACEHOLDER (if required) - Top Left Corner". -/
def stampBlock {σ : Type} (kit : Kit σ) (requiresStamp : Bool) (doc : Doc σ) : Doc σ :=
  let stampSize : ℚ := 85.04
  if requiresStamp then
    let stampX : ℚ := 50
    let stampY : ℚ := 50
    let doc := kit.stroke (kit.dash 5 3 (kit.lineWidth 2 (kit.strokeColor "#dc3545".toList
      (kit.rect stampX stampY stampSize stampSize doc))))
    let doc := kit.undash doc
    let doc := kit.textIn "INSERIRE".toList stampX (stampY + 25) stampSize "center".toList
      (kit.font "Helvetica-Bold".toList (kit.fillColor "#dc3545".toList (kit.fontSize 10 doc)))
    let doc := kit.textIn "BOLLO".toList stampX (stampY + 40) stampSize "center".toList doc
    kit.textIn "€ 2,00".toList stampX (stampY + 60) stampSize "center".toList
      (kit.font "Helvetica".toList (kit.fillColor "#666666".toList (kit.fontSize 7 doc)))
  else doc

/-- The section "HEADER SECTION": the value of `doc.y` at which the divider
is drawn, and the document. -/
def header {σ : Type} (kit : Kit σ) (invoice : Invoice) (doc : Doc σ) : ℚ × Doc σ :=
  let doc := kit.textFlow "INVOICE".toList "center".toList
    (kit.fillColor "#0d6efd".toList (kit.fontSize 28 doc))
  let doc := kit.textFlow ("Invoice Number: #".toList ++ invoice.id.toStr) "center".toList
    (kit.fillColor "#666666".toList (kit.fontSize 12 doc))
  let doc := kit.moveDown 0.5 doc
  let dividerY := doc.y
  let doc := kit.moveTo 50 doc.y doc
  let doc := kit.lineTo 545 doc.y doc
  let doc := kit.stroke (kit.lineWidth 2 (kit.strokeColor "#0d6efd".toList doc))
  (dividerY, kit.moveDown 1.5 doc)

/-- One row of the table at `rowY`: the description, the amount text
right-aligned in 85 points, and the divider 25 points below; the next
`rowY` is 40 points below. -/
def tableRow {σ : Type} (kit : Kit σ) (description : String) (amount : JSString) (rowY : ℚ)
    (doc : Doc σ) : ℚ × Doc σ :=
  let descriptionX : ℚ := 50
  let amountX : ℚ := 450
  let doc := kit.textIn amount amountX rowY 85 "right".toList
    (kit.text description.toList (descriptionX + 10) rowY doc)
  let rowY := rowY + 25
  let doc := strokeLine kit 50 545 rowY "#dddddd" 1 doc
  (rowY + 15, doc)

/-- The header bar of the table at `tableTop`, with its two labels. -/
def tableHead {σ : Type} (kit : Kit σ) (tableTop : ℚ) (doc : Doc σ) : Doc σ :=
  let descriptionX : ℚ := 50
  let amountX : ℚ := 450
  let doc := kit.fill (kit.fillColor "#f8f9fa".toList (kit.rect 50 tableTop 495 30 doc))
  kit.textIn "AMOUNT".toList amountX (tableTop + 10) 85 "right".toList
    (kit.text "DESCRIPTION".toList (descriptionX + 10) (tableTop + 10)
      (kit.font "Helvetica-Bold".toList (kit.fillColor "#000000".toList (kit.fontSize 11 doc))))

/-- The section "TABLE SECTION": the value of `tableTop`, the final `rowY`
and the document.  The due-amount row, the deduction row when `ritenuta >
0`, and the stamp-fee row. -/
def tableSection {σ : Type} (kit : Kit σ) (a : Amounts) (doc : Doc σ) : ℚ × ℚ × Doc σ :=
  let tableTop := doc.y + 20
  let doc := tableHead kit tableTop doc
  let rowY := tableTop + 40
  let doc := kit.fontSize 10 (kit.font "Helvetica".toList doc)
  let due := tableRow kit "Totale (Esente art.10 - N.4)" (formatCurrency a.dueAmount)
    rowY (kit.fillColor "#000000".toList doc)
  let deduction :=
    if a.ritenuta.gt (JSNum.fin 0) then
      tableRow kit "Ritenuta d\x27acconto (20%)" ('-' :: formatCurrency a.ritenutaDeduction)
        due.1 (kit.fontSize 10 (kit.fillColor "#000000".toList due.2))
    else due
  let bollo := tableRow kit "Bollo" (formatCurrency a.withholding) deduction.1
    (kit.fontSize 10 (kit.fillColor "#000000".toList deduction.2))
  (tableTop, bollo.1, bollo.2)

/-- The section "TOTAL SECTION", with the box at `rowY`. -/
def totalSection {σ : Type} (kit : Kit σ) (a : Amounts) (rowY : ℚ) (doc : Doc σ) : Doc σ :=
  let amountX : ℚ := 450
  let doc := kit.fill (kit.fillColor "#e7f5ff".toList (kit.rect 350 rowY 195 40 doc))
  kit.textIn (formatCurrency a.total) amountX (rowY + 12) 85 "right".toList
    (kit.text "TOTAL AMOUNT:".toList 360 (rowY + 12)
      (kit.fillColor "#0d6efd".toList (kit.font "Helvetica-Bold".toList (kit.fontSize 14 doc))))

/-- The section "SIGNATURE SECTION": the `try` block when the image loads,
the `catch` block when `doc.image` throws. -/
def signature {σ : Type} (kit : Kit σ) (signatureY : ℚ) (doc : Doc σ) : Doc σ :=
  match kit.image "public/images/signature.png".toList 350 signatureY 150 "right".toList doc with
  | some doc =>
    let doc := strokeLine kit 350 500 (signatureY + 60) "#000000" 1 doc
    let doc := kit.textIn "Authorized Signature".toList 350 (signatureY + 65) 150 "center".toList
      (kit.font "Helvetica".toList (kit.fillColor "#000000".toList (kit.fontSize 10 doc)))
    kit.textIn ("Date: ".toList ++ formatDate kit.toEnv kit.now) 350 (signatureY + 80) 150
      "center".toList (kit.fillColor "#666666".toList (kit.fontSize 8 doc))
  | none =>
    let doc := kit.text "Authorized by:".toList 350 signatureY
      (kit.font "Helvetica-Bold".toList (kit.fillColor "#000000".toList (kit.fontSize 10 doc)))
    kit.text "[Signature image not available]".toList 350 (signatureY + 20)
      (kit.fillColor "#666666".toList (kit.fontSize 8 doc))

/-- The value of `footerY`. -/
def footerY : ℚ := 700

/-- The section "FOOTER SECTION" and the closing `doc.end()`. -/
def footer {σ : Type} (kit : Kit σ) (doc : Doc σ) : Doc σ :=
  let doc := strokeLine kit 50 545 footerY "#dddddd" 1 doc
  let doc := kit.textAlign "This is a computer-generated invoice with digital signature.".toList
    50 (footerY + 35) "center".toList (kit.fontSize 8 doc)
  let doc := kit.textAlign ("Generated on: ".toList ++ kit.toLocaleString kit.now) 50
    (footerY + 50) "center".toList doc
  kit.endDoc doc

/-- Where the regions of one page were laid out. -/
structure Layout (σ : Type) where
  /-- The value of `doc.y` from which the header is laid out. -/
  headerY : ℚ
  /-- The value of `doc.y` at which the header's divider is drawn. -/
  dividerY : ℚ
  /-- The value of `startY`, the top of the two columns. -/
  startY : ℚ
  /-- The value of `tableTop`. -/
  tableTop : ℚ
  /-- The value of `rowY` at which the totals box is drawn. -/
  totalsY : ℚ
  /-- The value of `signatureY`. -/
  signatureY : ℚ
  /-- The document after `doc.end()`. -/
  doc : Doc σ

/-- The vertical positions of the regions that follow the stamp, top to
bottom. -/
def Layout.positions {σ : Type} (l : Layout σ) : List ℚ :=
  [l.headerY, l.dividerY, l.startY, l.tableTop, l.totalsY, l.signatureY]

/-- The page from the stamp placeholder to `doc.end()`, for the amounts `a`
and the flag `requiresStamp`; `none` when the country test throws. -/
def renderFrom {σ : Type} (kit : Kit σ) (invoice : Invoice) (a : Amounts)
    (requiresStamp : Bool) (doc : Doc σ) : Option (Layout σ) :=
  let doc := stampBlock kit requiresStamp doc
  let headerY := doc.y
  let (dividerY, doc) := header kit invoice doc
  match detailBlock kit.toEnv invoice doc with
  | none => none
  | some block =>
    let (tableTop, rowY, doc) := tableSection kit a block.final
    let doc := totalSection kit a rowY doc
    let signatureY := rowY + 80
    let doc := signature kit signatureY doc
    some
      { headerY := headerY
        dividerY := dividerY
        startY := block.startY
        tableTop := tableTop
        totalsY := rowY
        signatureY := signatureY
        doc := footer kit doc }

/-- The page the route draws for a row, on a new document. -/
def render {σ : Type} (kit : Kit σ) (invoice : Invoice) (doc : Doc σ) : Option (Layout σ) :=
  match amounts invoice with
  | none => none
  | some a => renderFrom kit invoice a (a.dueAmount.gt threshold) doc

/-- A call to the library, with its arguments; a text drawn at the cursor
carries the cursor's `y`. -/
inductive Call where
  | fontSize (size : ℚ)
  | fillColor (color : JSString)
  | font (name : JSString)
  | text (str : JSString) (x y : ℚ)
  | textIn (str : JSString) (x y width : ℚ) (align : JSString)
  | textFlow (str : JSString) (align : JSString) (y : ℚ)
  | textAlign (str : JSString) (x y : ℚ) (align : JSString)
  | moveDown (lines : ℚ)
  | rect (x y w h : ℚ)
  | strokeColor (color : JSString)
  | lineWidth (width : ℚ)
  | dash (length space : ℚ)
  | undash
  | stroke
  | fill
  | moveTo (x y : ℚ)
  | lineTo (x y : ℚ)
  | image (path : JSString) (x y width : ℚ) (align : JSString)
  | endDoc
  deriving DecidableEq

/-- The library call `c` recorded after those of `doc`, the cursor left at
`y`. -/
def record (c : Call) (y : ℚ) (doc : Doc (List Call)) : Doc (List Call) :=
  { y := y, rest := doc.rest ++ [c] }

/-- A stand-in for the library that records every call.  It follows the
cursor rule of `pdfkit` with lines twelve points high: a text drawn at `(x,
y)` leaves the cursor one line under `y`, a text drawn at the cursor leaves
it one line further down, `moveDown(n)` advances it by `n` lines, and no
other call moves it.  The image loads when `signature` is true. -/
def recorder (signature : Bool) : Kit (List Call) where
  fontSize := fun n d => record (Call.fontSize n) d.y d
  fillColor := fun c d => record (Call.fillColor c) d.y d
  font := fun f d => record (Call.font f) d.y d
  text := fun s x y d => record (Call.text s x y) (y + 12) d
  textIn := fun s x y w al d => record (Call.textIn s x y w al) (y + 12) d
  moveDown := fun n d => record (Call.moveDown n) (d.y + 12 * n) d
  toUpperCase := fun s => s.map Char.toUpper
  toLocaleDateString := fun v => v.toStr
  rect := fun x y w h d => record (Call.rect x y w h) d.y d
  strokeColor := fun c d => record (Call.strokeColor c) d.y d
  lineWidth := fun w d => record (Call.lineWidth w) d.y d
  dash := fun l s d => record (Call.dash l s) d.y d
  undash := fun d => record Call.undash d.y d
  stroke := fun d => record Call.stroke d.y d
  fill := fun d => record Call.fill d.y d
  moveTo := fun x y d => record (Call.moveTo x y) d.y d
  lineTo := fun x y d => record (Call.lineTo x y) d.y d
  textFlow := fun s al d => record (Call.textFlow s al d.y) (d.y + 12) d
  textAlign := fun s x y al d => record (Call.textAlign s x y al) (y + 12) d
  image := fun p x y w al d =>
    if signature then some (record (Call.image p x y w al) d.y d) else none
  endDoc := fun d => record Call.endDoc d.y d
  now := JSVal.obj "Thu Nov 05 2026".toList
  toLocaleString := fun v => v.toStr

/-- The texts of the calls `doc.text(str, x, y)`, in the order of the
calls: in the table these are the descriptions of the rows. -/
def labels : List Call → List JSString
  | [] => []
  | Call.text s _ _ :: cs => s :: labels cs
  | _ :: cs => labels cs

/-- A new document: the cursor at the top margin of 50 points, no call
made. -/
def newDoc : Doc (List Call) := { y := 50, rest := [] }

end Pdf

namespace Pdf

/-- The texts of the calls `doc.text(str, x, y, { width, align })`, in the
order of the calls: in the table these are the amounts of the rows. -/
def amountTexts : List Call → List JSString
  | [] => []
  | Call.textIn s _ _ _ _ :: cs => s :: amountTexts cs
  | _ :: cs => amountTexts cs

end Pdf

/-- A row with the deduction requested on a due amount of zero. -/
def zeroDueInvoice : Invoice :=
  { sampleInvoice with
    dueamount := JSVal.str "0".toList
    withholding := JSVal.str "0.00".toList }

/-- The row of `sampleInvoice` with a due amount under the threshold. -/
def lowDueInvoice : Invoice :=
  { sampleInvoice with
    dueamount := JSVal.str "50.00".toList
    withholding := JSVal.str "0.00".toList }


/-! ## Binary64 arithmetic

The definitions above hold a finite number as the exact value of its
decimal text.  The program holds IEEE 754 binary64 values: a literal, a text
read by `parseFloat`, a product, a difference and a sum are each rounded to
the nearest value with a significand of 53 bits.  The definitions of this
section round as the program does; the write path and the two read routes
are given again over them. -/

namespace Binary64

/-- The power `2 ^ e`. -/
def pow2 (e : ℤ) : ℚ :=
  if 0 ≤ e then ((2 ^ e.toNat : ℕ) : ℚ) else mkRat 1 (2 ^ (-e).toNat)

/-- The number of binary digits of `n`, looking at no more than `fuel` of
them. -/
def binaryDigits : ℕ → ℕ → ℕ
  | 0, _ => 0
  | fuel + 1, n => if n = 0 then 0 else binaryDigits fuel (n / 2) + 1

/-- The integer `e` with `2 ^ e ≤ q < 2 ^ (e + 1)`, for a positive `q`. -/
def exponent (q : ℚ) : ℤ :=
  let e : ℤ := (binaryDigits q.num.natAbs q.num.natAbs : ℤ) - (binaryDigits q.den q.den : ℤ)
  if q < pow2 e then e - 1 else e

/-- The integer nearest to `q`, the even one of the two on a tie. -/
def roundTiesToEven (q : ℚ) : ℤ :=
  let f := Rat.floor q
  if q - f < 1 / 2 then f
  else if 1 / 2 < q - f then f + 1
  else if f % 2 = 0 then f else f + 1

/-- The Number value of a real number: the binary64 value nearest to it,
the one with the even significand on a tie.  The unit in the last place is
`2 ^ (e - 52)` for a magnitude in `[2 ^ e, 2 ^ (e + 1))` and never less than
`2 ^ (-1074)`; a result of magnitude `2 ^ 1024` is an infinity.  The sign of
a zero is not kept. -/
def ofRat (q : ℚ) : JSNum :=
  if q = 0 then JSNum.fin 0
  else
    let a := if q < 0 then -q else q
    let e := if exponent a - 52 < -1074 then -1074 else exponent a - 52
    let v := (roundTiesToEven (a / pow2 e) : ℚ) * pow2 e
    if pow2 1024 ≤ v then (if q < 0 then JSNum.negInf else JSNum.posInf)
    else JSNum.fin (if q < 0 then -v else v)

/-- The Number value of a result computed exactly. -/
def ofExact : JSNum → JSNum
  | JSNum.fin q => ofRat q
  | x => x

/-- The global `parseFloat` on a string: the Number value of the literal it
reads. -/
def parseFloat (s : JSString) : JSNum := ofExact (IDoctor.parseFloat s)

/-- The global `parseFloat` on any value. -/
def parseFloatVal (v : JSVal) : JSNum := parseFloat v.toStr

/-- The `+` of two numbers. -/
def add (a b : JSNum) : JSNum := ofExact (JSNum.add a b)

/-- The binary `-`. -/
def sub (a b : JSNum) : JSNum := ofExact (JSNum.sub a b)

/-- The `*` of two numbers. -/
def mul (a b : JSNum) : JSNum := ofExact (JSNum.mul a b)

/-- The literal `77.47`. -/
def threshold : JSNum := ofRat 77.47

/-- The literal `0.20`. -/
def rate : JSNum := ofRat 0.20

namespace InvoiceList

/-- The helper `parseCurrency` of `GET /invoices`; `none` is the `TypeError`
of calling `replace` on a value that has no such method. -/
def parseCurrency (v : JSVal) : Option JSNum :=
  if !v.truthy then some (JSNum.fin 0)
  else
    match v with
    | JSVal.str s =>
      let num := Binary64.parseFloat (cleanText s)
      some (if num.isNaN then JSNum.fin 0 else num)
    | _ => none

/-- The amounts computed for one row by the `map` callback; `none` when a
`parseCurrency` call throws. -/
def amounts (invoice : Invoice) : Option Amounts :=
  match parseCurrency invoice.dueamount, parseCurrency invoice.withholding,
      parseCurrency invoice.ritenuta with
  | some dueAmount, some withholding, some ritenuta =>
    let ritenutaDeduction :=
      if ritenuta.gt (JSNum.fin 0) then Binary64.mul dueAmount rate else JSNum.fin 0
    some
      { dueAmount := dueAmount
        withholding := withholding
        ritenuta := ritenuta
        ritenutaDeduction := ritenutaDeduction
        total := Binary64.add (Binary64.sub dueAmount ritenutaDeduction) withholding }
  | _, _, _ => none

end InvoiceList

namespace Pdf

/-- The helper `parseCurrency` of the PDF route; `none` would be a thrown
error. -/
def parseCurrency (v : JSVal) : Option JSNum :=
  if !v.truthy then some (JSNum.fin 0)
  else
    match v.toStringMethod with
    | some s =>
      let num := Binary64.parseFloat (cleanText s)
      some (if num.isNaN then JSNum.fin 0 else num)
    | none => none

/-- The section "Calculate amounts"; `none` when a `parseCurrency` call
throws. -/
def amounts (invoice : Invoice) : Option Amounts :=
  match parseCurrency invoice.dueamount, parseCurrency invoice.withholding,
      parseCurrency invoice.ritenuta with
  | some dueAmount, some withholding, some r =>
    let ritenuta := IDoctor.Pdf.orZero r
    let ritenutaDeduction :=
      if ritenuta.gt (JSNum.fin 0) then Binary64.mul dueAmount rate else JSNum.fin 0
    some
      { dueAmount := dueAmount
        withholding := withholding
        ritenuta := ritenuta
        ritenutaDeduction := ritenutaDeduction
        total := Binary64.add (Binary64.sub dueAmount ritenutaDeduction) withholding }
  | _, _, _ => none

/-- The flag `requiresStamp`: `dueAmount > 77.47`. -/
def requiresStamp (invoice : Invoice) : Option Bool :=
  (amounts invoice).map (fun a => a.dueAmount.gt threshold)

/-- The page the route draws for a row. -/
def render {σ : Type} (kit : IDoctor.Pdf.Kit σ) (invoice : Invoice) (doc : IDoctor.Pdf.Doc σ) :
    Option (IDoctor.Pdf.Layout σ) :=
  match amounts invoice with
  | none => none
  | some a => IDoctor.Pdf.renderFrom kit invoice a (a.dueAmount.gt threshold) doc

end Pdf

namespace Create

/-- The withholding text derived from the parsed due amount. -/
def withholdingOf (dueAmountNum : JSNum) : JSString :=
  if dueAmountNum.gt threshold then "2.00".toList else "0.00".toList

/-- The handler up to the `INSERT`: the columns and the values bound to
them; `none` when it throws before the query (answered with status 500). -/
def insertRow (b : IDoctor.Create.Body) : Option (List (String × JSVal)) :=
  match IDoctor.Create.cleanCurrency b.dueamount with
  | none => none
  | some dueamount =>
    let dueAmountNum := Binary64.parseFloat dueamount
    let withholding := withholdingOf dueAmountNum
    match IDoctor.Create.hasFiscalCode b.fiscalcode with
    | none => none
    | some true =>
      some [("dueamount", JSVal.str dueamount), ("withholding", JSVal.str withholding),
        ("system", b.system), ("invoicedate", b.invoicedate),
        ("traced", IDoctor.Create.orFalse b.traced),
        ("collecteddate", b.collecteddate), ("fiscalcode", b.fiscalcode),
        ("ts", IDoctor.Create.orFalse b.ts), ("ritenuta", IDoctor.Create.rateMarker b.ritenuta)]
    | some false =>
      some [("dueamount", JSVal.str dueamount), ("withholding", JSVal.str withholding),
        ("system", b.system), ("invoicedate", b.invoicedate),
        ("traced", IDoctor.Create.orFalse b.traced),
        ("collecteddate", b.collecteddate), ("ts", IDoctor.Create.orFalse b.ts),
        ("ritenuta", IDoctor.Create.rateMarker b.ritenuta)]

end Create

namespace Patch

/-- The block `if (updates.dueamount)`: the due amount is cleaned and the
withholding is set from it. -/
def recalculate (updates : Obj) : Option Obj :=
  if (updates.get "dueamount").truthy then
    match IDoctor.Patch.cleanCurrency (updates.get "dueamount") with
    | none => none
    | some cleaned =>
      let updates := updates.set "dueamount" cleaned
      let dueAmountNum := Binary64.parseFloatVal (updates.get "dueamount")
      some (updates.set "withholding"
        (JSVal.str (if dueAmountNum.gt threshold then "2.00".toList else "0.00".toList)))
  else some updates

/-- The update set after every normalising block, as long as none throws. -/
def normalise (body : Obj) : Option Obj :=
  (recalculate body).map (fun updates =>
    IDoctor.Patch.dateFields (IDoctor.Patch.ritenutaField (IDoctor.Patch.booleanField "ts"
      (IDoctor.Patch.booleanField "traced" (IDoctor.Patch.ignoreManualWithholding updates)))))

/-- The handler up to the query, from a copy of `req.body`. -/
def handler (body : Obj) : IDoctor.Patch.Outcome :=
  match normalise body with
  | none => IDoctor.Patch.Outcome.threw
  | some updates =>
    if updates.length = 0 then IDoctor.Patch.Outcome.noData
    else IDoctor.Patch.Outcome.update updates

end Patch

end Binary64

/-- The row after `UPDATE invoices SET ...` wrote the fields of the update
set, every other column as it was. -/
def updatedRow (row updates : Obj) : Obj :=
  updates.foldl (fun r p => Obj.set r p.1 p.2) row

end IDoctor

namespace IDoctor

/-! ## Property reads after writes -/

theorem Obj.get_append_single (o : Obj) (k k' : String) (v : JSVal) :
    Obj.get (o ++ [(k, v)]) k' =
      if Obj.has o k' then Obj.get o k' else if k = k' then v else JSVal.undefined := by
  induction o with
  | nil => simp [Obj.get, Obj.has]
  | cons p o ih =>
    obtain ⟨a, b⟩ := p
    by_cases hak : a = k'
    · simp [Obj.get, Obj.has, hak]
    · simp [Obj.get, Obj.has, hak, ih]

theorem Obj.get_of_not_has (o : Obj) (k : String) (h : Obj.has o k = false) :
    Obj.get o k = JSVal.undefined := by
  induction o with
  | nil => simp [Obj.get]
  | cons p o ih =>
    obtain ⟨a, b⟩ := p
    by_cases hak : a = k
    · simp [Obj.has, hak] at h
    · simp only [Obj.has, hak, if_false] at h
      simp [Obj.get, hak, ih h]

theorem Obj.get_replace (o : Obj) (k k' : String) (v : JSVal) :
    Obj.get (Obj.replace o k v) k' =
      if k = k' then (if Obj.has o k then v else JSVal.undefined) else Obj.get o k' := by
  induction o with
  | nil => simp [Obj.get, Obj.replace, Obj.has]
  | cons p o ih =>
    obtain ⟨a, b⟩ := p
    by_cases hkk : k = k'
    · subst hkk
      rw [if_pos rfl] at ih
      by_cases hak : a = k
      · subst hak; simp [Obj.get, Obj.replace, Obj.has]
      · simp [Obj.get, Obj.replace, Obj.has, hak, ih]
    · rw [if_neg hkk] at ih
      by_cases hak : a = k
      · subst hak; simp [Obj.get, Obj.replace, hkk, ih]
      · by_cases hak' : a = k'
        · subst hak'; simp [Obj.get, Obj.replace, hak, hkk]
        · simp [Obj.get, Obj.replace, hak, hkk, hak', ih]

theorem Obj.get_set (o : Obj) (k k' : String) (v : JSVal) :
    Obj.get (Obj.set o k v) k' = if k = k' then v else Obj.get o k' := by
  unfold Obj.set
  by_cases h : Obj.has o k = true
  · rw [if_pos h, Obj.get_replace]
    simp [h]
  · rw [if_neg h, Obj.get_append_single]
    have h' : Obj.has o k = false := by simpa using h
    by_cases hkk : k = k'
    · subst hkk; simp [h']
    · by_cases hh : Obj.has o k' = true
      · simp [hh, hkk]
      · have hh' : Obj.has o k' = false := by simpa using hh
        simp [hh', hkk, Obj.get_of_not_has o k' hh']

theorem Obj.get_delete (o : Obj) (k k' : String) :
    Obj.get (Obj.delete o k) k' = if k = k' then JSVal.undefined else Obj.get o k' := by
  induction o with
  | nil => simp [Obj.get, Obj.delete]
  | cons p o ih =>
    obtain ⟨a, b⟩ := p
    by_cases hkk : k = k'
    · subst hkk
      rw [if_pos rfl] at ih
      by_cases hak : a = k
      · subst hak; simp [Obj.delete, ih]
      · simp [Obj.delete, Obj.get, hak, ih]
    · rw [if_neg hkk] at ih
      by_cases hak : a = k
      · subst hak; simp [Obj.delete, Obj.get, hkk, ih]
      · by_cases hak' : a = k'
        · subst hak'; simp [Obj.delete, Obj.get, hak, hkk]
        · simp [Obj.delete, Obj.get, hak, hkk, hak', ih]

theorem Obj.has_delete_self (o : Obj) (k : String) : Obj.has (Obj.delete o k) k = false := by
  induction o with
  | nil => simp [Obj.has, Obj.delete]
  | cons p o ih =>
    obtain ⟨a, b⟩ := p
    by_cases hak : a = k
    · simp [Obj.delete, hak, ih]
    · simp [Obj.delete, Obj.has, hak, ih]

/-! ## The update route: what reaches the `SET` clause -/

theorem Patch.get_booleanField (k k' : String) (u : Obj) (h : k ≠ k') :
    Obj.get (Patch.booleanField k u) k' = Obj.get u k' := by
  unfold Patch.booleanField
  split
  · rw [Obj.get_set, if_neg h]
  · rfl

theorem Patch.get_dateFields (k' : String) (u : Obj) :
    Obj.get (Patch.dateFields u) k' = Obj.get u k' := by
  have key : ∀ (w : Obj) (k : String), Obj.get (Obj.set w k (Obj.get w k)) k' = Obj.get w k' := by
    intro w k
    rw [Obj.get_set]
    by_cases hk : k = k'
    · subst hk; simp
    · simp [hk]
  unfold Patch.dateFields
  by_cases h1 : (Obj.get u "invoicedate").truthy = true
  · simp only [h1, if_true]
    by_cases h2 : (Obj.get (Obj.set u "invoicedate" (Obj.get u "invoicedate")) "collecteddate").truthy = true
    · simp only [h2, if_true]
      rw [key, key]
    · simp only [h2]
      simp [key]
  · simp only [h1]
    by_cases h2 : (Obj.get u "collecteddate").truthy = true
    · simp [h2, key]
    · simp [h2]

theorem Patch.get_ritenutaField_other (k' : String) (u : Obj) (h : "ritenuta" ≠ k') :
    Obj.get (Patch.ritenutaField u) k' = Obj.get u k' := by
  unfold Patch.ritenutaField
  split
  · rw [Obj.get_set, if_neg h]
  · rfl

theorem Patch.get_ritenutaField (u : Obj) :
    Obj.get (Patch.ritenutaField u) "ritenuta" =
      if Obj.get u "ritenuta" = JSVal.undefined then JSVal.undefined
      else JSVal.num (JSNum.fin (if Patch.isTrue (Obj.get u "ritenuta") then 20 else 0)) := by
  unfold Patch.ritenutaField
  by_cases h : Obj.get u "ritenuta" = JSVal.undefined
  · simp [h]
  · simp [h, Obj.get_set]

/-- What `recalculate` leaves in every property other than the two it
assigns. -/
theorem Patch.get_recalculate_other (k' : String) (body u : Obj)
    (h : Patch.recalculate body = some u) (h1 : "dueamount" ≠ k') (h2 : "withholding" ≠ k') :
    Obj.get u k' = Obj.get body k' := by
  unfold Patch.recalculate at h
  by_cases ht : (Obj.get body "dueamount").truthy = true
  · rw [if_pos ht] at h
    cases hc : Patch.cleanCurrency (Obj.get body "dueamount") with
    | none => rw [hc] at h; cases h
    | some c =>
      rw [hc] at h
      simp only [Option.some.injEq] at h
      rw [← h, Obj.get_set, if_neg h2, Obj.get_set, if_neg h1]
  · rw [if_neg ht] at h
    simp only [Option.some.injEq] at h
    rw [h]

theorem Patch.get_ignoreManualWithholding_other (k' : String) (u : Obj)
    (h : "withholding" ≠ k') :
    Obj.get (Patch.ignoreManualWithholding u) k' = Obj.get u k' := by
  unfold Patch.ignoreManualWithholding
  split
  · rw [Obj.get_delete, if_neg h]
  · rfl

/-- The stored rate marker, for every request the update route does not
reject before the query. -/
theorem Patch.get_normalise_ritenuta (body u : Obj) (h : Patch.normalise body = some u) :
    Obj.get u "ritenuta" =
      if Obj.get body "ritenuta" = JSVal.undefined then JSVal.undefined
      else JSVal.num (JSNum.fin (if Patch.isTrue (Obj.get body "ritenuta") then 20 else 0)) := by
  unfold Patch.normalise at h
  cases hr : Patch.recalculate body with
  | none => rw [hr] at h; cases h
  | some u0 =>
    rw [hr] at h
    simp only [Option.map_some', Option.some.injEq] at h
    have e0 : Obj.get u0 "ritenuta" = Obj.get body "ritenuta" :=
      Patch.get_recalculate_other "ritenuta" body u0 hr (by decide) (by decide)
    rw [← h, Patch.get_dateFields, Patch.get_ritenutaField,
      Patch.get_booleanField "ts" "ritenuta" _ (by decide),
      Patch.get_booleanField "traced" "ritenuta" _ (by decide),
      Patch.get_ignoreManualWithholding_other "ritenuta" _ (by decide), e0]

/-- The withholding that reaches the `SET` clause equals the one left by the
first two blocks. -/
theorem Patch.get_normalise_withholding (body u : Obj) (h : Patch.normalise body = some u) :
    ∃ u0, Patch.recalculate body = some u0 ∧
      Obj.get u "withholding" = Obj.get (Patch.ignoreManualWithholding u0) "withholding" ∧
      Obj.get u "dueamount" = Obj.get u0 "dueamount" := by
  unfold Patch.normalise at h
  cases hr : Patch.recalculate body with
  | none => rw [hr] at h; cases h
  | some u0 =>
    rw [hr] at h
    simp only [Option.map_some', Option.some.injEq] at h
    refine ⟨u0, rfl, ?_, ?_⟩
    · rw [← h, Patch.get_dateFields, Patch.get_ritenutaField_other _ _ (by decide),
        Patch.get_booleanField "ts" "withholding" _ (by decide),
        Patch.get_booleanField "traced" "withholding" _ (by decide)]
    · rw [← h, Patch.get_dateFields, Patch.get_ritenutaField_other _ _ (by decide),
        Patch.get_booleanField "ts" "dueamount" _ (by decide),
        Patch.get_booleanField "traced" "dueamount" _ (by decide),
        Patch.get_ignoreManualWithholding_other "dueamount" _ (by decide)]

/-- With no truthy due amount in the body, the withholding that reaches the
`SET` clause is the client's own value when that value is falsy, and is
absent when it is truthy. -/
theorem Patch.withholding_without_dueamount (body u : Obj)
    (hd : (Obj.get body "dueamount").truthy = false) (h : Patch.normalise body = some u) :
    Obj.get u "withholding" =
      if (Obj.get body "withholding").truthy then JSVal.undefined
      else Obj.get body "withholding" := by
  obtain ⟨u0, hr, hw, -⟩ := Patch.get_normalise_withholding body u h
  have e0 : u0 = body := by
    unfold Patch.recalculate at hr
    simp only [hd] at hr
    simpa using hr.symm
  subst e0
  rw [hw]
  unfold Patch.ignoreManualWithholding
  by_cases ht : (Obj.get u0 "withholding").truthy = true
  · simp [ht, hd, Obj.get_delete]
  · simp [ht]

/-- A string due amount whose cleaned text is not empty: the withholding
that reaches the `SET` clause is the recomputed one, whatever the client
sent. -/
theorem Patch.withholding_recomputed (body : Obj) (s : JSString)
    (hd : Obj.get body "dueamount" = JSVal.str s) (hc : cleanText s ≠ []) :
    ∃ u, Patch.handler body = Patch.Outcome.update u ∧
      Obj.get u "dueamount" = JSVal.str (cleanText s) ∧
      Obj.get u "withholding" =
        JSVal.str (if (parseFloat (cleanText s)).gt threshold then "2.00".toList
          else "0.00".toList) := by
  have hs : s ≠ [] := by
    intro h0; apply hc; subst h0; rfl
  have htr : (JSVal.str s).truthy = true := by
    cases s with
    | nil => exact absurd rfl hs
    | cons c cs => rfl
  have hct : (JSVal.str (cleanText s)).truthy = true := by
    cases hcs : cleanText s with
    | nil => exact absurd hcs hc
    | cons c cs => rfl
  have hwt : ∀ b : Bool, (JSVal.str (if b then "2.00".toList else "0.00".toList)).truthy = true := by
    intro b; cases b <;> rfl
  have hr : Patch.recalculate body =
      some (Obj.set (Obj.set body "dueamount" (JSVal.str (cleanText s))) "withholding"
        (JSVal.str (if (parseFloat (cleanText s)).gt threshold then "2.00".toList
          else "0.00".toList))) := by
    unfold Patch.recalculate
    rw [hd, if_pos htr]
    simp only [Patch.cleanCurrency, htr, Bool.not_true, Bool.false_eq_true, if_false]
    simp only [Obj.get_set, if_true, parseFloatVal, JSVal.toStr]
  generalize hwdef : (JSVal.str (if (parseFloat (cleanText s)).gt threshold then "2.00".toList
          else "0.00".toList)) = w at hr ⊢
  have hwt' : w.truthy = true := by rw [← hwdef]; exact hwt _
  generalize hu0 : Obj.set (Obj.set body "dueamount" (JSVal.str (cleanText s))) "withholding" w
    = u0 at hr
  have hn : Patch.normalise body = some (Patch.dateFields (Patch.ritenutaField
      (Patch.booleanField "ts" (Patch.booleanField "traced"
        (Patch.ignoreManualWithholding u0))))) := by
    unfold Patch.normalise
    rw [hr]; rfl
  obtain ⟨u1, hr1, hgw, hgd⟩ := Patch.get_normalise_withholding body _ hn
  rw [hr] at hr1
  simp only [Option.some.injEq] at hr1
  subst hr1
  have hd0 : Obj.get u0 "dueamount" = JSVal.str (cleanText s) := by
    rw [← hu0, Obj.get_set, if_neg (by decide), Obj.get_set, if_pos rfl]
  have hw0 : Obj.get u0 "withholding" = w := by
    rw [← hu0, Obj.get_set, if_pos rfl]
  have hig : Patch.ignoreManualWithholding u0 = u0 := by
    unfold Patch.ignoreManualWithholding
    rw [hd0, hct]; simp
  refine ⟨_, ?_, hgd.trans hd0, by rw [hgw, hig, hw0]⟩
  unfold Patch.handler
  rw [hn]
  simp only
  split
  · rename_i hlen
    exfalso
    have hnil := List.eq_nil_of_length_eq_zero hlen
    rw [hnil] at hgd
    rw [hd0] at hgd
    simp [Obj.get] at hgd
  · rfl

/-! ## Claims on the write path -/

/-- C5 (the code at the failing inputs): with no `dueamount` in the body, a
client-supplied `withholding` of `0`, `""`, `false` or `null` passes the
guard against manual updates and is written to the store as sent. -/
theorem patch_writes_falsy_client_withholding :
    Patch.handler [("withholding", JSVal.num (JSNum.fin 0))] =
        Patch.Outcome.update [("withholding", JSVal.num (JSNum.fin 0))] ∧
      Patch.handler [("withholding", JSVal.str [])] =
        Patch.Outcome.update [("withholding", JSVal.str [])] ∧
      Patch.handler [("withholding", JSVal.bool false)] =
        Patch.Outcome.update [("withholding", JSVal.bool false)] ∧
      Patch.handler [("withholding", JSVal.null)] =
        Patch.Outcome.update [("withholding", JSVal.null)] := by
  decide!

/-- C6 (the code at the failing inputs): a `dueamount` of `0` is written
without any withholding, the client's one being dropped and none computed;
an empty `dueamount` is written next to the client's own falsy withholding;
and a `dueamount` that cleans to the empty text loses its recomputed
withholding to the guard against manual updates. -/
theorem patch_skips_recalculation_for_falsy_dueamount :
    Patch.handler [("dueamount", JSVal.num (JSNum.fin 0)),
        ("withholding", JSVal.str "5.00".toList)] =
        Patch.Outcome.update [("dueamount", JSVal.num (JSNum.fin 0))] ∧
      Patch.handler [("dueamount", JSVal.str []), ("withholding", JSVal.bool false)] =
        Patch.Outcome.update [("dueamount", JSVal.str []), ("withholding", JSVal.bool false)] ∧
      Patch.handler [("dueamount", JSVal.str "€".toList),
        ("withholding", JSVal.str "5.00".toList)] =
        Patch.Outcome.update [("dueamount", JSVal.str [])] := by
  decide!

/-! ## The cursor after the two columns -/

theorem Pdf.leftColumn_bounds {σ : Type} (env : Pdf.Env σ) (invoice : Invoice) (doc : Pdf.Doc σ)
    (y : ℚ) (d : Pdf.Doc σ) (h : Pdf.leftColumn env invoice doc = some (y, d)) :
    doc.y + 40 ≤ y ∧ y ≤ doc.y + 85 := by
  unfold Pdf.leftColumn at h
  simp only at h
  by_cases h1 : invoice.patient_address.truthy = true <;>
  by_cases h2 : (invoice.patient_city.truthy || invoice.patient_postalcode.truthy) = true <;>
  cases h3 : Pdf.showsCountry env invoice.patient_country with
  | none => simp [h1, h2, h3] at h
  | some t =>
    cases t <;>
    · simp only [h1, h2, h3, if_true, if_false, Bool.false_eq_true, Option.some.injEq,
        Prod.mk.injEq] at h
      obtain ⟨hy, -⟩ := h
      constructor <;> linarith

theorem Pdf.rightColumn_bounds {σ : Type} (env : Pdf.Env σ) (invoice : Invoice) (startY : ℚ)
    (doc : Pdf.Doc σ) :
    startY + 56 ≤ (Pdf.rightColumn env invoice startY doc).1 ∧
      (Pdf.rightColumn env invoice startY doc).1 ≤ startY + 74 := by
  unfold Pdf.rightColumn
  simp only
  by_cases h1 : invoice.collecteddate.truthy = true
  · simp only [h1, if_true]
    constructor <;> linarith
  · simp only [h1, if_false, Bool.false_eq_true]
    constructor <;> linarith

/-- C10: after `doc.y = Math.max(doc.y, currentY + 30)` the shared cursor
is at or below the final `currentY` of the left column and of the right
column, for every row and whatever the library calls do to the document;
the same holds after the closing `moveDown(1)` as long as that call does not
move the cursor up.  The block fails to complete only when the country test
throws. -/
theorem detail_block_cursor_ge_columns {σ : Type} (env : Pdf.Env σ) (invoice : Invoice)
    (doc : Pdf.Doc σ) :
    match Pdf.detailBlock env invoice doc with
    | some r =>
      r.leftY ≤ r.merged.y ∧ r.rightY ≤ r.merged.y ∧
        ((∀ d : Pdf.Doc σ, d.y ≤ (env.moveDown 1 d).y) →
          r.leftY ≤ r.final.y ∧ r.rightY ≤ r.final.y)
    | none => Pdf.showsCountry env invoice.patient_country = none := by
  unfold Pdf.detailBlock
  cases hl : Pdf.leftColumn env invoice doc with
  | none =>
    simp only
    unfold Pdf.leftColumn at hl
    simp only at hl
    cases h3 : Pdf.showsCountry env invoice.patient_country with
    | none => rfl
    | some t => cases t <;> simp [h3] at hl
  | some p =>
    obtain ⟨leftY, doc1⟩ := p
    have hb := Pdf.leftColumn_bounds env invoice doc leftY doc1 hl
    have hr := Pdf.rightColumn_bounds env invoice doc.y doc1
    simp only
    have hmax : (Pdf.rightColumn env invoice doc.y doc1).1 + 30 ≤
        max (Pdf.rightColumn env invoice doc.y doc1).2.y
          ((Pdf.rightColumn env invoice doc.y doc1).1 + 30) := le_max_right _ _
    refine ⟨by linarith [hb.2, hr.1], by linarith, ?_⟩
    intro hmove
    have hm := hmove { (Pdf.rightColumn env invoice doc.y doc1).2 with
      y := max (Pdf.rightColumn env invoice doc.y doc1).2.y
        ((Pdf.rightColumn env invoice doc.y doc1).1 + 30) }
    simp only at hm
    constructor
    · linarith [hb.2, hr.1]
    · linarith

/-- C10, applied to a row whose left column shows every optional line and
whose right column shows the collected date. -/
theorem detail_block_cursor_ge_columns_witness :
    ∃ r, Pdf.detailBlock sampleEnv sampleInvoice ⟨100, ()⟩ = some r ∧
      r.leftY ≤ r.merged.y ∧ r.rightY ≤ r.merged.y ∧
      r.leftY ≤ r.final.y ∧ r.rightY ≤ r.final.y := by
  have h := detail_block_cursor_ge_columns sampleEnv sampleInvoice ⟨100, ()⟩
  cases hd : Pdf.detailBlock sampleEnv sampleInvoice ⟨100, ()⟩ with
  | none =>
    rw [hd] at h
    exact absurd h (by decide!)
  | some r =>
    rw [hd] at h
    exact ⟨r, rfl, h.1, h.2.1, h.2.2 (fun d => by simp [sampleEnv])⟩

/-! ## The read routes -/

theorem JSNum.mul_swap (a b : JSNum) : a.mul b = b.mul a := by
  cases a <;> cases b <;> simp [JSNum.mul, Rat.mul_comm]

theorem Pdf.parseCurrency_total (v : JSVal) : ∃ x, Pdf.parseCurrency v = some x := by
  unfold Pdf.parseCurrency
  by_cases h : v.truthy = true
  · cases v <;> simp_all [JSVal.truthy, JSVal.toStringMethod]
  · simp [h]

theorem Pdf.parseCurrency_not_nan (v : JSVal) (x : JSNum) (h : Pdf.parseCurrency v = some x) :
    x.isNaN = false := by
  unfold Pdf.parseCurrency at h
  by_cases ht : v.truthy = true
  · simp only [ht, Bool.not_true, Bool.false_eq_true, if_false] at h
    cases hs : v.toStringMethod with
    | none => rw [hs] at h; cases h
    | some s =>
      rw [hs] at h
      simp only [Option.some.injEq] at h
      rw [← h]
      by_cases hn : (parseFloat (cleanText s)).isNaN = true
      · rw [if_pos hn]; rfl
      · rw [if_neg hn]; simpa using hn
  · simp only [ht, Bool.not_false, if_true, Option.some.injEq] at h
    rw [← h]; rfl

theorem Pdf.amounts_eq (invoice : Invoice) (d w r : JSNum)
    (hd : Pdf.parseCurrency invoice.dueamount = some d)
    (hw : Pdf.parseCurrency invoice.withholding = some w)
    (hr : Pdf.parseCurrency invoice.ritenuta = some r) :
    Pdf.amounts invoice = some
      { dueAmount := d
        withholding := w
        ritenuta := Pdf.orZero r
        ritenutaDeduction :=
          if (Pdf.orZero r).gt (JSNum.fin 0) then d.mul (JSNum.fin 0.20) else JSNum.fin 0
        total := (d.sub (if (Pdf.orZero r).gt (JSNum.fin 0) then d.mul (JSNum.fin 0.20)
          else JSNum.fin 0)).add w } := by
  simp only [Pdf.amounts, hd, hw, hr]

theorem InvoiceList.parseCurrency_of_string_or_falsy (v : JSVal)
    (h : v.truthy = false ∨ ∃ s, v = JSVal.str s) :
    ∃ x, InvoiceList.parseCurrency v = some x := by
  unfold InvoiceList.parseCurrency
  rcases h with h | ⟨s, rfl⟩
  · simp [h]
  · by_cases ht : (JSVal.str s).truthy = true
    · simp [ht]
    · simp [ht]

/-- C9 (the code at the failing input): the helper of `GET /invoices`
throws on the number `20`, the rate marker as the create route writes it,
and on every other truthy number, while it returns a number for every
string and for `null` and `undefined`; the helper of the PDF route returns a
number for every value. -/
theorem list_parseCurrency_throws_on_number :
    InvoiceList.parseCurrency (JSVal.num (JSNum.fin 20)) = none ∧
      (∀ x : JSNum, InvoiceList.parseCurrency (JSVal.num x) =
        if x.truthy then none else some (JSNum.fin 0)) ∧
      (∀ s : JSString, ∃ x, InvoiceList.parseCurrency (JSVal.str s) = some x) ∧
      InvoiceList.parseCurrency JSVal.null = some (JSNum.fin 0) ∧
      InvoiceList.parseCurrency JSVal.undefined = some (JSNum.fin 0) ∧
      (∀ v : JSVal, ∃ x, Pdf.parseCurrency v = some x) := by
  refine ⟨by decide!, ?_,
    fun s => InvoiceList.parseCurrency_of_string_or_falsy _ (Or.inr ⟨s, rfl⟩),
    by decide!, by decide!, Pdf.parseCurrency_total⟩
  intro x
  by_cases hx : x.truthy = true
  · simp [InvoiceList.parseCurrency, JSVal.truthy, hx]
  · simp [InvoiceList.parseCurrency, JSVal.truthy, hx]

/-! ## Scanning stops at the first character outside a literal -/

theorem takeWhile_append_stop (p : Char → Bool) (e c : JSString) (x : Char) (hx : p x = false) :
    (e ++ x :: c).takeWhile p = e.takeWhile p := by
  induction e with
  | nil => simp [List.takeWhile, hx]
  | cons h e ih =>
    by_cases hh : p h = true
    · simp [List.takeWhile, hh, ih]
    · simp [List.takeWhile, hh]

theorem dropWhile_append_stop (p : Char → Bool) (e c : JSString) (x : Char) (hx : p x = false) :
    (e ++ x :: c).dropWhile p = e.dropWhile p ++ x :: c := by
  induction e with
  | nil => simp [List.dropWhile, hx]
  | cons h e ih =>
    by_cases hh : p h = true
    · simp [List.dropWhile, hh, ih]
    · simp [List.dropWhile, hh]

theorem startsWith_append_stop (pat e c : JSString) (x : Char) (hx : x ∉ pat) :
    startsWith pat (e ++ x :: c) = startsWith pat e := by
  induction pat generalizing e with
  | nil => cases e <;> rfl
  | cons a pat ih =>
    have hxa : ¬ a = x := fun h => hx (by simp [h])
    have hxp : x ∉ pat := fun h => hx (by simp [h])
    cases e with
    | nil => simp [startsWith, hxa]
    | cons b e => simp [startsWith, ih e hxp]

theorem stopper_comma : Stopper ',' := by
  unfold Stopper; decide

theorem stopper_point : Stopper '.' := by
  unfold Stopper; decide

theorem leadingDigits_append_stop (e c : JSString) (x : Char) (hx : x.isDigit = false) :
    leadingDigits (e ++ x :: c) = leadingDigits e :=
  takeWhile_append_stop _ e c x hx

theorem afterDigits_append_stop (e c : JSString) (x : Char) (hx : x.isDigit = false) :
    afterDigits (e ++ x :: c) = afterDigits e ++ x :: c :=
  dropWhile_append_stop _ e c x hx

theorem signedInteger_append_stop (e c : JSString) (x : Char) (hx : Stopper x) :
    signedInteger (e ++ x :: c) = signedInteger e := by
  obtain ⟨hd, hp, hm, -⟩ := hx
  have key : ∀ r : JSString, leadingDigits (r ++ x :: c) = leadingDigits r :=
    fun r => leadingDigits_append_stop r c x hd
  cases e with
  | nil =>
    have h0 : leadingDigits (x :: c) = [] := by
      simpa [leadingDigits] using key []
    have h1 : leadingDigits ([] : JSString) = [] := rfl
    simp only [List.nil_append]
    unfold signedInteger
    split
    · rename_i r heq; simp only [List.cons.injEq] at heq; exact absurd heq.1 hp
    · rename_i r heq; simp only [List.cons.injEq] at heq; exact absurd heq.1 hm
    · simp [h0, h1]
  | cons h e =>
    simp only [List.cons_append]
    by_cases h1 : h = '+'
    · subst h1; simp only [signedInteger, key]
    · by_cases h2 : h = '-'
      · subst h2; simp only [signedInteger, key]
      · have e1 : ∀ t : JSString, signedInteger (h :: t) =
            if leadingDigits (h :: t) = [] then 0
            else (digitsToNat (leadingDigits (h :: t)) : ℤ) := by
          intro t
          unfold signedInteger
          split
          · rename_i r heq; simp only [List.cons.injEq] at heq; exact absurd heq.1 h1
          · rename_i r heq; simp only [List.cons.injEq] at heq; exact absurd heq.1 h2
          · rfl
        rw [e1, e1]
        have := key (h :: e)
        simp only [List.cons_append] at this
        rw [this]

theorem parseExponent_append_stop (e c : JSString) (x : Char) (hx : Stopper x) :
    parseExponent (e ++ x :: c) = parseExponent e := by
  cases e with
  | nil =>
    obtain ⟨-, -, -, he, hE, -⟩ := hx
    simp [parseExponent, he, hE]
  | cons h e =>
    simp only [List.cons_append, parseExponent, signedInteger_append_stop e c x hx]

theorem dropWhile_ne_nil_of_mem (p : Char → Bool) (l : JSString) (a : Char) (ha : a ∈ l)
    (hp : p a = false) : l.dropWhile p ≠ [] := by
  induction l with
  | nil => cases ha
  | cons h l ih =>
    by_cases hh : p h = true
    · have : a ∈ l := by
        rcases List.mem_cons.1 ha with rfl | h'
        · rw [hp] at hh; cases hh
        · exact h'
      simpa [List.dropWhile, hh] using ih this
    · simp [List.dropWhile, hh]

theorem mem_dropWhile_of_mem (p : Char → Bool) (l : JSString) (a : Char) (ha : a ∈ l)
    (hp : p a = false) : a ∈ l.dropWhile p := by
  induction l with
  | nil => cases ha
  | cons h l ih =>
    by_cases hh : p h = true
    · have : a ∈ l := by
        rcases List.mem_cons.1 ha with rfl | h'
        · rw [hp] at hh; cases hh
        · exact h'
      simpa [List.dropWhile, hh] using ih this
    · simpa [List.dropWhile, hh] using ha

theorem parseMantissa_append_stop (ip r1 c : JSString) (x : Char) (hx : Stopper x)
    (hdot : x = '.' → r1 ≠ []) :
    parseMantissa ip (r1 ++ x :: c) = parseMantissa ip r1 := by
  have hd : x.isDigit = false := hx.1
  cases r1 with
  | nil =>
    have hne : x ≠ '.' := fun h => hdot h rfl
    have e1 : parseMantissa ip (x :: c) =
        if ip = [] then none
        else some (JSNum.fin (scale10 (digitsToNat ip) (parseExponent (x :: c)))) := by
      unfold parseMantissa
      split
      · rename_i r heq; simp only [List.cons.injEq] at heq; exact absurd heq.1 hne
      · rfl
    have e2 : parseMantissa ip [] =
        if ip = [] then none
        else some (JSNum.fin (scale10 (digitsToNat ip) (parseExponent []))) := rfl
    have e3 := parseExponent_append_stop [] c x hx
    simp only [List.nil_append] at e3 ⊢
    rw [e1, e2, e3]
  | cons h e =>
    simp only [List.cons_append]
    by_cases h1 : h = '.'
    · subst h1
      simp only [parseMantissa, leadingDigits_append_stop e c x hd,
        afterDigits_append_stop e c x hd, parseExponent_append_stop _ c x hx]
    · have e1 : ∀ t : JSString, parseMantissa ip (h :: t) =
          if ip = [] then none
          else some (JSNum.fin (scale10 (digitsToNat ip) (parseExponent (h :: t)))) := by
        intro t
        unfold parseMantissa
        split
        · rename_i r heq; simp only [List.cons.injEq] at heq; exact absurd heq.1 h1
        · rfl
      have e3 := parseExponent_append_stop (h :: e) c x hx
      simp only [List.cons_append] at e3
      rw [e1, e1, e3]

theorem parseUnsigned_append_stop (p c : JSString) (x : Char) (hx : Stopper x)
    (hdot : x = '.' → afterDigits p ≠ []) :
    parseUnsigned (p ++ x :: c) = parseUnsigned p := by
  unfold parseUnsigned
  rw [startsWith_append_stop _ p c x hx.2.2.2.2.2, leadingDigits_append_stop p c x hx.1,
    afterDigits_append_stop p c x hx.1, parseMantissa_append_stop _ _ c x hx hdot]

theorem parseSigned_append_stop (p c : JSString) (x : Char) (hx : Stopper x)
    (hdot : x = '.' → '.' ∈ p) :
    parseSigned (p ++ x :: c) = parseSigned p := by
  have hnd : Char.isDigit '.' = false := by decide
  cases p with
  | nil =>
    have hne : x ≠ '.' := fun h => by simpa using hdot h
    have e1 : parseSigned (x :: c) = parseUnsigned (x :: c) := by
      unfold parseSigned
      split
      · rename_i r heq; simp only [List.cons.injEq] at heq; exact absurd heq.1 hx.2.1
      · rename_i r heq; simp only [List.cons.injEq] at heq; exact absurd heq.1 hx.2.2.1
      · rfl
    have e2 : parseSigned [] = parseUnsigned [] := rfl
    have e3 := parseUnsigned_append_stop [] c x hx (fun h => absurd h hne)
    simp only [List.nil_append] at e3 ⊢
    rw [e1, e2, e3]
  | cons h e =>
    simp only [List.cons_append]
    by_cases h1 : h = '+'
    · subst h1
      have hm : x = '.' → '.' ∈ e := fun hxd => by
        have := hdot hxd
        simpa using this
      simp only [parseSigned]
      exact parseUnsigned_append_stop e c x hx
        (fun hxd => dropWhile_ne_nil_of_mem _ e '.' (hm hxd) hnd)
    · by_cases h2 : h = '-'
      · subst h2
        have hm : x = '.' → '.' ∈ e := fun hxd => by
          have := hdot hxd
          simpa using this
        simp only [parseSigned]
        rw [parseUnsigned_append_stop e c x hx
          (fun hxd => dropWhile_ne_nil_of_mem _ e '.' (hm hxd) hnd)]
      · have e1 : ∀ t : JSString, parseSigned (h :: t) = parseUnsigned (h :: t) := by
          intro t
          unfold parseSigned
          split
          · rename_i r heq; simp only [List.cons.injEq] at heq; exact absurd heq.1 h1
          · rename_i r heq; simp only [List.cons.injEq] at heq; exact absurd heq.1 h2
          · rfl
        have e3 := parseUnsigned_append_stop (h :: e) c x hx
          (fun hxd => dropWhile_ne_nil_of_mem _ (h :: e) '.' (hdot hxd) hnd)
        simp only [List.cons_append] at e3
        rw [e1, e1, e3]

theorem parseFloat_append_stop (p c : JSString) (x : Char) (hx : Stopper x)
    (hws : isWhiteSpace x = false) (hdot : x = '.' → '.' ∈ p) :
    parseFloat (p ++ x :: c) = parseFloat p := by
  have hnw : isWhiteSpace '.' = false := by decide
  unfold parseFloat
  rw [dropWhile_append_stop _ p c x hws,
    parseSigned_append_stop _ c x hx (fun h => mem_dropWhile_of_mem _ p '.' (hdot h) hnw)]

/-! ## Cleaning a cleaned text -/

theorem stopper_of_isWhiteSpace (x : Char) (h : isWhiteSpace x = true) : Stopper x := by
  have hd : x.isDigit = false := by
    by_contra hc
    have hc' : x.isDigit = true := by simpa using hc
    simp only [Char.isDigit, Bool.and_eq_true, decide_eq_true_eq] at hc'
    have h1 : 48 ≤ x.toNat := hc'.1
    have h2 : x.toNat ≤ 57 := hc'.2
    simp only [isWhiteSpace, Bool.or_eq_true, Bool.and_eq_true, decide_eq_true_eq] at h
    omega
  refine ⟨hd, ?_, ?_, ?_, ?_, ?_⟩
  · rintro rfl; revert h; decide
  · rintro rfl; revert h; decide
  · rintro rfl; revert h; decide
  · rintro rfl; revert h; decide
  · intro hm
    simp only [String.toList, List.mem_cons, List.mem_singleton] at hm
    revert h
    rcases hm with rfl | rfl | rfl | rfl | rfl | rfl | rfl | rfl | hm
    all_goals first | decide | cases hm

theorem replaceFirst_of_not_mem (a b : Char) (t : JSString) (h : a ∉ t) :
    replaceFirst a b t = t := by
  induction t with
  | nil => rfl
  | cons c t ih =>
    have hc : ¬ c = a := fun e => h (by simp [e])
    have ht : a ∉ t := fun e => h (by simp [e])
    simp [replaceFirst, hc, ih ht]

theorem replaceFirst_split (a b : Char) (t : JSString) (h : a ∈ t) :
    ∃ p c, t = p ++ a :: c ∧ a ∉ p ∧ replaceFirst a b t = p ++ b :: c := by
  induction t with
  | nil => cases h
  | cons x t ih =>
    by_cases hx : x = a
    · subst hx
      exact ⟨[], t, rfl, by simp, by simp [replaceFirst]⟩
    · have ht : a ∈ t := by
        rcases List.mem_cons.1 h with e | e
        · exact absurd e.symm hx
        · exact e
      obtain ⟨p, c, h1, h2, h3⟩ := ih ht
      refine ⟨x :: p, c, by simp [h1], ?_, by simp [replaceFirst, hx, h3]⟩
      intro hm
      rcases List.mem_cons.1 hm with e | e
      · exact hx e.symm
      · exact h2 e

theorem mem_replaceFirst (a b : Char) (t : JSString) (x : Char)
    (h : x ∈ replaceFirst a b t) : x = b ∨ x ∈ t := by
  induction t with
  | nil => cases h
  | cons c t ih =>
    by_cases hc : c = a
    · simp only [replaceFirst, hc, if_true, List.mem_cons] at h
      rcases h with e | e
      · exact Or.inl e
      · exact Or.inr (by simp [e])
    · simp only [replaceFirst, hc, if_false, List.mem_cons] at h
      rcases h with e | e
      · exact Or.inr (by simp [e])
      · rcases ih e with e' | e'
        · exact Or.inl e'
        · exact Or.inr (by simp [e'])

theorem commaAfterPoint_replaceFirst (t : JSString) :
    ∀ p c : JSString, replaceFirst ',' '.' t = p ++ ',' :: c → '.' ∈ p := by
  induction t with
  | nil =>
    intro p c h
    cases p <;> simp [replaceFirst] at h
  | cons x t ih =>
    intro p c h
    by_cases hx : x = ','
    · simp only [replaceFirst, hx, if_true] at h
      cases p with
      | nil => simp at h
      | cons y p =>
        simp only [List.cons_append, List.cons.injEq] at h
        simp [← h.1]
    · simp only [replaceFirst, hx, if_false] at h
      cases p with
      | nil =>
        simp only [List.nil_append, List.cons.injEq] at h
        exact absurd h.1 hx
      | cons y p =>
        simp only [List.cons_append, List.cons.injEq] at h
        exact List.mem_cons_of_mem _ (ih p c h.2)

theorem parseFloat_replaceFirst (t : JSString)
    (h : ∀ p c : JSString, t = p ++ ',' :: c → '.' ∈ p) :
    parseFloat (replaceFirst ',' '.' t) = parseFloat t := by
  by_cases hm : ',' ∈ t
  · obtain ⟨p, c, h1, -, h3⟩ := replaceFirst_split ',' '.' t hm
    have hp : '.' ∈ p := h p c h1
    rw [h3, h1, parseFloat_append_stop p c '.' stopper_point (by decide) (fun _ => hp),
      parseFloat_append_stop p c ',' stopper_comma (by decide) (fun e => absurd e (by decide))]
  · rw [replaceFirst_of_not_mem _ _ t hm]

theorem trim_decomp (t : JSString) :
    ∃ l r : JSString, t = l ++ trim t ++ r ∧ (∀ a ∈ l, isWhiteSpace a = true) ∧
      (∀ a ∈ r, isWhiteSpace a = true) := by
  refine ⟨t.takeWhile isWhiteSpace,
    (((t.dropWhile isWhiteSpace).reverse).takeWhile isWhiteSpace).reverse, ?_, ?_, ?_⟩
  · have h1 := List.takeWhile_append_dropWhile isWhiteSpace t
    have h2 := List.takeWhile_append_dropWhile isWhiteSpace (t.dropWhile isWhiteSpace).reverse
    have h3 : t.dropWhile isWhiteSpace =
        (((t.dropWhile isWhiteSpace).reverse).dropWhile isWhiteSpace).reverse ++
          (((t.dropWhile isWhiteSpace).reverse).takeWhile isWhiteSpace).reverse := by
      rw [← List.reverse_append, h2, List.reverse_reverse]
    unfold trim
    rw [List.append_assoc, ← h3, h1]
  · intro a ha
    exact List.mem_takeWhile_imp ha
  · intro a ha
    exact List.mem_takeWhile_imp (List.mem_reverse.1 ha)

theorem mem_of_mem_trim (t : JSString) (x : Char) (h : x ∈ trim t) : x ∈ t := by
  obtain ⟨l, r, e, -, -⟩ := trim_decomp t
  rw [e]
  simp [h]

theorem commaAfterPoint_trim (t : JSString)
    (h : ∀ p c : JSString, t = p ++ ',' :: c → '.' ∈ p) :
    ∀ p c : JSString, trim t = p ++ ',' :: c → '.' ∈ p := by
  obtain ⟨l, r, e, hl, -⟩ := trim_decomp t
  intro p c hp
  have e' : t = (l ++ p) ++ ',' :: (c ++ r) := by
    rw [e, hp]; simp
  have hm := h _ _ e'
  rcases List.mem_append.1 hm with h1 | h1
  · exact absurd (hl _ h1) (by decide)
  · exact h1

theorem parseFloat_trim (t : JSString) : parseFloat (trim t) = parseFloat t := by
  obtain ⟨l, r, e, hl, hr⟩ := trim_decomp t
  have hdl : ∀ z : JSString, (l ++ z).dropWhile isWhiteSpace = z.dropWhile isWhiteSpace :=
    fun z => List.dropWhile_append_of_pos hl
  have e1 : parseFloat t = parseFloat (trim t ++ r) := by
    conv_lhs => rw [e]
    unfold parseFloat
    rw [List.append_assoc, hdl]
  rw [e1]
  cases r with
  | nil => simp
  | cons x r' =>
    have hx : isWhiteSpace x = true := hr x (by simp)
    have hst := stopper_of_isWhiteSpace x hx
    have hxd : x ≠ '.' := by
      rintro rfl; revert hx; decide
    unfold parseFloat
    by_cases hall : ∀ a ∈ trim t, isWhiteSpace a = true
    · have h1 : (trim t ++ x :: r').dropWhile isWhiteSpace = [] := by
        rw [List.dropWhile_eq_nil_iff]
        intro a ha
        rcases List.mem_append.1 ha with h' | h'
        · exact hall a h'
        · exact hr a h'
      have h2 : (trim t).dropWhile isWhiteSpace = [] := by
        rw [List.dropWhile_eq_nil_iff]; exact hall
      rw [h1, h2]
    · have hex : ∃ a ∈ trim t, isWhiteSpace a = false := by
        by_contra hc
        apply hall
        intro a ha
        by_contra hw
        exact hc ⟨a, ha, by simpa using hw⟩
      obtain ⟨a, ha, haw⟩ := hex
      have key : ∀ (u z : JSString), a ∈ u →
          (u ++ z).dropWhile isWhiteSpace = u.dropWhile isWhiteSpace ++ z := by
        intro u z hu
        induction u with
        | nil => cases hu
        | cons b u ih =>
          by_cases hb : isWhiteSpace b = true
          · have : a ∈ u := by
              rcases List.mem_cons.1 hu with rfl | h'
              · rw [haw] at hb; cases hb
              · exact h'
            simp [List.dropWhile, hb, ih this]
          · simp [List.dropWhile, hb]
      rw [key _ _ ha, parseSigned_append_stop _ r' x hst (fun h => absurd h hxd)]

theorem stripSymbols_cleanText (s : JSString) : stripSymbols (cleanText s) = cleanText s := by
  unfold stripSymbols
  rw [List.filter_eq_self]
  intro a ha
  have h1 := mem_of_mem_trim _ a ha
  rcases mem_replaceFirst _ _ _ a h1 with h2 | h2
  · subst h2; decide
  · have := (List.mem_filter.1 h2).2
    exact this

theorem commaAfterPoint_cleanText (s : JSString) :
    ∀ p c : JSString, cleanText s = p ++ ',' :: c → '.' ∈ p :=
  commaAfterPoint_trim _ (commaAfterPoint_replaceFirst _)

/-- Cleaning an already cleaned text does not change what `parseFloat`
reads from it. -/
theorem parseFloat_cleanText_cleanText (s : JSString) :
    parseFloat (cleanText (cleanText s)) = parseFloat (cleanText s) := by
  show parseFloat (trim (replaceFirst ',' '.' (stripSymbols (cleanText s)))) = _
  rw [parseFloat_trim, stripSymbols_cleanText,
    parseFloat_replaceFirst _ (commaAfterPoint_cleanText s)]

/-! ## What the create route stores reads the same after cleaning -/

theorem Create.cleanCurrency_readable (v : JSVal) (c : JSString)
    (h : Create.cleanCurrency v = some c) : parseFloat (cleanText c) = parseFloat c := by
  unfold Create.cleanCurrency at h
  by_cases ht : v.truthy = true
  · simp only [ht, Bool.not_true, Bool.false_eq_true, if_false] at h
    cases v with
    | str s =>
      simp only [Option.some.injEq] at h
      rw [← h]
      exact parseFloat_cleanText_cleanText s
    | undefined => cases h
    | null => cases h
    | bool b => cases h
    | num x => cases h
    | obj t => cases h
  · simp only [ht, Bool.not_false, if_true, Option.some.injEq] at h
    rw [← h]
    decide!

/-! ## When `parseFloat` finds no literal -/

theorem parseMantissa_isSome_of_ne_nil (ip r1 : JSString) (h : ip ≠ []) :
    ∃ q, parseMantissa ip r1 = some (JSNum.fin q) := by
  unfold parseMantissa
  split
  · simp [h]
  · simp [h]

theorem leadingDigits_eq_nil_iff (r : JSString) :
    leadingDigits r = [] ↔ headIsDigit r = false := by
  cases r with
  | nil => simp [leadingDigits, headIsDigit]
  | cons d r =>
    by_cases hd : d.isDigit = true
    · simp [leadingDigits, headIsDigit, List.takeWhile, hd]
    · simp [leadingDigits, headIsDigit, List.takeWhile, hd]

theorem parseUnsigned_eq_none_iff (r : JSString) :
    parseUnsigned r = none ↔ startsUnsignedLiteral r = false := by
  unfold parseUnsigned startsUnsignedLiteral
  by_cases hI : startsWith "Infinity".toList r = true
  · rw [if_pos hI, hI]
    simp
  · rw [if_neg hI]
    have hI' : startsWith "Infinity".toList r = false := by simpa using hI
    rw [hI', Bool.false_or]
    cases r with
    | nil => simp [leadingDigits, afterDigits, parseMantissa]
    | cons c r1 =>
      by_cases hd : c.isDigit = true
      · have hne : leadingDigits (c :: r1) ≠ [] := by
          simp [leadingDigits, List.takeWhile, hd]
        obtain ⟨q, hq⟩ := parseMantissa_isSome_of_ne_nil _ (afterDigits (c :: r1)) hne
        simp [hq, hd]
      · have h1 : leadingDigits (c :: r1) = [] := by
          simp [leadingDigits, List.takeWhile, hd]
        have h2 : afterDigits (c :: r1) = c :: r1 := by
          simp [afterDigits, List.dropWhile, hd]
        have hd' : c.isDigit = false := by simpa using hd
        rw [h1, h2]
        simp only [hd', Bool.false_or]
        by_cases hc : c = '.'
        · subst hc
          have hiff := leadingDigits_eq_nil_iff r1
          simp only [parseMantissa, true_and, decide_True, Bool.true_and]
          by_cases hl : leadingDigits r1 = []
          · simp [hl, hiff.1 hl]
          · have h' : ¬ (headIsDigit r1 = false) := fun h => hl (hiff.2 h)
            simp only [hl, if_false]
            simpa using h'
        · have e1 : parseMantissa [] (c :: r1) = none := by
            unfold parseMantissa
            split
            · rename_i r heq; simp only [List.cons.injEq] at heq; exact absurd heq.1 hc
            · rfl
          simp [e1, hc]

theorem parseUnsigned_not_nan (r : JSString) (v : JSNum) (h : parseUnsigned r = some v) :
    v.isNaN = false ∧ v.neg.isNaN = false := by
  unfold parseUnsigned at h
  by_cases hI : startsWith "Infinity".toList r = true
  · rw [if_pos hI] at h
    simp only [Option.some.injEq] at h
    subst h; exact ⟨rfl, rfl⟩
  · rw [if_neg hI] at h
    by_cases hne : leadingDigits r = []
    · unfold parseMantissa at h
      split at h
      · split at h
        · cases h
        · simp only [Option.some.injEq] at h
          subst h; exact ⟨rfl, rfl⟩
      · simp [hne] at h
    · obtain ⟨q, hq⟩ := parseMantissa_isSome_of_ne_nil _ (afterDigits r) hne
      rw [hq] at h
      simp only [Option.some.injEq] at h
      subst h; exact ⟨rfl, rfl⟩

theorem parseSigned_eq_none_iff (t : JSString) :
    parseSigned t = none ↔ startsSignedLiteral t = false := by
  unfold parseSigned startsSignedLiteral
  split
  · exact parseUnsigned_eq_none_iff _
  · simp only [Option.map_eq_none']
    exact parseUnsigned_eq_none_iff _
  · exact parseUnsigned_eq_none_iff _

theorem parseSigned_not_nan (t : JSString) (v : JSNum) (h : parseSigned t = some v) :
    v.isNaN = false := by
  unfold parseSigned at h
  split at h
  · exact (parseUnsigned_not_nan _ _ h).1
  · cases hu : parseUnsigned _ with
    | none => rw [hu] at h; cases h
    | some u =>
      rw [hu] at h
      simp only [Option.map_some', Option.some.injEq] at h
      subst h
      exact (parseUnsigned_not_nan _ _ hu).2
  · exact (parseUnsigned_not_nan _ _ h).1

/-- `parseFloat` returns `NaN` exactly when the text does not begin with a
literal. -/
theorem parseFloat_isNaN (t : JSString) : (parseFloat t).isNaN = !startsLiteral t := by
  unfold parseFloat startsLiteral
  cases hp : parseSigned (t.dropWhile isWhiteSpace) with
  | none =>
    rw [(parseSigned_eq_none_iff _).1 hp]; rfl
  | some v =>
    have h1 := parseSigned_not_nan _ _ hp
    have h2 : ¬ (startsSignedLiteral (t.dropWhile isWhiteSpace) = false) := by
      intro h
      rw [(parseSigned_eq_none_iff _).2 h] at hp
      cases hp
    simp only [Option.getD_some, h1]
    simpa using h2

/-- C8 (counterexample): `"12abc"` and `"1.234,56"` do not clean to a valid
decimal number, yet both helpers return the number at the front of the
cleaned text, 12 and 1.234, and not 0. -/
theorem parseCurrency_reads_leading_number :
    isDecimalNumber (cleanText "12abc".toList) = false ∧
      InvoiceList.parseCurrency (JSVal.str "12abc".toList) = some (JSNum.fin 12) ∧
      Pdf.parseCurrency (JSVal.str "12abc".toList) = some (JSNum.fin 12) ∧
      isDecimalNumber (cleanText "1.234,56".toList) = false ∧
      InvoiceList.parseCurrency (JSVal.str "1.234,56".toList) = some (JSNum.fin 1.234) ∧
      Pdf.parseCurrency (JSVal.str "1.234,56".toList) = some (JSNum.fin 1.234) ∧
      JSNum.fin 12 ≠ JSNum.fin 0 ∧ JSNum.fin 1.234 ≠ JSNum.fin 0 := by
  decide!

/-- C8 (amended): both helpers return 0 for every string whose cleaned text
does not begin with a decimal literal, and for every other string they
return the value of the literal at the front of the cleaned text, whatever
follows it. -/
theorem parseCurrency_zero_fallback (s : JSString) :
    (startsLiteral (cleanText s) = false →
      InvoiceList.parseCurrency (JSVal.str s) = some (JSNum.fin 0) ∧
        Pdf.parseCurrency (JSVal.str s) = some (JSNum.fin 0)) ∧
    (startsLiteral (cleanText s) = true →
      InvoiceList.parseCurrency (JSVal.str s) = some (parseFloat (cleanText s)) ∧
        Pdf.parseCurrency (JSVal.str s) = some (parseFloat (cleanText s)) ∧
        (parseFloat (cleanText s)).isNaN = false) := by
  have hnan := parseFloat_isNaN (cleanText s)
  cases s with
  | nil =>
    constructor
    · intro _; exact ⟨rfl, rfl⟩
    · intro h; revert h; decide
  | cons a s =>
    have e1 : InvoiceList.parseCurrency (JSVal.str (a :: s)) =
        some (if (parseFloat (cleanText (a :: s))).isNaN then JSNum.fin 0
          else parseFloat (cleanText (a :: s))) := rfl
    have e2 : Pdf.parseCurrency (JSVal.str (a :: s)) =
        some (if (parseFloat (cleanText (a :: s))).isNaN then JSNum.fin 0
          else parseFloat (cleanText (a :: s))) := rfl
    constructor
    · intro h
      rw [h] at hnan
      rw [e1, e2, hnan]
      exact ⟨rfl, rfl⟩
    · intro h
      rw [h] at hnan
      rw [e1, e2, hnan]
      exact ⟨rfl, rfl, rfl⟩

/-- C8 (amended), applied to `"abc"`, which has no literal at its front,
and to `"12abc"`, which has one. -/
theorem parseCurrency_zero_fallback_witness :
    (InvoiceList.parseCurrency (JSVal.str "abc".toList) = some (JSNum.fin 0) ∧
        Pdf.parseCurrency (JSVal.str "abc".toList) = some (JSNum.fin 0)) ∧
      Pdf.parseCurrency (JSVal.str "12abc".toList) =
        some (parseFloat (cleanText "12abc".toList)) :=
  ⟨(parseCurrency_zero_fallback "abc".toList).1 (by decide!),
    ((parseCurrency_zero_fallback "12abc".toList).2 (by decide!)).2.1⟩

/-! ## Decimal digits of a natural number -/

theorem digitsToNat_foldl (ds : JSString) (a : ℕ) :
    ds.foldl (fun acc c => 10 * acc + (c.toNat - 48)) a =
      a * 10 ^ ds.length + digitsToNat ds := by
  induction ds generalizing a with
  | nil => simp [digitsToNat]
  | cons c ds ih =>
    simp only [List.foldl_cons, List.length_cons, digitsToNat]
    rw [ih, ih (10 * 0 + (c.toNat - 48))]
    ring

theorem digitsToNat_append (xs ys : JSString) :
    digitsToNat (xs ++ ys) = digitsToNat xs * 10 ^ ys.length + digitsToNat ys := by
  unfold digitsToNat
  rw [List.foldl_append, digitsToNat_foldl]
  rfl

theorem digitChar_spec (k : ℕ) (hk : k < 10) :
    (Nat.digitChar k).isDigit = true ∧ (Nat.digitChar k).toNat - 48 = k := by
  interval_cases k <;> decide

theorem toDigitsCore_spec (fuel : ℕ) :
    ∀ (n : ℕ) (acc : JSString), n < fuel →
      ∃ ds : JSString, Nat.toDigitsCore 10 fuel n acc = ds ++ acc ∧ ds ≠ [] ∧
        (∀ c ∈ ds, c.isDigit = true) ∧ digitsToNat ds = n ∧ n < 10 ^ ds.length ∧
        (n ≠ 0 → 10 ^ (ds.length - 1) ≤ n) := by
  induction fuel with
  | zero => intro n acc h; omega
  | succ fuel ih =>
    intro n acc h
    have hd := digitChar_spec (n % 10) (Nat.mod_lt _ (by norm_num))
    by_cases h0 : n / 10 = 0
    · have hn : n < 10 := by omega
      refine ⟨[Nat.digitChar (n % 10)], by simp [Nat.toDigitsCore, h0], by simp, ?_, ?_, ?_, ?_⟩
      · intro c hc
        simp only [List.mem_singleton] at hc
        rw [hc]; exact hd.1
      · simp only [digitsToNat, List.foldl_cons, List.foldl_nil, hd.2]
        omega
      · simpa using hn
      · intro hne; simp; omega
    · have hlt : n / 10 < fuel := by omega
      obtain ⟨ds, e, hne, hall, hval, hub, hlb⟩ :=
        ih (n / 10) (Nat.digitChar (n % 10) :: acc) hlt
      refine ⟨ds ++ [Nat.digitChar (n % 10)], ?_, by simp, ?_, ?_, ?_, ?_⟩
      · simp [Nat.toDigitsCore, h0, e]
      · intro c hc
        rcases List.mem_append.1 hc with h1 | h1
        · exact hall c h1
        · simp only [List.mem_singleton] at h1
          rw [h1]; exact hd.1
      · rw [digitsToNat_append, hval]
        simp only [List.length_singleton, pow_one, digitsToNat, List.foldl_cons, List.foldl_nil,
          hd.2]
        omega
      · simp only [List.length_append, List.length_singleton, pow_succ]
        omega
      · intro _
        have hl := hlb h0
        have hlen : 0 < ds.length := List.length_pos.2 hne
        simp only [List.length_append, List.length_singleton, Nat.add_sub_cancel]
        have : 10 ^ ds.length = 10 ^ (ds.length - 1) * 10 := by
          rw [← pow_succ]; congr 1; omega
        omega

/-- The digits printed for `n` are decimal digits, read back as `n`, and
there are as many as `n` needs. -/
theorem natDigits_spec (n : ℕ) :
    natDigits n ≠ [] ∧ (∀ c ∈ natDigits n, c.isDigit = true) ∧
      digitsToNat (natDigits n) = n ∧ n < 10 ^ (natDigits n).length ∧
      (n ≠ 0 → 10 ^ ((natDigits n).length - 1) ≤ n) := by
  obtain ⟨ds, e, h1, h2, h3, h4, h5⟩ := toDigitsCore_spec (n + 1) n [] (Nat.lt_succ_self n)
  have : natDigits n = ds := by
    simp [natDigits, Nat.toDigits, e]
  rw [this]
  exact ⟨h1, h2, h3, h4, h5⟩

/-! ## Reading back a printed literal -/

theorem scale10_eq (m : ℕ) (e : ℤ) : scale10 m e = (m : ℚ) * (10 : ℚ) ^ e := by
  unfold scale10
  by_cases h : 0 ≤ e
  · rw [if_pos h]
    obtain ⟨k, rfl⟩ := Int.eq_ofNat_of_zero_le h
    simp
  · rw [if_neg h]
    have hneg : e < 0 := by omega
    obtain ⟨k, hk⟩ := Int.eq_ofNat_of_zero_le (show 0 ≤ -e by omega)
    have he : e = -(k : ℤ) := by omega
    subst he
    simp only [neg_neg, Int.toNat_ofNat, zpow_neg, zpow_natCast]
    rw [Rat.mkRat_eq_div]
    push_cast
    rw [div_eq_mul_inv]

theorem leadingDigits_all (b ex : JSString) (hb : ∀ c ∈ b, c.isDigit = true)
    (hex : headIsDigit ex = false) :
    leadingDigits (b ++ ex) = b ∧ afterDigits (b ++ ex) = ex := by
  have hb' : b.takeWhile Char.isDigit = b := List.takeWhile_eq_self_iff.2 hb
  have hb'' : b.dropWhile Char.isDigit = [] := List.dropWhile_eq_nil_iff.2 hb
  cases ex with
  | nil =>
    simp only [List.append_nil, leadingDigits, afterDigits]
    exact ⟨hb', hb''⟩
  | cons x c =>
    have hx : x.isDigit = false := hex
    rw [leadingDigits_append_stop b c x hx, afterDigits_append_stop b c x hx]
    simp only [leadingDigits, afterDigits, hb', hb'', List.nil_append, and_self]

theorem startsWith_infinity_of_digit (c : Char) (r : JSString) (hc : c.isDigit = true) :
    startsWith "Infinity".toList (c :: r) = false := by
  have : ¬ 'I' = c := by
    rintro rfl; revert hc; decide
  simp [startsWith, this]

/-- Integer digits, a point, fraction digits, and then either the end of
the text or something that is not a digit. -/
theorem parseUnsigned_point (a b ex : JSString) (ha : a ≠ [])
    (hda : ∀ c ∈ a, c.isDigit = true) (hdb : ∀ c ∈ b, c.isDigit = true)
    (hex : headIsDigit ex = false) :
    parseUnsigned (a ++ '.' :: (b ++ ex)) =
      some (JSNum.fin (scale10 (digitsToNat (a ++ b)) (parseExponent ex - b.length))) := by
  obtain ⟨h1, h2⟩ := leadingDigits_all a ('.' :: (b ++ ex)) hda
    (show Char.isDigit '.' = false by decide)
  obtain ⟨h3, h4⟩ := leadingDigits_all b ex hdb hex
  cases a with
  | nil => exact absurd rfl ha
  | cons c a' =>
    have hI := startsWith_infinity_of_digit c (a' ++ '.' :: (b ++ ex)) (hda c (by simp))
    unfold parseUnsigned
    rw [List.cons_append, hI]
    rw [List.cons_append] at h1 h2
    simp only [Bool.false_eq_true, if_false, h1, h2, parseMantissa, h3, h4]
    simp

/-- Integer digits followed by something that is neither a digit nor a
point. -/
theorem parseUnsigned_integer (a ex : JSString) (ha : a ≠ [])
    (hda : ∀ c ∈ a, c.isDigit = true) (hex : headIsDigit ex = false)
    (hpt : ∀ r, ex ≠ '.' :: r) :
    parseUnsigned (a ++ ex) =
      some (JSNum.fin (scale10 (digitsToNat a) (parseExponent ex))) := by
  obtain ⟨h1, h2⟩ := leadingDigits_all a ex hda hex
  cases a with
  | nil => exact absurd rfl ha
  | cons c a' =>
    have hI := startsWith_infinity_of_digit c (a' ++ ex) (hda c (by simp))
    unfold parseUnsigned
    rw [List.cons_append, hI]
    rw [List.cons_append] at h1 h2
    simp only [Bool.false_eq_true, if_false, h1, h2]
    unfold parseMantissa
    split
    · exact absurd rfl (hpt _)
    · simp

theorem parseExponent_plus (E : JSString) (hE : E ≠ []) (hd : ∀ c ∈ E, c.isDigit = true) :
    parseExponent ('e' :: '+' :: E) = (digitsToNat E : ℤ) := by
  have h1 : leadingDigits E = E := List.takeWhile_eq_self_iff.2 hd
  simp [parseExponent, signedInteger, h1, hE]

/-- A text that starts with an unsigned literal is read by `parseFloat` as
that literal. -/
theorem parseFloat_of_parseUnsigned (t : JSString) (v : JSNum) (h : parseUnsigned t = some v) :
    parseFloat t = v ∧ parseFloat ('-' :: t) = v.neg := by
  have hs : startsUnsignedLiteral t = true := by
    by_contra hc
    have := (parseUnsigned_eq_none_iff t).2 (by simpa using hc)
    rw [this] at h; cases h
  have hm : parseFloat ('-' :: t) = v.neg := by
    have : ('-' :: t).dropWhile isWhiteSpace = '-' :: t := by
      simp [List.dropWhile, show isWhiteSpace '-' = false by decide]
    simp [parseFloat, this, parseSigned, h]
  refine ⟨?_, hm⟩
  cases t with
  | nil => exact absurd hs (by decide)
  | cons c r =>
    have hc : isWhiteSpace c = false ∧ c ≠ '+' ∧ c ≠ '-' := by
      simp only [startsUnsignedLiteral, Bool.or_eq_true, Bool.and_eq_true,
        decide_eq_true_eq] at hs
      rcases hs with hI | hd | ⟨hp, -⟩
      · have : c = 'I' := by
          by_contra hne
          have hne' : ¬ 'I' = c := fun e => hne e.symm
          simp [startsWith, hne'] at hI
        subst this; decide
      · have hs := stopper_comma
        refine ⟨?_, ?_, ?_⟩
        · by_contra hw
          have := (stopper_of_isWhiteSpace c (by simpa using hw)).1
          rw [hd] at this; cases this
        · rintro rfl; revert hd; decide
        · rintro rfl; revert hd; decide
      · subst hp; decide
    have hdw : (c :: r).dropWhile isWhiteSpace = c :: r := by
      simp [List.dropWhile, hc.1]
    have hps : parseSigned (c :: r) = parseUnsigned (c :: r) := by
      unfold parseSigned
      split
      · rename_i r' heq; simp only [List.cons.injEq] at heq; exact absurd heq.1 hc.2.1
      · rename_i r' heq; simp only [List.cons.injEq] at heq; exact absurd heq.1 hc.2.2
      · rfl
    simp [parseFloat, hdw, hps, h]

/-! ## `toFixed(2)` read back -/

theorem digitsToNat_replicate_zero (k : ℕ) : digitsToNat (List.replicate k '0') = 0 := by
  induction k with
  | zero => rfl
  | succ k ih =>
    rw [List.replicate_succ, show ('0' :: List.replicate k '0') = ['0'] ++ List.replicate k '0' by rfl,
      digitsToNat_append, ih]
    simp [digitsToNat]

theorem roundHundredths (N : ℕ) : (Rat.floor ((N : ℚ) / 100 * 100 + 1 / 2)).toNat = N := by
  have h : Rat.floor ((N : ℚ) / 100 * 100 + 1 / 2) = (N : ℤ) := by
    show ⌊(N : ℚ) / 100 * 100 + 1 / 2⌋ = (N : ℤ)
    rw [Int.floor_eq_iff]
    constructor
    · push_cast; linarith
    · push_cast; linarith
  rw [h]; simp

theorem fixedDigits_spec (N : ℕ) :
    3 ≤ (fixedDigits N).length ∧ (∀ c ∈ fixedDigits N, c.isDigit = true) ∧
      digitsToNat (fixedDigits N) = N := by
  obtain ⟨hne, hall, hval, -, -⟩ := natDigits_spec N
  have hm0 : ∀ ds : JSString, ds = (if N = 0 then ['0'] else natDigits N) →
      ds ≠ [] ∧ (∀ c ∈ ds, c.isDigit = true) ∧ digitsToNat ds = N := by
    intro ds hds
    by_cases h0 : N = 0
    · rw [if_pos h0] at hds
      subst hds; subst h0
      exact ⟨by simp, by intro c hc; simp at hc; subst hc; decide, by decide⟩
    · rw [if_neg h0] at hds
      subst hds
      exact ⟨hne, hall, hval⟩
  obtain ⟨h1, h2, h3⟩ := hm0 _ rfl
  unfold fixedDigits
  simp only
  generalize (if N = 0 then ['0'] else natDigits N) = ds at h1 h2 h3
  have hpos : 0 < ds.length := List.length_pos.2 h1
  by_cases hl : ds.length ≤ 2
  · rw [if_pos hl]
    refine ⟨by simp; omega, ?_, ?_⟩
    · intro c hc
      rcases List.mem_append.1 hc with hc | hc
      · rw [List.eq_of_mem_replicate hc]; decide
      · exact h2 c hc
    · rw [digitsToNat_append, digitsToNat_replicate_zero, h3]; simp
  · rw [if_neg hl]
    exact ⟨by omega, h2, h3⟩

/-- Below `10 ^ 21` the text of `toFixed(2)` for `N / 100` is the digits of
`N` with a point before the last two, and reads back as `N / 100`. -/
theorem parseUnsigned_toFixed2Abs_small (N : ℕ) (h : ¬ (10 : ℚ) ^ 21 ≤ (N : ℚ) / 100) :
    parseUnsigned (toFixed2Abs ((N : ℚ) / 100)) = some (JSNum.fin ((N : ℚ) / 100)) ∧
      ∀ c ∈ toFixed2Abs ((N : ℚ) / 100), c.isDigit = true ∨ c = '.' := by
  obtain ⟨hlen, hall, hval⟩ := fixedDigits_spec N
  have e : toFixed2Abs ((N : ℚ) / 100) = insertPoint (fixedDigits N) := by
    unfold toFixed2Abs
    rw [if_neg h, roundHundredths]
  rw [e]
  unfold insertPoint
  generalize fixedDigits N = m at hlen hall hval
  have ha : ∀ c ∈ m.take (m.length - 2), c.isDigit = true :=
    fun c hc => hall c (List.mem_of_mem_take hc)
  have hb : ∀ c ∈ m.drop (m.length - 2), c.isDigit = true :=
    fun c hc => hall c (List.mem_of_mem_drop hc)
  have hane : m.take (m.length - 2) ≠ [] := by
    intro h0
    have := congrArg List.length h0
    simp at this
    omega
  have hbl : (m.drop (m.length - 2)).length = 2 := by
    simp; omega
  constructor
  · have hp := parseUnsigned_point (m.take (m.length - 2)) (m.drop (m.length - 2)) [] hane ha hb rfl
    rw [List.append_nil] at hp
    rw [hp, List.take_append_drop, hval, hbl, scale10_eq]
    simp only [parseExponent, Nat.cast_ofNat, zero_sub, Option.some.injEq, JSNum.fin.injEq]
    norm_num
    ring
  · intro c hc
    rcases List.mem_append.1 hc with hc | hc
    · exact Or.inl (ha c hc)
    · rcases List.mem_cons.1 hc with hc | hc
      · exact Or.inr hc
      · exact Or.inl (hb c hc)

/-! ## `Number::toString` read back -/

theorem decScale_spec (d fuel : ℕ) :
    ∀ start : ℕ, (∃ j, j < fuel ∧ d ∣ 10 ^ (start + j)) → d ∣ 10 ^ decScale d fuel start := by
  induction fuel with
  | zero => rintro start ⟨j, hj, -⟩; omega
  | succ fuel ih =>
    rintro start ⟨j, hj, hd⟩
    unfold decScale
    by_cases h0 : 10 ^ start % d = 0
    · rw [if_pos h0]; exact Nat.dvd_of_mod_eq_zero h0
    · rw [if_neg h0]
      apply ih
      have hj0 : j ≠ 0 := by
        rintro rfl
        exact h0 (Nat.mod_eq_zero_of_dvd (by simpa using hd))
      refine ⟨j - 1, by omega, ?_⟩
      have : start + 1 + (j - 1) = start + j := by omega
      rw [this]; exact hd

theorem decScale_hundredths (d : ℕ) (hd : d ∣ 100) : d ∣ 10 ^ decScale d d 0 := by
  apply decScale_spec
  have hpos : 0 < d := Nat.pos_of_dvd_of_pos hd (by norm_num)
  have hle : d ≤ 100 := Nat.le_of_dvd (by norm_num) hd
  by_cases h1 : d = 1
  · exact ⟨0, by omega, by rw [h1]; exact one_dvd _⟩
  · by_cases h2 : d ∣ 10
    · exact ⟨1, by omega, by simpa using h2⟩
    · refine ⟨2, ?_, by simpa using hd⟩
      by_contra hlt
      have : d = 2 := by omega
      rw [this] at h2
      exact h2 (by decide)

theorem trailingZeros_dvd (fuel : ℕ) : ∀ m : ℕ, 10 ^ trailingZeros fuel m ∣ m := by
  induction fuel with
  | zero => intro m; simp [trailingZeros]
  | succ fuel ih =>
    intro m
    unfold trailingZeros
    by_cases h : m ≠ 0 ∧ m % 10 = 0
    · rw [if_pos h, pow_succ]
      obtain ⟨c, hc⟩ := ih (m / 10)
      have hm : m = 10 * (m / 10) := by omega
      refine ⟨c, ?_⟩
      calc m = 10 * (m / 10) := hm
        _ = 10 * (10 ^ trailingZeros fuel (m / 10) * c) := by rw [← hc]
        _ = 10 ^ trailingZeros fuel (m / 10) * 10 * c := by ring
    · rw [if_neg h]; simp

/-- The significand and exponent printed for a positive number of
hundredths give back that number. -/
theorem decimalRepr_spec (q : ℚ) (hq : 0 < q) (hd : q.den ∣ 100) :
    0 < (decimalRepr q).1 ∧ ((decimalRepr q).1 : ℚ) * (10 : ℚ) ^ (decimalRepr q).2 = q := by
  have hdvd := decScale_hundredths q.den hd
  have hnum : 0 < q.num := Rat.num_pos.2 hq
  have hden : (q.den : ℚ) ≠ 0 := by
    exact_mod_cast q.den_nz
  have hm : ((q.num.natAbs * (10 ^ decScale q.den q.den 0 / q.den) : ℕ) : ℚ) =
      q * (10 : ℚ) ^ decScale q.den q.den 0 := by
    have h1 : ((q.num.natAbs : ℕ) : ℚ) = (q.num : ℚ) := by
      have : ((q.num.natAbs : ℕ) : ℤ) = q.num := Int.natAbs_of_nonneg hnum.le
      rw [← Int.cast_natCast, this]
    rw [Nat.cast_mul, Nat.cast_div hdvd hden, h1]
    push_cast
    have h2 : (q.num : ℚ) * ((10 : ℚ) ^ decScale q.den q.den 0 / (q.den : ℚ)) =
        (q.num : ℚ) / (q.den : ℚ) * (10 : ℚ) ^ decScale q.den q.den 0 := by
      field_simp
    rw [h2, Rat.num_div_den]
  have hmpos : 0 < q.num.natAbs * (10 ^ decScale q.den q.den 0 / q.den) := by
    have : (0 : ℚ) < ((q.num.natAbs * (10 ^ decScale q.den q.den 0 / q.den) : ℕ) : ℚ) := by
      rw [hm]; positivity
    exact_mod_cast this
  unfold decimalRepr
  simp only
  generalize hsc : decScale q.den q.den 0 = sc at hm hmpos
  generalize hmm : q.num.natAbs * (10 ^ sc / q.den) = m at hm hmpos
  by_cases h0 : sc = 0
  · rw [if_pos h0]
    simp only
    have hz := trailingZeros_dvd m m
    generalize trailingZeros m m = z at hz
    have hpz : 0 < 10 ^ z := by positivity
    constructor
    · exact Nat.div_pos (Nat.le_of_dvd hmpos hz) hpz
    · have hz' : ((10 ^ z : ℕ) : ℚ) ≠ 0 := by positivity
      rw [Nat.cast_div hz hz', zpow_natCast]
      push_cast
      rw [hm, h0]
      field_simp
  · rw [if_neg h0]
    simp only
    refine ⟨hmpos, ?_⟩
    rw [hm, zpow_neg, zpow_natCast]
    field_simp

theorem den_hundredths (N : ℕ) : ((N : ℚ) / 100).den ∣ 100 := by
  have h := Rat.den_dvd (N : ℤ) 100
  rw [Rat.divInt_eq_div] at h
  have h' : (((N : ℚ) / 100).den : ℤ) ∣ (100 : ℤ) := by
    simpa using h
  exact_mod_cast h'

/-- From `10 ^ 21` on, the exponent text printed for a number of hundredths
reads back as that number. -/
theorem parseUnsigned_positiveToString_large (q : ℚ) (hq : (10 : ℚ) ^ 21 ≤ q)
    (hd : q.den ∣ 100) :
    parseUnsigned (positiveToString q) = some (JSNum.fin q) := by
  have hpos : 0 < q := lt_of_lt_of_le (by positivity) hq
  obtain ⟨hS, hval⟩ := decimalRepr_spec q hpos hd
  obtain ⟨hne, hall, hdv, hub, -⟩ := natDigits_spec (decimalRepr q).1
  unfold positiveToString
  simp only
  generalize (decimalRepr q).1 = S at hS hval hne hall hdv hub
  generalize (decimalRepr q).2 = e at hval
  generalize hs : natDigits S = s at hne hall hdv hub
  have hklen : 0 < s.length := List.length_pos.2 hne
  -- the position of the point is beyond 21
  have hn : (21 : ℤ) < (s.length : ℤ) + e := by
    have h1 : (S : ℚ) < (10 : ℚ) ^ (s.length : ℤ) := by
      rw [zpow_natCast]; exact_mod_cast hub
    have h2 : q < (10 : ℚ) ^ ((s.length : ℤ) + e) := by
      rw [zpow_add₀ (by norm_num : (10 : ℚ) ≠ 0), ← hval]
      exact mul_lt_mul_of_pos_right h1 (by positivity)
    have h3 : (10 : ℚ) ^ (21 : ℤ) < (10 : ℚ) ^ ((s.length : ℤ) + e) := by
      refine lt_of_le_of_lt ?_ h2
      rw [zpow_ofNat]; exact hq
    exact (zpow_lt_zpow_iff_right₀ (by norm_num : (1 : ℚ) < 10)).1 h3
  rw [if_neg (by omega), if_neg (by omega), if_neg (by omega)]
  have hsign : (if (s.length : ℤ) + e - 1 < 0 then '-' else '+') = '+' := if_neg (by omega)
  rw [hsign]
  obtain ⟨hEne, hEall, hEval, -, -⟩ := natDigits_spec ((s.length : ℤ) + e - 1).natAbs
  generalize hE : natDigits ((s.length : ℤ) + e - 1).natAbs = E at hEne hEall hEval
  have hEv : (digitsToNat E : ℤ) = (s.length : ℤ) + e - 1 := by
    rw [hEval]; omega
  have hex : parseExponent ('e' :: '+' :: E) = (s.length : ℤ) + e - 1 := by
    rw [parseExponent_plus E hEne hEall, hEv]
  by_cases hk : s.length = 1
  · rw [if_pos hk]
    rw [parseUnsigned_integer s ('e' :: '+' :: E) hne hall
      (show Char.isDigit 'e' = false by decide) (by intro r h; cases h), hex, hdv, scale10_eq, ← hval, hk]
    simp
  · rw [if_neg hk]
    have ha : ∀ c ∈ s.take 1, c.isDigit = true := fun c hc => hall c (List.mem_of_mem_take hc)
    have hb : ∀ c ∈ s.drop 1, c.isDigit = true := fun c hc => hall c (List.mem_of_mem_drop hc)
    have hane : s.take 1 ≠ [] := by
      intro h0
      have := congrArg List.length h0
      simp only [List.length_take, List.length_nil] at this
      omega
    rw [parseUnsigned_point (s.take 1) (s.drop 1) ('e' :: '+' :: E) hane ha hb
      (show Char.isDigit 'e' = false by decide), hex,
      List.take_append_drop, hdv, scale10_eq, ← hval]
    have : (s.length : ℤ) + e - 1 - ((s.drop 1).length : ℤ) = e := by
      simp only [List.length_drop]
      omega
    rw [this]

theorem digit_ne_symbols (c : Char) (h : c.isDigit = true) :
    c ≠ '€' ∧ c ≠ '$' ∧ c ≠ ',' := by
  refine ⟨?_, ?_, ?_⟩ <;> (rintro rfl; revert h; decide)

/-- No text printed by `Number::toString` holds a currency symbol or a
comma. -/
theorem numberToString_clean (x : JSNum) :
    ∀ c ∈ numberToString x, c ≠ '€' ∧ c ≠ '$' ∧ c ≠ ',' := by
  have hdig : ∀ n : ℕ, ∀ c ∈ natDigits n, c ≠ '€' ∧ c ≠ '$' ∧ c ≠ ',' :=
    fun n c hc => digit_ne_symbols c ((natDigits_spec n).2.1 c hc)
  have hz : ∀ k : ℕ, ∀ c ∈ List.replicate k '0', c ≠ '€' ∧ c ≠ '$' ∧ c ≠ ',' := by
    intro k c hc
    rw [List.eq_of_mem_replicate hc]; decide
  have hpos : ∀ q : ℚ, ∀ c ∈ positiveToString q, c ≠ '€' ∧ c ≠ '$' ∧ c ≠ ',' := by
    intro q
    unfold positiveToString
    simp only
    split_ifs <;> simp only [List.forall_mem_append, List.forall_mem_cons] <;>
      refine ⟨?_, ?_⟩ <;>
      first
        | decide
        | exact hdig _
        | exact hz _
        | exact fun c hc => hdig _ c (List.mem_of_mem_take hc)
        | exact fun c hc => hdig _ c (List.mem_of_mem_drop hc)
        | exact ⟨by decide, by decide, hdig _⟩
        | exact ⟨by decide, fun c hc => hdig _ c (List.mem_of_mem_drop hc)⟩
        | exact ⟨by decide, hz _, hdig _⟩
        | exact ⟨by decide, fun c hc => hdig _ c (List.mem_of_mem_drop hc), by decide, by decide,
            hdig _⟩
  intro c hc
  cases x with
  | nan => revert c; decide
  | posInf => revert c; decide
  | negInf => revert c; decide
  | fin q =>
    simp only [numberToString] at hc
    split_ifs at hc
    · simp only [List.mem_singleton] at hc
      rw [hc]; decide
    · rcases List.mem_cons.1 hc with h | h
      · rw [h]; decide
      · exact hpos _ c h
    · exact hpos _ c hc

/-! ## The round trip of the PDF route's helpers -/

theorem replaceFirst_roundtrip (a b : Char) (t : JSString) (h : b ∉ t) :
    replaceFirst b a (replaceFirst a b t) = t := by
  induction t with
  | nil => rfl
  | cons c t ih =>
    have hc : ¬ c = b := fun e => h (by simp [e])
    have ht : b ∉ t := fun e => h (by simp [e])
    by_cases hca : c = a
    · subst hca; simp [replaceFirst]
    · simp [replaceFirst, hca, hc, ih ht]

/-- What the PDF helper reads from `'€' + t.replace('.', ',')` when `t`
holds no currency symbol and no comma: what `parseFloat` reads from `t`. -/
theorem Pdf.parseCurrency_euro (t : JSString) (h : ∀ c ∈ t, c ≠ '€' ∧ c ≠ '$' ∧ c ≠ ',') :
    Pdf.parseCurrency (JSVal.str ('€' :: replaceFirst '.' ',' t)) =
      some (if (parseFloat t).isNaN then JSNum.fin 0 else parseFloat t) := by
  have hcomma : ',' ∉ t := fun hm => (h _ hm).2.2 rfl
  have hstrip : stripSymbols ('€' :: replaceFirst '.' ',' t) = replaceFirst '.' ',' t := by
    unfold stripSymbols
    rw [List.filter_cons_of_neg (by decide), List.filter_eq_self]
    intro c hc
    rcases mem_replaceFirst _ _ _ c hc with h1 | h1
    · subst h1; decide
    · have := h c h1
      simp [this.1, this.2.1]
  have hclean : parseFloat (cleanText ('€' :: replaceFirst '.' ',' t)) = parseFloat t := by
    unfold cleanText
    rw [parseFloat_trim, hstrip, replaceFirst_roundtrip _ _ t hcomma]
  simp only [Pdf.parseCurrency, JSVal.truthy, JSVal.toStringMethod, hclean]
  rfl

theorem toFixed2_hundredths (K : ℤ) :
    parseFloat (toFixed2 (JSNum.fin ((K : ℚ) / 100))) = JSNum.fin ((K : ℚ) / 100) ∧
      ∀ c ∈ toFixed2 (JSNum.fin ((K : ℚ) / 100)), c ≠ '€' ∧ c ≠ '$' ∧ c ≠ ',' := by
  -- the non-negative case, for a natural number of hundredths
  have key : ∀ N : ℕ,
      parseUnsigned (toFixed2Abs ((N : ℚ) / 100)) = some (JSNum.fin ((N : ℚ) / 100)) ∧
        ∀ c ∈ toFixed2Abs ((N : ℚ) / 100), c ≠ '€' ∧ c ≠ '$' ∧ c ≠ ',' := by
    intro N
    by_cases hbig : (10 : ℚ) ^ 21 ≤ (N : ℚ) / 100
    · have hpos : (0 : ℚ) < (N : ℚ) / 100 := lt_of_lt_of_le (by positivity) hbig
      have e : toFixed2Abs ((N : ℚ) / 100) = positiveToString ((N : ℚ) / 100) := by
        unfold toFixed2Abs
        rw [if_pos hbig]
        simp only [numberToString]
        rw [if_neg (ne_of_gt hpos), if_neg (not_lt.2 hpos.le)]
      have hclean := numberToString_clean (JSNum.fin ((N : ℚ) / 100))
      have e' : numberToString (JSNum.fin ((N : ℚ) / 100)) =
          positiveToString ((N : ℚ) / 100) := by
        simp only [numberToString]
        rw [if_neg (ne_of_gt hpos), if_neg (not_lt.2 hpos.le)]
      rw [e]
      rw [e'] at hclean
      exact ⟨parseUnsigned_positiveToString_large _ hbig (den_hundredths N), hclean⟩
    · obtain ⟨h1, h2⟩ := parseUnsigned_toFixed2Abs_small N hbig
      refine ⟨h1, ?_⟩
      intro c hc
      rcases h2 c hc with h3 | h3
      · exact digit_ne_symbols c h3
      · subst h3; decide
  by_cases hK : 0 ≤ K
  · obtain ⟨N, rfl⟩ := Int.eq_ofNat_of_zero_le hK
    obtain ⟨h1, h2⟩ := key N
    have hnn : ¬ (((N : ℤ) : ℚ) / 100 < 0) := by
      push_cast; exact not_lt.2 (by positivity)
    have e : toFixed2 (JSNum.fin (((N : ℤ) : ℚ) / 100)) = toFixed2Abs ((N : ℚ) / 100) := by
      simp only [toFixed2]
      rw [if_neg hnn]
      push_cast; rfl
    rw [e]
    refine ⟨?_, h2⟩
    rw [(parseFloat_of_parseUnsigned _ _ h1).1]
    push_cast; rfl
  · obtain ⟨N, hN⟩ := Int.eq_ofNat_of_zero_le (show 0 ≤ -K by omega)
    have hKN : (K : ℚ) = -(N : ℚ) := by
      have : K = -(N : ℤ) := by omega
      rw [this]; push_cast; rfl
    have hNpos : (0 : ℚ) < (N : ℚ) := by
      have : (0 : ℤ) < (N : ℤ) := by omega
      exact_mod_cast this
    obtain ⟨h1, h2⟩ := key N
    have hneg : (K : ℚ) / 100 < 0 := by
      rw [hKN]; linarith
    have e : toFixed2 (JSNum.fin ((K : ℚ) / 100)) = '-' :: toFixed2Abs ((N : ℚ) / 100) := by
      simp only [toFixed2]
      rw [if_pos hneg, hKN]
      congr 2
      ring
    rw [e]
    constructor
    · rw [(parseFloat_of_parseUnsigned _ _ h1).2, hKN]
      simp only [JSNum.neg, JSNum.fin.injEq]
      ring
    · intro c hc
      rcases List.mem_cons.1 hc with h3 | h3
      · subst h3; decide
      · exact h2 c h3

/-- C1: for every amount with at most two fractional digits, that is `K /
100` for an integer `K`, the PDF route's `parseCurrency` applied to the text
of `formatCurrency` returns the amount. -/
theorem parseCurrency_formatCurrency (K : ℤ) :
    Pdf.parseCurrency (JSVal.str (Pdf.formatCurrency (JSNum.fin ((K : ℚ) / 100)))) =
      some (JSNum.fin ((K : ℚ) / 100)) := by
  obtain ⟨h1, h2⟩ := toFixed2_hundredths K
  unfold Pdf.formatCurrency
  rw [Pdf.parseCurrency_euro _ h2, h1]
  rfl

/-! ## Texts that cleaning leaves as they are -/

theorem parseFloat_cleanText_of_clean (t : JSString)
    (h : ∀ c ∈ t, c ≠ '€' ∧ c ≠ '$' ∧ c ≠ ',') :
    parseFloat (cleanText t) = parseFloat t := by
  have hstrip : stripSymbols t = t := by
    unfold stripSymbols
    rw [List.filter_eq_self]
    intro c hc
    have := h c hc
    simp [this.1, this.2.1]
  unfold cleanText
  rw [parseFloat_trim, hstrip, replaceFirst_of_not_mem _ _ t (fun hm => (h _ hm).2.2 rfl)]

/-! ## The two totals -/

theorem Pdf.orZero_of_not_nan (r : JSNum) (h : r.isNaN = false) : Pdf.orZero r = r := by
  unfold Pdf.orZero
  cases r with
  | nan => cases h
  | posInf => rfl
  | negInf => rfl
  | fin q =>
    by_cases hq : q = 0
    · subst hq; rfl
    · simp [JSNum.truthy, hq]

/-- On a string, `undefined` or `null` the two `parseCurrency` helpers
return the same number. -/
theorem parseCurrency_agree (v : JSVal)
    (h : v = JSVal.undefined ∨ v = JSVal.null ∨ ∃ s, v = JSVal.str s) :
    InvoiceList.parseCurrency v = Pdf.parseCurrency v ∧
      ∃ x, Pdf.parseCurrency v = some x := by
  rcases h with rfl | rfl | ⟨s, rfl⟩
  · exact ⟨rfl, _, rfl⟩
  · exact ⟨rfl, _, rfl⟩
  · refine ⟨?_, Pdf.parseCurrency_total _⟩
    cases s with
    | nil => rfl
    | cons c s => rfl

/-- C13: for every row whose `dueamount`, `withholding` and `ritenuta` are
strings or absent, the two `parseCurrency` helpers return the same number
on each of the three fields, both routes compute the same amounts, and the
total text of the invoice list is the text `formatCurrency(total)` of the
PDF route. -/
theorem list_total_eq_pdf_total (invoice : Invoice)
    (hd : invoice.dueamount = JSVal.undefined ∨ invoice.dueamount = JSVal.null ∨
      ∃ s, invoice.dueamount = JSVal.str s)
    (hw : invoice.withholding = JSVal.undefined ∨ invoice.withholding = JSVal.null ∨
      ∃ s, invoice.withholding = JSVal.str s)
    (hr : invoice.ritenuta = JSVal.undefined ∨ invoice.ritenuta = JSVal.null ∨
      ∃ s, invoice.ritenuta = JSVal.str s) :
    InvoiceList.parseCurrency invoice.dueamount = Pdf.parseCurrency invoice.dueamount ∧
      InvoiceList.parseCurrency invoice.withholding =
        Pdf.parseCurrency invoice.withholding ∧
      InvoiceList.parseCurrency invoice.ritenuta = Pdf.parseCurrency invoice.ritenuta ∧
      InvoiceList.amounts invoice = Pdf.amounts invoice ∧
      InvoiceList.totalText invoice = Pdf.totalText invoice ∧
      ∃ a, Pdf.amounts invoice = some a ∧
        Pdf.totalText invoice = some (Pdf.formatCurrency a.total) := by
  obtain ⟨e1, d, h1⟩ := parseCurrency_agree _ hd
  obtain ⟨e2, w, h2⟩ := parseCurrency_agree _ hw
  obtain ⟨e3, r, h3⟩ := parseCurrency_agree _ hr
  have hor : Pdf.orZero r = r := Pdf.orZero_of_not_nan r (Pdf.parseCurrency_not_nan _ _ h3)
  have ha : InvoiceList.amounts invoice = Pdf.amounts invoice := by
    simp only [InvoiceList.amounts, Pdf.amounts, e1, e2, e3, h1, h2, h3, hor]
  have hp := Pdf.amounts_eq invoice d w r h1 h2 h3
  refine ⟨e1, e2, e3, ha, ?_, _, hp, ?_⟩
  · simp only [InvoiceList.totalText, Pdf.totalText, ha, Pdf.formatCurrency]
  · simp only [Pdf.totalText, hp, Option.map_some']

/-- C13, applied to a row with due amount `"100.00"`, withholding `"2.00"`
and rate marker `"20"`: both routes show `€82,00`. -/
theorem list_total_eq_pdf_total_witness :
    InvoiceList.totalText sampleTextInvoice = Pdf.totalText sampleTextInvoice ∧
      InvoiceList.totalText sampleTextInvoice = some "€82,00".toList :=
  ⟨(list_total_eq_pdf_total sampleTextInvoice (Or.inr (Or.inr ⟨_, rfl⟩))
      (Or.inr (Or.inr ⟨_, rfl⟩)) (Or.inr (Or.inr ⟨_, rfl⟩))).2.2.2.2.1,
    by decide!⟩

/-! ## The rows of the table -/

theorem Pdf.labels_append (xs ys : List Pdf.Call) :
    Pdf.labels (xs ++ ys) = Pdf.labels xs ++ Pdf.labels ys := by
  induction xs with
  | nil => rfl
  | cons c xs ih => cases c <;> simp [Pdf.labels, ih]

theorem Pdf.amountTexts_append (xs ys : List Pdf.Call) :
    Pdf.amountTexts (xs ++ ys) = Pdf.amountTexts xs ++ Pdf.amountTexts ys := by
  induction xs with
  | nil => rfl
  | cons c xs ih => cases c <;> simp [Pdf.amountTexts, ih]

/-- What one row adds to the record: its description, then its amount. -/
theorem Pdf.tableRow_recorded (sig : Bool) (description : String) (amount : JSString)
    (rowY : ℚ) (doc : Pdf.Doc (List Pdf.Call)) :
    Pdf.labels (Pdf.tableRow (Pdf.recorder sig) description amount rowY doc).2.rest =
        Pdf.labels doc.rest ++ [description.toList] ∧
      Pdf.amountTexts (Pdf.tableRow (Pdf.recorder sig) description amount rowY doc).2.rest =
        Pdf.amountTexts doc.rest ++ [amount] := by
  simp [Pdf.tableRow, Pdf.strokeLine, Pdf.recorder, Pdf.record, Pdf.labels_append,
    Pdf.amountTexts_append, Pdf.labels, Pdf.amountTexts]

theorem Pdf.labels_record (c : Pdf.Call) (y : ℚ) (doc : Pdf.Doc (List Pdf.Call)) :
    Pdf.labels (Pdf.record c y doc).rest = Pdf.labels doc.rest ++ Pdf.labels [c] ∧
      Pdf.amountTexts (Pdf.record c y doc).rest =
        Pdf.amountTexts doc.rest ++ Pdf.amountTexts [c] :=
  ⟨Pdf.labels_append _ _, Pdf.amountTexts_append _ _⟩

theorem Pdf.restyle_recorded (sig : Bool) (doc : Pdf.Doc (List Pdf.Call)) :
    Pdf.labels ((Pdf.recorder sig).fontSize 10
        ((Pdf.recorder sig).fillColor "#000000".toList doc)).rest = Pdf.labels doc.rest ∧
      Pdf.amountTexts ((Pdf.recorder sig).fontSize 10
        ((Pdf.recorder sig).fillColor "#000000".toList doc)).rest =
        Pdf.amountTexts doc.rest := by
  simp [Pdf.recorder, Pdf.record, Pdf.labels_append, Pdf.amountTexts_append, Pdf.labels,
    Pdf.amountTexts]

theorem Pdf.tableHead_recorded (sig : Bool) (tableTop : ℚ) (doc : Pdf.Doc (List Pdf.Call)) :
    Pdf.labels ((Pdf.recorder sig).fillColor "#000000".toList ((Pdf.recorder sig).fontSize 10
        ((Pdf.recorder sig).font "Helvetica".toList
          (Pdf.tableHead (Pdf.recorder sig) tableTop doc)))).rest =
        Pdf.labels doc.rest ++ ["DESCRIPTION".toList] ∧
      Pdf.amountTexts ((Pdf.recorder sig).fillColor "#000000".toList
        ((Pdf.recorder sig).fontSize 10 ((Pdf.recorder sig).font "Helvetica".toList
          (Pdf.tableHead (Pdf.recorder sig) tableTop doc)))).rest =
        Pdf.amountTexts doc.rest ++ ["AMOUNT".toList] := by
  simp [Pdf.tableHead, Pdf.recorder, Pdf.record, Pdf.labels_append, Pdf.amountTexts_append,
    Pdf.labels, Pdf.amountTexts]

/-- The descriptions and the amounts that the table section adds to the
record, in the order of the calls. -/
theorem Pdf.tableSection_recorded (sig : Bool) (a : Amounts) (doc : Pdf.Doc (List Pdf.Call)) :
    Pdf.labels (Pdf.tableSection (Pdf.recorder sig) a doc).2.2.rest =
        Pdf.labels doc.rest ++
          (if a.ritenuta.gt (JSNum.fin 0) then
            ["DESCRIPTION".toList, "Totale (Esente art.10 - N.4)".toList,
              "Ritenuta d\x27acconto (20%)".toList, "Bollo".toList]
          else ["DESCRIPTION".toList, "Totale (Esente art.10 - N.4)".toList, "Bollo".toList]) ∧
      Pdf.amountTexts (Pdf.tableSection (Pdf.recorder sig) a doc).2.2.rest =
        Pdf.amountTexts doc.rest ++
          (if a.ritenuta.gt (JSNum.fin 0) then
            ["AMOUNT".toList, Pdf.formatCurrency a.dueAmount,
              '-' :: Pdf.formatCurrency a.ritenutaDeduction, Pdf.formatCurrency a.withholding]
          else ["AMOUNT".toList, Pdf.formatCurrency a.dueAmount,
            Pdf.formatCurrency a.withholding]) := by
  have hh := Pdf.tableHead_recorded sig (doc.y + 20) doc
  unfold Pdf.tableSection
  simp only
  by_cases h : a.ritenuta.gt (JSNum.fin 0) = true
  · rw [if_pos h, if_pos h, if_pos h]
    rw [(Pdf.tableRow_recorded _ _ _ _ _).1, (Pdf.tableRow_recorded _ _ _ _ _).2,
      (Pdf.restyle_recorded _ _).1, (Pdf.restyle_recorded _ _).2,
      (Pdf.tableRow_recorded _ _ _ _ _).1, (Pdf.tableRow_recorded _ _ _ _ _).2,
      (Pdf.restyle_recorded _ _).1, (Pdf.restyle_recorded _ _).2,
      (Pdf.tableRow_recorded _ _ _ _ _).1, (Pdf.tableRow_recorded _ _ _ _ _).2, hh.1, hh.2]
    simp only [List.append_assoc, List.singleton_append, List.cons_append, List.nil_append,
      and_self]
  · rw [if_neg h, if_neg h, if_neg h]
    rw [(Pdf.tableRow_recorded _ _ _ _ _).1, (Pdf.tableRow_recorded _ _ _ _ _).2,
      (Pdf.restyle_recorded _ _).1, (Pdf.restyle_recorded _ _).2,
      (Pdf.tableRow_recorded _ _ _ _ _).1, (Pdf.tableRow_recorded _ _ _ _ _).2, hh.1, hh.2]
    simp only [List.append_assoc, List.singleton_append, List.cons_append, List.nil_append,
      and_self]

/-- The deduction of the PDF route is above zero only when the rate marker
is, and is zero when the marker is not. -/
theorem Pdf.amounts_deduction (invoice : Invoice) (a : Amounts)
    (h : Pdf.amounts invoice = some a) :
    (a.ritenuta.gt (JSNum.fin 0) = false → a.ritenutaDeduction = JSNum.fin 0) ∧
      (a.ritenutaDeduction.gt (JSNum.fin 0) = true → a.ritenuta.gt (JSNum.fin 0) = true) := by
  obtain ⟨d, hd⟩ := Pdf.parseCurrency_total invoice.dueamount
  obtain ⟨w, hw⟩ := Pdf.parseCurrency_total invoice.withholding
  obtain ⟨r, hr⟩ := Pdf.parseCurrency_total invoice.ritenuta
  rw [Pdf.amounts_eq invoice d w r hd hw hr] at h
  simp only [Option.some.injEq] at h
  subst h
  simp only
  by_cases hg : (Pdf.orZero r).gt (JSNum.fin 0) = true
  · constructor
    · intro hf
      rw [hf] at hg
      cases hg
    · intro _
      exact hg
  · rw [if_neg hg]
    constructor
    · intro _
      rfl
    · intro h0
      exact absurd h0 (by decide!)

/-- C11 (counterexample): a row with the deduction requested on a due amount
of `0` has a computed deduction of 0, and its table still shows the
deduction row, with the amount `-€0,00`. -/
theorem deduction_row_shown_for_zero_deduction :
    ∃ a, Pdf.amounts zeroDueInvoice = some a ∧ a.ritenutaDeduction = JSNum.fin 0 ∧
      Pdf.labels (Pdf.tableSection (Pdf.recorder true) a Pdf.newDoc).2.2.rest =
        ["DESCRIPTION".toList, "Totale (Esente art.10 - N.4)".toList,
          "Ritenuta d\x27acconto (20%)".toList, "Bollo".toList] ∧
      Pdf.amountTexts (Pdf.tableSection (Pdf.recorder true) a Pdf.newDoc).2.2.rest =
        ["AMOUNT".toList, "€0,00".toList, "-€0,00".toList, "€0,00".toList] :=
  ⟨{ dueAmount := JSNum.fin 0, withholding := JSNum.fin 0, ritenuta := JSNum.fin 20,
      ritenutaDeduction := JSNum.fin 0, total := JSNum.fin 0 },
    by decide!, rfl, by decide!, by decide!⟩

/-- C11 (amended): for every row, the table shows no deduction row when the
parsed rate marker is not above zero, and then the computed deduction is 0;
it shows exactly one deduction row, after the due-amount row and before the
`Bollo` row and with a minus sign before its amount, when the marker is
above zero, as it is whenever the computed deduction is above zero. -/
theorem deduction_row_follows_rate_marker (invoice : Invoice) (sig : Bool)
    (doc : Pdf.Doc (List Pdf.Call)) :
    ∃ a, Pdf.amounts invoice = some a ∧
      (a.ritenuta.gt (JSNum.fin 0) = false →
        a.ritenutaDeduction = JSNum.fin 0 ∧
        Pdf.labels (Pdf.tableSection (Pdf.recorder sig) a doc).2.2.rest =
          Pdf.labels doc.rest ++
            ["DESCRIPTION".toList, "Totale (Esente art.10 - N.4)".toList, "Bollo".toList] ∧
        Pdf.amountTexts (Pdf.tableSection (Pdf.recorder sig) a doc).2.2.rest =
          Pdf.amountTexts doc.rest ++
            ["AMOUNT".toList, Pdf.formatCurrency a.dueAmount,
              Pdf.formatCurrency a.withholding]) ∧
      (a.ritenuta.gt (JSNum.fin 0) = true →
        Pdf.labels (Pdf.tableSection (Pdf.recorder sig) a doc).2.2.rest =
          Pdf.labels doc.rest ++
            ["DESCRIPTION".toList, "Totale (Esente art.10 - N.4)".toList,
              "Ritenuta d\x27acconto (20%)".toList, "Bollo".toList] ∧
        Pdf.amountTexts (Pdf.tableSection (Pdf.recorder sig) a doc).2.2.rest =
          Pdf.amountTexts doc.rest ++
            ["AMOUNT".toList, Pdf.formatCurrency a.dueAmount,
              '-' :: Pdf.formatCurrency a.ritenutaDeduction,
              Pdf.formatCurrency a.withholding]) ∧
      (a.ritenutaDeduction.gt (JSNum.fin 0) = true → a.ritenuta.gt (JSNum.fin 0) = true) := by
  obtain ⟨d, hd⟩ := Pdf.parseCurrency_total invoice.dueamount
  obtain ⟨w, hw⟩ := Pdf.parseCurrency_total invoice.withholding
  obtain ⟨r, hr⟩ := Pdf.parseCurrency_total invoice.ritenuta
  obtain ⟨a, ha⟩ : ∃ a, Pdf.amounts invoice = some a :=
    ⟨_, Pdf.amounts_eq invoice d w r hd hw hr⟩
  obtain ⟨h0, h1⟩ := Pdf.amounts_deduction invoice a ha
  have hrec := Pdf.tableSection_recorded sig a doc
  refine ⟨a, ha, ?_, ?_, h1⟩
  · intro hf
    have hn : ¬ a.ritenuta.gt (JSNum.fin 0) = true := by
      rw [hf]; exact Bool.false_ne_true
    rw [if_neg hn, if_neg hn] at hrec
    exact ⟨h0 hf, hrec.1, hrec.2⟩
  · intro ht
    rw [if_pos ht, if_pos ht] at hrec
    exact hrec

/-- C11 (amended), applied to a row with due amount `100.00` and the rate
marker `20`, on a new document. -/
theorem deduction_row_follows_rate_marker_witness :
    ∃ a, Pdf.amounts sampleInvoice = some a ∧
      Pdf.labels (Pdf.tableSection (Pdf.recorder true) a Pdf.newDoc).2.2.rest =
        Pdf.labels Pdf.newDoc.rest ++
          ["DESCRIPTION".toList, "Totale (Esente art.10 - N.4)".toList,
            "Ritenuta d\x27acconto (20%)".toList, "Bollo".toList] := by
  obtain ⟨a, ha, -, h1, -⟩ := deduction_row_follows_rate_marker sampleInvoice true Pdf.newDoc
  have hv : Pdf.amounts sampleInvoice = some
      { dueAmount := JSNum.fin 100, withholding := JSNum.fin 2, ritenuta := JSNum.fin 20,
        ritenutaDeduction := JSNum.fin 20, total := JSNum.fin 82 } := by
    decide!
  have e := ha.symm.trans hv
  simp only [Option.some.injEq] at e
  subst e
  exact ⟨_, hv, (h1 (by decide!)).1⟩

/-! ## The cursor after the stamp placeholder -/

theorem Pdf.stampBlock_false {σ : Type} (kit : Pdf.Kit σ) (doc : Pdf.Doc σ) :
    Pdf.stampBlock kit false doc = doc := rfl

theorem Pdf.stampBlock_true_ge {σ : Type} (kit : Pdf.Kit σ)
    (htext : ∀ (s : JSString) (x y w : ℚ) (al : JSString) (d : Pdf.Doc σ),
      y ≤ (kit.textIn s x y w al d).y)
    (doc : Pdf.Doc σ) : 110 ≤ (Pdf.stampBlock kit true doc).y := by
  unfold Pdf.stampBlock
  simp only [if_true]
  refine le_trans ?_ (htext _ _ _ _ _ _)
  norm_num

theorem Pdf.renderFrom_headerY {σ : Type} (kit : Pdf.Kit σ) (invoice : Invoice) (a : Amounts)
    (st : Bool) (doc : Pdf.Doc σ) (l : Pdf.Layout σ)
    (h : Pdf.renderFrom kit invoice a st doc = some l) :
    l.headerY = (Pdf.stampBlock kit st doc).y := by
  unfold Pdf.renderFrom at h
  simp only at h
  split at h
  · cases h
  · simp only [Option.some.injEq] at h
    rw [← h]

/-- C12 (counterexample): on a new document, with a library that leaves
the cursor twelve points under each text it draws, the stamp's last caption
leaves the cursor at 122 instead of 50, and the row with due amount `100.00`
has its header, divider, two columns, table, totals box and signature 72
points lower than they are without the stamp, and than they are for the
same row with due amount `50.00`. -/
theorem stamp_shifts_layout :
    (Pdf.stampBlock (Pdf.recorder true) true Pdf.newDoc).y = 122 ∧
      (Pdf.stampBlock (Pdf.recorder true) false Pdf.newDoc).y = 50 ∧
      (Pdf.render (Pdf.recorder true) sampleInvoice Pdf.newDoc).map Pdf.Layout.positions =
        some [122, 152, 170, 306, 466, 546] ∧
      (Pdf.renderFrom (Pdf.recorder true) sampleInvoice
          { dueAmount := JSNum.fin 100, withholding := JSNum.fin 2, ritenuta := JSNum.fin 20,
            ritenutaDeduction := JSNum.fin 20, total := JSNum.fin 82 } false Pdf.newDoc).map
          Pdf.Layout.positions =
        some [50, 80, 98, 234, 394, 474] ∧
      (Pdf.render (Pdf.recorder true) lowDueInvoice Pdf.newDoc).map Pdf.Layout.positions =
        some [50, 80, 98, 234, 394, 474] := by
  decide!

theorem Pdf.stamp_calls_fixed (sig : Bool) (d1 d2 : Pdf.Doc (List Pdf.Call))
    (h : d1.rest = d2.rest) :
    (Pdf.stampBlock (Pdf.recorder sig) true d1).rest =
      (Pdf.stampBlock (Pdf.recorder sig) true d2).rest := by
  simp only [Pdf.stampBlock, if_true, Pdf.recorder, Pdf.record, h]

theorem Pdf.footer_calls_fixed (sig : Bool) (d1 d2 : Pdf.Doc (List Pdf.Call))
    (h : d1.rest = d2.rest) :
    (Pdf.footer (Pdf.recorder sig) d1).rest = (Pdf.footer (Pdf.recorder sig) d2).rest := by
  simp only [Pdf.footer, Pdf.strokeLine, Pdf.recorder, Pdf.record, h]


/-! ## The regions under the recorded cursor rule -/

theorem Pdf.header_recorded (sig : Bool) (invoice : Invoice) (doc : Pdf.Doc (List Pdf.Call)) :
    (Pdf.header (Pdf.recorder sig) invoice doc).1 = doc.y + 30 ∧
      (Pdf.header (Pdf.recorder sig) invoice doc).2.y = doc.y + 48 := by
  simp only [Pdf.header, Pdf.recorder, Pdf.record]
  constructor <;> norm_num <;> ring

theorem Pdf.rightColumn_recorded (sig : Bool) (invoice : Invoice) (startY : ℚ)
    (doc : Pdf.Doc (List Pdf.Call)) :
    (Pdf.rightColumn (Pdf.recorder sig).toEnv invoice startY doc).1 =
        startY + (if invoice.collecteddate.truthy then 74 else 56) ∧
      (Pdf.rightColumn (Pdf.recorder sig).toEnv invoice startY doc).2.y =
        startY + (if invoice.collecteddate.truthy then 74 else 56) + 12 := by
  unfold Pdf.rightColumn
  simp only
  by_cases h1 : invoice.collecteddate.truthy = true
  · simp only [h1, if_true, Pdf.recorder, Pdf.record]
    constructor <;> ring
  · simp only [h1, if_false, Bool.false_eq_true, Pdf.recorder, Pdf.record]
    constructor <;> ring

theorem Pdf.detailBlock_recorded (sig : Bool) (invoice : Invoice) (doc : Pdf.Doc (List Pdf.Call))
    (b : Pdf.DetailBlock (List Pdf.Call))
    (h : Pdf.detailBlock (Pdf.recorder sig).toEnv invoice doc = some b) :
    b.startY = doc.y ∧
      b.final.y = doc.y + (if invoice.collecteddate.truthy then 74 else 56) + 42 := by
  unfold Pdf.detailBlock at h
  cases hl : Pdf.leftColumn (Pdf.recorder sig).toEnv invoice doc with
  | none => simp [hl] at h
  | some p =>
    obtain ⟨leftY, doc1⟩ := p
    have hr := Pdf.rightColumn_recorded sig invoice doc.y doc1
    simp only [hl, Option.some.injEq] at h
    rw [← h]
    refine ⟨rfl, ?_⟩
    show (Pdf.Env.moveDown (Pdf.recorder sig).toEnv 1 _).y = _
    simp only [Pdf.recorder, Pdf.record]
    simp only [Pdf.recorder, Pdf.record] at hr
    rw [hr.1, hr.2, max_eq_right (by linarith)]
    ring

theorem Pdf.tableSection_rows {σ : Type} (kit : Pdf.Kit σ) (a : Amounts) (doc : Pdf.Doc σ) :
    (Pdf.tableSection kit a doc).1 = doc.y + 20 ∧
      (Pdf.tableSection kit a doc).2.1 =
        doc.y + 20 + (if a.ritenuta.gt (JSNum.fin 0) then 160 else 120) := by
  unfold Pdf.tableSection
  simp only [true_and]
  by_cases hg : a.ritenuta.gt (JSNum.fin 0) = true
  · rw [if_pos hg, if_pos hg]
    simp only [Pdf.tableRow]
    ring
  · rw [if_neg hg, if_neg hg]
    simp only [Pdf.tableRow]
    ring

theorem Pdf.renderFrom_recorded (sig : Bool) (invoice : Invoice) (a : Amounts) (st : Bool)
    (doc : Pdf.Doc (List Pdf.Call)) (l : Pdf.Layout (List Pdf.Call))
    (h : Pdf.renderFrom (Pdf.recorder sig) invoice a st doc = some l) :
    l.positions =
      [0, 30, 48,
        110 + (if invoice.collecteddate.truthy then 74 else 56),
        110 + (if invoice.collecteddate.truthy then 74 else 56) +
          (if a.ritenuta.gt (JSNum.fin 0) then 160 else 120),
        190 + (if invoice.collecteddate.truthy then 74 else 56) +
          (if a.ritenuta.gt (JSNum.fin 0) then 160 else 120)].map
        (fun d => (Pdf.stampBlock (Pdf.recorder sig) st doc).y + d) := by
  unfold Pdf.renderFrom at h
  simp only at h
  have hh := Pdf.header_recorded sig invoice (Pdf.stampBlock (Pdf.recorder sig) st doc)
  cases hb : Pdf.detailBlock (Pdf.recorder sig).toEnv invoice
      (Pdf.header (Pdf.recorder sig) invoice (Pdf.stampBlock (Pdf.recorder sig) st doc)).2 with
  | none => simp [hb] at h
  | some b =>
    have hd := Pdf.detailBlock_recorded sig invoice _ b hb
    have ht := Pdf.tableSection_rows (Pdf.recorder sig) a b.final
    simp only [hb, Option.some.injEq] at h
    rw [← h]
    simp only [Pdf.Layout.positions, List.map_cons, List.map_nil, List.cons.injEq, and_true]
    rw [ht.1, ht.2, hd.1, hd.2, hh.1, hh.2]
    refine ⟨by ring, rfl, by ring, by ring, by ring, by ring⟩


theorem Pdf.stampBlock_recorded (sig : Bool) (doc : Pdf.Doc (List Pdf.Call)) :
    (Pdf.stampBlock (Pdf.recorder sig) true doc).y = 122 := by
  simp only [Pdf.stampBlock, if_true, Pdf.recorder, Pdf.record]
  norm_num

/-- C12 (amended): when the stamp placeholder is not drawn the header is
laid out from the cursor as it was; when it is drawn the header is laid out
from the cursor that the stamp's last caption leaves, which is at or below
110 for every library that leaves the cursor at or below the `y` of a text
drawn at `(x, y)`, so on a document whose cursor is above 110 the two
differ.  Under the recorded cursor rule with lines of twelve points, for
every row the header title, the divider, the top of the two columns, the
table top, the totals box and the signature are all lower by the same
`122 - doc.y` with the stamp than without it.  The calls that draw the
stamp, and those that draw the footer, are the same wherever the cursor
is. -/
theorem stamp_moves_header_cursor :
    (∀ (σ : Type) (kit : Pdf.Kit σ) (invoice : Invoice) (a : Amounts) (doc : Pdf.Doc σ)
        (l : Pdf.Layout σ),
      Pdf.renderFrom kit invoice a false doc = some l → l.headerY = doc.y) ∧
    (∀ (σ : Type) (kit : Pdf.Kit σ),
      (∀ (s : JSString) (x y w : ℚ) (al : JSString) (d : Pdf.Doc σ),
        y ≤ (kit.textIn s x y w al d).y) →
      ∀ (invoice : Invoice) (a : Amounts) (doc : Pdf.Doc σ) (l : Pdf.Layout σ),
        Pdf.renderFrom kit invoice a true doc = some l →
        110 ≤ l.headerY ∧ (doc.y < 110 → l.headerY ≠ doc.y)) ∧
    (∀ (sig : Bool) (invoice : Invoice) (a : Amounts) (doc : Pdf.Doc (List Pdf.Call))
        (l0 l1 : Pdf.Layout (List Pdf.Call)),
      Pdf.renderFrom (Pdf.recorder sig) invoice a false doc = some l0 →
      Pdf.renderFrom (Pdf.recorder sig) invoice a true doc = some l1 →
      l1.positions = l0.positions.map (fun y => y + (122 - doc.y))) ∧
    (∀ (sig : Bool) (d1 d2 : Pdf.Doc (List Pdf.Call)), d1.rest = d2.rest →
      (Pdf.stampBlock (Pdf.recorder sig) true d1).rest =
          (Pdf.stampBlock (Pdf.recorder sig) true d2).rest ∧
        (Pdf.footer (Pdf.recorder sig) d1).rest =
          (Pdf.footer (Pdf.recorder sig) d2).rest) := by
  refine ⟨?_, ?_, ?_, ?_⟩
  · intro σ kit invoice a doc l h
    rw [Pdf.renderFrom_headerY kit invoice a false doc l h, Pdf.stampBlock_false]
  · intro σ kit htext invoice a doc l h
    have hy := Pdf.renderFrom_headerY kit invoice a true doc l h
    have hge := Pdf.stampBlock_true_ge kit htext doc
    rw [← hy] at hge
    exact ⟨hge, fun hlt he => by rw [he] at hge; exact absurd hlt (not_lt.2 hge)⟩
  · intro sig invoice a doc l0 l1 h0 h1
    rw [Pdf.renderFrom_recorded sig invoice a false doc l0 h0,
      Pdf.renderFrom_recorded sig invoice a true doc l1 h1, Pdf.stampBlock_false,
      Pdf.stampBlock_recorded]
    simp only [List.map_cons, List.map_nil, List.cons.injEq, and_true]
    refine ⟨by ring, by ring, by ring, by ring, by ring, by ring⟩
  · intro sig d1 d2 h
    exact ⟨Pdf.stamp_calls_fixed sig d1 d2 h, Pdf.footer_calls_fixed sig d1 d2 h⟩

/-- C12 (amended), applied to the recording library and the row with due
amount `100.00`, on a new document: the header starts at 122, not at 50. -/
theorem stamp_moves_header_cursor_witness :
    ∃ l, Pdf.render (Pdf.recorder true) sampleInvoice Pdf.newDoc = some l ∧
      110 ≤ l.headerY ∧ l.headerY ≠ Pdf.newDoc.y := by
  have hr : ∃ l, Pdf.renderFrom (Pdf.recorder true) sampleInvoice
      { dueAmount := JSNum.fin 100, withholding := JSNum.fin 2, ritenuta := JSNum.fin 20,
        ritenutaDeduction := JSNum.fin 20, total := JSNum.fin 82 } true Pdf.newDoc = some l := by
    cases hc : Pdf.renderFrom (Pdf.recorder true) sampleInvoice
      { dueAmount := JSNum.fin 100, withholding := JSNum.fin 2, ritenuta := JSNum.fin 20,
        ritenutaDeduction := JSNum.fin 20, total := JSNum.fin 82 } true Pdf.newDoc with
    | none =>
      have : (Pdf.renderFrom (Pdf.recorder true) sampleInvoice
        { dueAmount := JSNum.fin 100, withholding := JSNum.fin 2, ritenuta := JSNum.fin 20,
          ritenutaDeduction := JSNum.fin 20, total := JSNum.fin 82 } true Pdf.newDoc).isSome =
          true := by decide!
      rw [hc] at this
      cases this
    | some l => exact ⟨l, rfl⟩
  obtain ⟨l, hl⟩ := hr
  have hrender : Pdf.render (Pdf.recorder true) sampleInvoice Pdf.newDoc = some l := by
    have ha : Pdf.amounts sampleInvoice = some
        { dueAmount := JSNum.fin 100, withholding := JSNum.fin 2, ritenuta := JSNum.fin 20,
          ritenutaDeduction := JSNum.fin 20, total := JSNum.fin 82 } := by
      decide!
    have hg : (JSNum.fin 100).gt threshold = true := by decide!
    simp only [Pdf.render, ha, hg]
    exact hl
  have h := stamp_moves_header_cursor.2.1 (List Pdf.Call) (Pdf.recorder true)
    (fun s x y w al d => by
      show y ≤ y + 12
      linarith)
    sampleInvoice _ Pdf.newDoc l hl
  exact ⟨l, hrender, h.1, h.2 (by decide!)⟩


/-! ## Binary64: rounding keeps what the helpers test -/

theorem binary64_ofRat_isNaN (q : ℚ) : (Binary64.ofRat q).isNaN = false := by
  unfold Binary64.ofRat
  simp only
  split_ifs <;> rfl

theorem binary64_ofExact_isNaN (x : JSNum) : (Binary64.ofExact x).isNaN = x.isNaN := by
  cases x with
  | fin q => exact binary64_ofRat_isNaN q
  | nan => rfl
  | posInf => rfl
  | negInf => rfl

theorem binary64_parseFloat_isNaN (t : JSString) :
    (Binary64.parseFloat t).isNaN = (parseFloat t).isNaN :=
  binary64_ofExact_isNaN _

theorem binary64_mul_swap (a b : JSNum) : Binary64.mul a b = Binary64.mul b a := by
  unfold Binary64.mul
  rw [JSNum.mul_swap]

theorem binary64_parseFloat_clean_twice (s : JSString) :
    Binary64.parseFloat (cleanText (cleanText s)) = Binary64.parseFloat (cleanText s) := by
  unfold Binary64.parseFloat
  rw [parseFloat_cleanText_cleanText]

theorem binary64_pdf_parseCurrency_returns (v : JSVal) :
    ∃ x, Binary64.Pdf.parseCurrency v = some x := by
  unfold Binary64.Pdf.parseCurrency
  by_cases h : v.truthy = true
  · cases v <;> simp_all [JSVal.truthy, JSVal.toStringMethod]
  · simp [h]

theorem binary64_pdf_parseCurrency_isNaN (v : JSVal) (x : JSNum)
    (h : Binary64.Pdf.parseCurrency v = some x) : x.isNaN = false := by
  unfold Binary64.Pdf.parseCurrency at h
  by_cases ht : v.truthy = true
  · simp only [ht, Bool.not_true, Bool.false_eq_true, if_false] at h
    cases hs : v.toStringMethod with
    | none => rw [hs] at h; cases h
    | some s =>
      rw [hs] at h
      simp only [Option.some.injEq] at h
      rw [← h]
      by_cases hn : (Binary64.parseFloat (cleanText s)).isNaN = true
      · rw [if_pos hn]; rfl
      · rw [if_neg hn]; simpa using hn
  · simp only [ht, Bool.not_false, if_true, Option.some.injEq] at h
    rw [← h]; rfl

theorem binary64_pdf_amounts_of_parsed (invoice : Invoice) (d w r : JSNum)
    (hd : Binary64.Pdf.parseCurrency invoice.dueamount = some d)
    (hw : Binary64.Pdf.parseCurrency invoice.withholding = some w)
    (hr : Binary64.Pdf.parseCurrency invoice.ritenuta = some r) :
    Binary64.Pdf.amounts invoice = some
      { dueAmount := d
        withholding := w
        ritenuta := Pdf.orZero r
        ritenutaDeduction :=
          if (Pdf.orZero r).gt (JSNum.fin 0) then Binary64.mul d Binary64.rate else JSNum.fin 0
        total := Binary64.add (Binary64.sub d
          (if (Pdf.orZero r).gt (JSNum.fin 0) then Binary64.mul d Binary64.rate
            else JSNum.fin 0)) w } := by
  simp only [Binary64.Pdf.amounts, hd, hw, hr]

/-! ## What the recorded page holds -/

theorem Pdf.stampBlock_appends (sig st : Bool) (doc : Pdf.Doc (List Pdf.Call)) :
    ∃ xs, (Pdf.stampBlock (Pdf.recorder sig) st doc).rest = doc.rest ++ xs := by
  cases st
  · exact ⟨[], by simp [Pdf.stampBlock]⟩
  · simp only [Pdf.stampBlock, if_true, Pdf.recorder, Pdf.record, List.append_assoc]
    exact ⟨_, rfl⟩

theorem Pdf.header_appends (sig : Bool) (invoice : Invoice) (doc : Pdf.Doc (List Pdf.Call)) :
    ∃ xs, (Pdf.header (Pdf.recorder sig) invoice doc).2.rest = doc.rest ++ xs := by
  simp only [Pdf.header, Pdf.recorder, Pdf.record, List.append_assoc]
  exact ⟨_, rfl⟩

theorem Pdf.leftColumn_appends (sig : Bool) (invoice : Invoice) (doc : Pdf.Doc (List Pdf.Call))
    (y : ℚ) (d : Pdf.Doc (List Pdf.Call))
    (h : Pdf.leftColumn (Pdf.recorder sig).toEnv invoice doc = some (y, d)) :
    ∃ xs, d.rest = doc.rest ++ xs := by
  unfold Pdf.leftColumn at h
  simp only at h
  by_cases h1 : invoice.patient_address.truthy = true <;>
  by_cases h2 : (invoice.patient_city.truthy || invoice.patient_postalcode.truthy) = true <;>
  by_cases h4 : Pdf.cityLine invoice = [] <;>
  cases h3 : Pdf.showsCountry (Pdf.recorder sig).toEnv invoice.patient_country with
  | none => simp [h1, h2, h3] at h
  | some t =>
    cases t <;>
    · simp only [h1, h2, h3, h4, if_true, if_false, Bool.false_eq_true, Option.some.injEq,
        Prod.mk.injEq, ne_eq, not_true_eq_false, not_false_eq_true] at h
      obtain ⟨-, hd⟩ := h
      rw [← hd]
      simp only [Pdf.recorder, Pdf.record, List.append_assoc]
      exact ⟨_, rfl⟩

theorem Pdf.rightColumn_appends (sig : Bool) (invoice : Invoice) (startY : ℚ)
    (doc : Pdf.Doc (List Pdf.Call)) :
    ∃ xs, (Pdf.rightColumn (Pdf.recorder sig).toEnv invoice startY doc).2.rest =
      doc.rest ++ xs := by
  unfold Pdf.rightColumn
  simp only
  by_cases h1 : invoice.collecteddate.truthy = true
  · simp only [h1, if_true, Pdf.recorder, Pdf.record, List.append_assoc]
    exact ⟨_, rfl⟩
  · simp only [h1, if_false, Bool.false_eq_true, Pdf.recorder, Pdf.record, List.append_assoc]
    exact ⟨_, rfl⟩

theorem Pdf.detailBlock_appends (sig : Bool) (invoice : Invoice) (doc : Pdf.Doc (List Pdf.Call))
    (b : Pdf.DetailBlock (List Pdf.Call))
    (h : Pdf.detailBlock (Pdf.recorder sig).toEnv invoice doc = some b) :
    ∃ xs, b.final.rest = doc.rest ++ xs := by
  unfold Pdf.detailBlock at h
  cases hl : Pdf.leftColumn (Pdf.recorder sig).toEnv invoice doc with
  | none => simp [hl] at h
  | some p =>
    obtain ⟨leftY, doc1⟩ := p
    obtain ⟨xs, hx⟩ := Pdf.leftColumn_appends sig invoice doc leftY doc1 hl
    obtain ⟨ys, hy⟩ := Pdf.rightColumn_appends sig invoice doc.y doc1
    simp only [hl, Option.some.injEq] at h
    rw [← h]
    refine ⟨xs ++ (ys ++ [Pdf.Call.moveDown 1]), ?_⟩
    show (Pdf.Env.moveDown (Pdf.recorder sig).toEnv 1 _).rest = _
    simp only [Pdf.recorder, Pdf.record]
    simp only [Pdf.recorder, Pdf.record] at hy
    rw [hy, hx]
    simp only [List.append_assoc]

theorem Pdf.tableSection_appends (sig : Bool) (a : Amounts) (doc : Pdf.Doc (List Pdf.Call)) :
    ∃ xs, (Pdf.tableSection (Pdf.recorder sig) a doc).2.2.rest = doc.rest ++ xs := by
  unfold Pdf.tableSection
  simp only
  by_cases hg : a.ritenuta.gt (JSNum.fin 0) = true
  · rw [if_pos hg]
    simp only [Pdf.tableRow, Pdf.tableHead, Pdf.strokeLine, Pdf.recorder, Pdf.record,
      List.append_assoc]
    exact ⟨_, rfl⟩
  · rw [if_neg hg]
    simp only [Pdf.tableRow, Pdf.tableHead, Pdf.strokeLine, Pdf.recorder, Pdf.record,
      List.append_assoc]
    exact ⟨_, rfl⟩

/-- The calls of the totals box: the last two draw the label and, right
aligned under the amounts, the text `formatCurrency(total)`. -/
theorem Pdf.totalSection_recorded (sig : Bool) (a : Amounts) (rowY : ℚ)
    (doc : Pdf.Doc (List Pdf.Call)) :
    (Pdf.totalSection (Pdf.recorder sig) a rowY doc).rest =
      doc.rest ++ [Pdf.Call.rect 350 rowY 195 40, Pdf.Call.fillColor "#e7f5ff".toList,
        Pdf.Call.fill, Pdf.Call.fontSize 14, Pdf.Call.font "Helvetica-Bold".toList,
        Pdf.Call.fillColor "#0d6efd".toList,
        Pdf.Call.text "TOTAL AMOUNT:".toList 360 (rowY + 12),
        Pdf.Call.textIn (Pdf.formatCurrency a.total) 450 (rowY + 12) 85 "right".toList] := by
  simp only [Pdf.totalSection, Pdf.recorder, Pdf.record, List.append_assoc, List.singleton_append,
    List.cons_append, List.nil_append]

theorem Pdf.signature_appends (sig : Bool) (y : ℚ) (doc : Pdf.Doc (List Pdf.Call)) :
    ∃ xs, (Pdf.signature (Pdf.recorder sig) y doc).rest = doc.rest ++ xs := by
  cases sig
  · simp only [Pdf.signature, Pdf.recorder, Pdf.record, Bool.false_eq_true, if_false,
      List.append_assoc]
    exact ⟨_, rfl⟩
  · simp only [Pdf.signature, Pdf.strokeLine, Pdf.recorder, Pdf.record, if_true,
      List.append_assoc]
    exact ⟨_, rfl⟩

theorem Pdf.footer_appends (sig : Bool) (doc : Pdf.Doc (List Pdf.Call)) :
    ∃ xs, (Pdf.footer (Pdf.recorder sig) doc).rest = doc.rest ++ xs := by
  simp only [Pdf.footer, Pdf.strokeLine, Pdf.recorder, Pdf.record, List.append_assoc]
  exact ⟨_, rfl⟩

/-- The page of `renderFrom` on the recording library: whatever was drawn
before and after, the totals box is drawn at `totalsY` with the text
`formatCurrency(total)`. -/
theorem Pdf.renderFrom_total_recorded (sig : Bool) (invoice : Invoice) (a : Amounts) (st : Bool)
    (doc : Pdf.Doc (List Pdf.Call)) (l : Pdf.Layout (List Pdf.Call))
    (h : Pdf.renderFrom (Pdf.recorder sig) invoice a st doc = some l) :
    ∃ before after, l.doc.rest = doc.rest ++ before ++
      [Pdf.Call.text "TOTAL AMOUNT:".toList 360 (l.totalsY + 12),
        Pdf.Call.textIn (Pdf.formatCurrency a.total) 450 (l.totalsY + 12) 85 "right".toList] ++
      after := by
  unfold Pdf.renderFrom at h
  simp only at h
  obtain ⟨s, hs⟩ := Pdf.stampBlock_appends sig st doc
  obtain ⟨hh, hhe⟩ := Pdf.header_appends sig invoice (Pdf.stampBlock (Pdf.recorder sig) st doc)
  cases hb : Pdf.detailBlock (Pdf.recorder sig).toEnv invoice
      (Pdf.header (Pdf.recorder sig) invoice (Pdf.stampBlock (Pdf.recorder sig) st doc)).2 with
  | none => simp [hb] at h
  | some b =>
    obtain ⟨d, hd⟩ := Pdf.detailBlock_appends sig invoice _ b hb
    obtain ⟨t, ht⟩ := Pdf.tableSection_appends sig a b.final
    have htot := Pdf.totalSection_recorded sig a (Pdf.tableSection (Pdf.recorder sig) a b.final).2.1
      (Pdf.tableSection (Pdf.recorder sig) a b.final).2.2
    obtain ⟨g, hg⟩ := Pdf.signature_appends sig
      ((Pdf.tableSection (Pdf.recorder sig) a b.final).2.1 + 80)
      (Pdf.totalSection (Pdf.recorder sig) a (Pdf.tableSection (Pdf.recorder sig) a b.final).2.1
        (Pdf.tableSection (Pdf.recorder sig) a b.final).2.2)
    obtain ⟨f, hf⟩ := Pdf.footer_appends sig (Pdf.signature (Pdf.recorder sig)
      ((Pdf.tableSection (Pdf.recorder sig) a b.final).2.1 + 80)
      (Pdf.totalSection (Pdf.recorder sig) a (Pdf.tableSection (Pdf.recorder sig) a b.final).2.1
        (Pdf.tableSection (Pdf.recorder sig) a b.final).2.2))
    simp only [hb, Option.some.injEq] at h
    rw [← h]
    simp only
    rw [hf, hg, htot, ht, hd, hhe, hs]
    refine ⟨s ++ (hh ++ (d ++ (t ++ [Pdf.Call.rect 350
      (Pdf.tableSection (Pdf.recorder sig) a b.final).2.1 195 40,
      Pdf.Call.fillColor "#e7f5ff".toList, Pdf.Call.fill, Pdf.Call.fontSize 14,
      Pdf.Call.font "Helvetica-Bold".toList, Pdf.Call.fillColor "#0d6efd".toList]))),
      g ++ f, ?_⟩
    simp only [List.append_assoc, List.singleton_append, List.cons_append, List.nil_append]

/-- The page is drawn unless the country test throws. -/
theorem Pdf.renderFrom_isSome {σ : Type} (kit : Pdf.Kit σ) (invoice : Invoice) (a : Amounts)
    (st : Bool) (doc : Pdf.Doc σ) :
    (Pdf.renderFrom kit invoice a st doc).isSome =
      (Pdf.showsCountry kit.toEnv invoice.patient_country).isSome := by
  unfold Pdf.renderFrom Pdf.detailBlock Pdf.leftColumn
  simp only
  cases h3 : Pdf.showsCountry kit.toEnv invoice.patient_country with
  | none => rfl
  | some t => cases t <;> rfl


/-! ## Claim on the total -/

/-- C3: for every row the PDF route computes its amounts, in binary64: the
due amount and the withholding are the parsed stored values, the deduction
is `dueAmount * 0.20` or `0`, and the total is `(dueAmount - deduction) +
withholding`; the deduction and the due amount are the same whatever the
stored withholding is.  The page is drawn unless the country test throws,
and its totals box shows `formatCurrency` of that total.  A due amount
`"100,00"` created with the deduction requested gives deduction 20,
withholding 2, total 82, shown as `€82,00` under the stamp; a due amount
`"77,47"` created without it gives withholding 0 and the total 77.47, shown
as `€77,47` with no stamp; a due amount `"0.7"` with the deduction gives the
total 0.5599999999999999, shown as `€0,56`. -/
theorem pdf_shows_total_formula :
    (∀ invoice : Invoice, ∃ d w a,
      Binary64.Pdf.parseCurrency invoice.dueamount = some d ∧
      Binary64.Pdf.parseCurrency invoice.withholding = some w ∧
      Binary64.Pdf.amounts invoice = some a ∧ a.dueAmount = d ∧ a.withholding = w ∧
      a.ritenutaDeduction =
        (if a.ritenuta.gt (JSNum.fin 0) then Binary64.mul d Binary64.rate else JSNum.fin 0) ∧
      a.total = Binary64.add (Binary64.sub d a.ritenutaDeduction) w ∧
      (∀ v : JSVal, ∃ b, Binary64.Pdf.amounts { invoice with withholding := v } = some b ∧
        b.dueAmount = a.dueAmount ∧ b.ritenutaDeduction = a.ritenutaDeduction) ∧
      (∀ (sig : Bool) (doc : Pdf.Doc (List Pdf.Call)),
        (Binary64.Pdf.render (Pdf.recorder sig) invoice doc).isSome =
            (Pdf.showsCountry (Pdf.recorder sig).toEnv invoice.patient_country).isSome ∧
          ∀ l, Binary64.Pdf.render (Pdf.recorder sig) invoice doc = some l →
            ∃ before after, l.doc.rest = doc.rest ++ before ++
              [Pdf.Call.text "TOTAL AMOUNT:".toList 360 (l.totalsY + 12),
                Pdf.Call.textIn
                  (Pdf.formatCurrency (Binary64.add (Binary64.sub d a.ritenutaDeduction) w))
                  450 (l.totalsY + 12) 85 "right".toList] ++ after)) ∧
    (∃ row, Binary64.Create.insertRow (sampleBody "100,00" true) = some row ∧
      Binary64.Pdf.amounts (storedInvoice row) = some
        { dueAmount := JSNum.fin 100, withholding := JSNum.fin 2, ritenuta := JSNum.fin 20,
          ritenutaDeduction := JSNum.fin 20, total := JSNum.fin 82 } ∧
      Binary64.Pdf.requiresStamp (storedInvoice row) = some true ∧
      (Binary64.Pdf.render (Pdf.recorder false) (storedInvoice row) Pdf.newDoc).map
          (fun l => Pdf.amountTexts l.doc.rest) =
        some ["INSERIRE".toList, "BOLLO".toList, "€ 2,00".toList, "AMOUNT".toList,
          "€100,00".toList, "-€20,00".toList, "€2,00".toList, "€82,00".toList]) ∧
    (∃ row, Binary64.Create.insertRow (sampleBody "77,47" false) = some row ∧
      Binary64.Pdf.amounts (storedInvoice row) = some
        { dueAmount := Binary64.ofRat 77.47, withholding := JSNum.fin 0,
          ritenuta := JSNum.fin 0, ritenutaDeduction := JSNum.fin 0,
          total := Binary64.ofRat 77.47 } ∧
      Binary64.Pdf.requiresStamp (storedInvoice row) = some false ∧
      (Binary64.Pdf.render (Pdf.recorder false) (storedInvoice row) Pdf.newDoc).map
          (fun l => Pdf.amountTexts l.doc.rest) =
        some ["AMOUNT".toList, "€77,47".toList, "€0,00".toList, "€77,47".toList]) ∧
    (∃ row, Binary64.Create.insertRow (sampleBody "0.7" true) = some row ∧
      Binary64.Pdf.amounts (storedInvoice row) = some
        { dueAmount := Binary64.ofRat 0.7, withholding := JSNum.fin 0,
          ritenuta := JSNum.fin 20, ritenutaDeduction := Binary64.ofRat 0.13999999999999999,
          total := Binary64.ofRat 0.5599999999999999 } ∧
      Binary64.ofRat 0.5599999999999999 ≠ Binary64.ofRat 0.56 ∧
      (Binary64.Pdf.render (Pdf.recorder false) (storedInvoice row) Pdf.newDoc).map
          (fun l => Pdf.amountTexts l.doc.rest) =
        some ["AMOUNT".toList, "€0,70".toList, "-€0,14".toList, "€0,00".toList,
          "€0,56".toList]) := by
  refine ⟨?_, ⟨_, rfl, by decide!, by decide!, by decide!⟩,
    ⟨_, rfl, by decide!, by decide!, by decide!⟩,
    ⟨_, rfl, by decide!, by decide!, by decide!⟩⟩
  intro invoice
  obtain ⟨d, hd⟩ := binary64_pdf_parseCurrency_returns invoice.dueamount
  obtain ⟨w, hw⟩ := binary64_pdf_parseCurrency_returns invoice.withholding
  obtain ⟨r, hr⟩ := binary64_pdf_parseCurrency_returns invoice.ritenuta
  have ha := binary64_pdf_amounts_of_parsed invoice d w r hd hw hr
  refine ⟨d, w, _, hd, hw, ha, rfl, rfl, rfl, rfl, ?_, ?_⟩
  · intro v
    obtain ⟨w', hw'⟩ := binary64_pdf_parseCurrency_returns v
    exact ⟨_, binary64_pdf_amounts_of_parsed { invoice with withholding := v } d w' r hd hw' hr,
      rfl, rfl⟩
  · intro sig doc
    constructor
    · simp only [Binary64.Pdf.render, ha]
      exact Pdf.renderFrom_isSome _ _ _ _ _
    · intro l hl
      simp only [Binary64.Pdf.render, ha] at hl
      exact Pdf.renderFrom_total_recorded sig invoice _ _ doc l hl

/-- C3, applied to the row of `sampleInvoice` on a new document: the page is
drawn and its totals box shows `€82,00`. -/
theorem pdf_shows_total_formula_witness :
    ∃ l before after, Binary64.Pdf.render (Pdf.recorder true) sampleInvoice Pdf.newDoc = some l ∧
      l.doc.rest = Pdf.newDoc.rest ++ before ++
        [Pdf.Call.text "TOTAL AMOUNT:".toList 360 (l.totalsY + 12),
          Pdf.Call.textIn "€82,00".toList 450 (l.totalsY + 12) 85 "right".toList] ++ after := by
  obtain ⟨d, w, a, hd, hw, ha, -, -, hded, -, -, hpage⟩ := pdf_shows_total_formula.1 sampleInvoice
  have hd' : Binary64.Pdf.parseCurrency sampleInvoice.dueamount = some (JSNum.fin 100) := by
    decide!
  have hw' : Binary64.Pdf.parseCurrency sampleInvoice.withholding = some (JSNum.fin 2) := by
    decide!
  have ha' : Binary64.Pdf.amounts sampleInvoice = some
      { dueAmount := JSNum.fin 100, withholding := JSNum.fin 2, ritenuta := JSNum.fin 20,
        ritenutaDeduction := JSNum.fin 20, total := JSNum.fin 82 } := by
    decide!
  have ed := hd.symm.trans hd'
  have ew := hw.symm.trans hw'
  have ea := ha.symm.trans ha'
  simp only [Option.some.injEq] at ed ew ea
  subst ed ew ea
  obtain ⟨hsome, hdraw⟩ := hpage true Pdf.newDoc
  have hc : (Pdf.showsCountry (Pdf.recorder true).toEnv sampleInvoice.patient_country).isSome =
      true := by decide!
  rw [hc] at hsome
  obtain ⟨l, hl⟩ := Option.isSome_iff_exists.1 hsome
  obtain ⟨before, after, hrest⟩ := hdraw l hl
  have ht : Pdf.formatCurrency (Binary64.add (Binary64.sub (JSNum.fin 100) (JSNum.fin 20))
      (JSNum.fin 2)) = "€82,00".toList := by decide!
  rw [ht] at hrest
  exact ⟨l, before, after, hl, hrest⟩


/-! ## Claim on the deduction -/

theorem binary64_pdf_orZero (v : JSVal) (r : JSNum)
    (hr : Binary64.Pdf.parseCurrency v = some r) : Pdf.orZero r = r :=
  Pdf.orZero_of_not_nan r (binary64_pdf_parseCurrency_isNaN v r hr)

theorem binary64_list_parseCurrency_none (v : JSVal) :
    Binary64.InvoiceList.parseCurrency v = none ↔
      (v.truthy = true ∧ ∀ s, v ≠ JSVal.str s) := by
  unfold Binary64.InvoiceList.parseCurrency
  by_cases ht : v.truthy = true
  · cases v <;> simp_all [JSVal.truthy]
  · simp [ht]

theorem binary64_list_amounts_none (invoice : Invoice) :
    Binary64.InvoiceList.amounts invoice = none ↔
      (Binary64.InvoiceList.parseCurrency invoice.dueamount = none ∨
        Binary64.InvoiceList.parseCurrency invoice.withholding = none ∨
        Binary64.InvoiceList.parseCurrency invoice.ritenuta = none) := by
  unfold Binary64.InvoiceList.amounts
  cases Binary64.InvoiceList.parseCurrency invoice.dueamount <;>
  cases Binary64.InvoiceList.parseCurrency invoice.withholding <;>
  cases Binary64.InvoiceList.parseCurrency invoice.ritenuta <;> simp

/-- C4 (the code at the failing input): the row that a create request with
due amount `"100,00"` and the deduction requested writes holds the rate
marker as the number `20`; on it the PDF route computes the deduction 20,
and the invoice list computes none, its helper throwing on the marker.  The
list computes the amounts of a row exactly when none of the three amount
fields is a truthy value other than a string.  Where a deduction is
computed, in the PDF route for every row and in the list for every row it
does not throw on, it is the binary64 product `0.20 * dueAmount` when the
parsed marker is above zero and `0` when it is not; that product is not the
exact one: for the due amount `0.7` it is 0.13999999999999999. -/
theorem list_deduction_throws_on_stored_marker :
    (∃ row, Binary64.Create.insertRow (sampleBody "100,00" true) = some row ∧
      Obj.get row "ritenuta" = JSVal.num (JSNum.fin 20) ∧
      (Binary64.Pdf.amounts (storedInvoice row)).map Amounts.ritenutaDeduction =
        some (JSNum.fin 20) ∧
      Binary64.InvoiceList.amounts (storedInvoice row) = none) ∧
    (∀ invoice : Invoice,
      (Binary64.InvoiceList.amounts invoice = none ↔
        ((invoice.dueamount.truthy = true ∧ ∀ s, invoice.dueamount ≠ JSVal.str s) ∨
          (invoice.withholding.truthy = true ∧ ∀ s, invoice.withholding ≠ JSVal.str s) ∨
          (invoice.ritenuta.truthy = true ∧ ∀ s, invoice.ritenuta ≠ JSVal.str s)))) ∧
    (∀ invoice : Invoice, ∃ d a,
      Binary64.Pdf.parseCurrency invoice.dueamount = some d ∧
      Binary64.Pdf.amounts invoice = some a ∧
      Binary64.Pdf.parseCurrency invoice.ritenuta = some a.ritenuta ∧
      a.ritenutaDeduction =
        if a.ritenuta.gt (JSNum.fin 0) then Binary64.mul Binary64.rate d else JSNum.fin 0) ∧
    (∀ (invoice : Invoice) (a : Amounts), Binary64.InvoiceList.amounts invoice = some a →
      Binary64.InvoiceList.parseCurrency invoice.dueamount = some a.dueAmount ∧
      Binary64.InvoiceList.parseCurrency invoice.ritenuta = some a.ritenuta ∧
      a.ritenutaDeduction =
        if a.ritenuta.gt (JSNum.fin 0) then Binary64.mul Binary64.rate a.dueAmount
        else JSNum.fin 0) ∧
    (∃ q : ℚ, Binary64.parseFloat "0.7".toList = JSNum.fin q ∧
      Binary64.mul Binary64.rate (JSNum.fin q) = Binary64.ofRat 0.13999999999999999 ∧
      Binary64.mul Binary64.rate (JSNum.fin q) ≠ JSNum.fin (0.20 * q) ∧
      Binary64.mul Binary64.rate (JSNum.fin q) ≠ Binary64.ofRat 0.14) := by
  refine ⟨⟨_, rfl, by decide!, by decide!, by decide!⟩, ?_, ?_, ?_,
    ⟨3152519739159347 / 4503599627370496, by decide!, by decide!, by decide!, by decide!⟩⟩
  · intro invoice
    rw [binary64_list_amounts_none, binary64_list_parseCurrency_none,
      binary64_list_parseCurrency_none, binary64_list_parseCurrency_none]
  · intro invoice
    obtain ⟨d, hd⟩ := binary64_pdf_parseCurrency_returns invoice.dueamount
    obtain ⟨w, hw⟩ := binary64_pdf_parseCurrency_returns invoice.withholding
    obtain ⟨r, hr⟩ := binary64_pdf_parseCurrency_returns invoice.ritenuta
    have hor := binary64_pdf_orZero _ r hr
    have ha := binary64_pdf_amounts_of_parsed invoice d w r hd hw hr
    refine ⟨d, _, hd, ha, ?_, ?_⟩
    · simp only [hor, hr]
    · simp only [binary64_mul_swap Binary64.rate d]
  · intro invoice a h
    unfold Binary64.InvoiceList.amounts at h
    cases hd : Binary64.InvoiceList.parseCurrency invoice.dueamount with
    | none => simp [hd] at h
    | some d =>
      cases hw : Binary64.InvoiceList.parseCurrency invoice.withholding with
      | none => simp [hd, hw] at h
      | some w =>
        cases hr : Binary64.InvoiceList.parseCurrency invoice.ritenuta with
        | none => simp [hd, hw, hr] at h
        | some r =>
          simp only [hd, hw, hr, Option.some.injEq] at h
          subst h
          refine ⟨rfl, rfl, ?_⟩
          simp only [binary64_mul_swap Binary64.rate d]

/-- C4, applied in the invoice list to the row with due amount `100.00` and
the rate marker held as the text `20`: the deduction is 20. -/
theorem list_deduction_throws_on_stored_marker_witness :
    Binary64.InvoiceList.amounts sampleTextInvoice = some
        { dueAmount := JSNum.fin 100, withholding := JSNum.fin 2, ritenuta := JSNum.fin 20,
          ritenutaDeduction := JSNum.fin 20, total := JSNum.fin 82 } ∧
      JSNum.fin 20 =
        (if (JSNum.fin 20).gt (JSNum.fin 0) then Binary64.mul Binary64.rate (JSNum.fin 100)
          else JSNum.fin 0) :=
  ⟨by decide!,
    (list_deduction_throws_on_stored_marker.2.2.2.1 sampleTextInvoice
      { dueAmount := JSNum.fin 100, withholding := JSNum.fin 2, ritenuta := JSNum.fin 20,
        ritenutaDeduction := JSNum.fin 20, total := JSNum.fin 82 } (by decide!)).2.2⟩


/-! ## Claim on the threshold -/

theorem binary64_requiresStamp_of_parsed (invoice : Invoice) (d : JSNum)
    (hd : Binary64.Pdf.parseCurrency invoice.dueamount = some d) :
    Binary64.Pdf.requiresStamp invoice = some (d.gt Binary64.threshold) := by
  obtain ⟨w, hw⟩ := binary64_pdf_parseCurrency_returns invoice.withholding
  obtain ⟨r, hr⟩ := binary64_pdf_parseCurrency_returns invoice.ritenuta
  simp only [Binary64.Pdf.requiresStamp, binary64_pdf_amounts_of_parsed invoice d w r hd hw hr,
    Option.map_some']

theorem binary64_nan_or_zero_gt (p : JSNum) :
    (if p.isNaN then JSNum.fin 0 else p).gt Binary64.threshold = p.gt Binary64.threshold := by
  cases p with
  | nan => decide!
  | posInf => rfl
  | negInf => rfl
  | fin q => rfl

/-- The PDF helper, applied to a stored text that cleaning leaves readable
as before, is above the threshold exactly when `parseFloat` of that text
is. -/
theorem binary64_pdf_parseCurrency_gt (c : JSString)
    (hc : parseFloat (cleanText c) = parseFloat c) :
    ∃ d, Binary64.Pdf.parseCurrency (JSVal.str c) = some d ∧
      d.gt Binary64.threshold = (Binary64.parseFloat c).gt Binary64.threshold := by
  have hc' : Binary64.parseFloat (cleanText c) = Binary64.parseFloat c := by
    unfold Binary64.parseFloat
    rw [hc]
  cases c with
  | nil => exact ⟨JSNum.fin 0, rfl, by decide!⟩
  | cons a c =>
    have e : Binary64.Pdf.parseCurrency (JSVal.str (a :: c)) =
        some (if (Binary64.parseFloat (a :: c)).isNaN then JSNum.fin 0
          else Binary64.parseFloat (a :: c)) := by
      simp only [Binary64.Pdf.parseCurrency, JSVal.truthy, JSVal.toStringMethod, hc']
      rfl
    exact ⟨_, e, binary64_nan_or_zero_gt _⟩

theorem binary64_withholdingOf_iff (x : JSNum) :
    (Binary64.Create.withholdingOf x = "2.00".toList ↔ x.gt Binary64.threshold = true) ∧
      (Binary64.Create.withholdingOf x = "0.00".toList ↔ x.gt Binary64.threshold = false) := by
  unfold Binary64.Create.withholdingOf
  cases h : x.gt Binary64.threshold
  · simp only [Bool.false_eq_true, if_false, iff_true, iff_false]
    decide
  · simp only [if_true, iff_true, Bool.true_eq_false, iff_false]
    decide

theorem binary64_insertRow_amounts (b : Create.Body) (row : Obj)
    (h : Binary64.Create.insertRow b = some row) :
    ∃ c, Create.cleanCurrency b.dueamount = some c ∧
      Obj.get row "dueamount" = JSVal.str c ∧
      Obj.get row "withholding" =
        JSVal.str (Binary64.Create.withholdingOf (Binary64.parseFloat c)) := by
  unfold Binary64.Create.insertRow at h
  cases hc : Create.cleanCurrency b.dueamount with
  | none => rw [hc] at h; cases h
  | some c =>
    rw [hc] at h
    refine ⟨c, rfl, ?_⟩
    cases hf : Create.hasFiscalCode b.fiscalcode with
    | none => rw [hf] at h; cases h
    | some t =>
      rw [hf] at h
      cases t <;>
      · simp only [Option.some.injEq] at h
        rw [← h]
        simp [Obj.get]

/-- What the update route's `cleanCurrency` returns for a truthy due amount
is read by the PDF helper as `parseFloat` reads it on the write path, as far
as the threshold goes. -/
theorem binary64_patch_cleaned_gt (v c : JSVal) (ht : v.truthy = true)
    (h : Patch.cleanCurrency v = some c) :
    ∃ d, Binary64.Pdf.parseCurrency c = some d ∧
      d.gt Binary64.threshold = (Binary64.parseFloatVal c).gt Binary64.threshold := by
  unfold Patch.cleanCurrency at h
  simp only [ht, Bool.not_true, Bool.false_eq_true, if_false] at h
  cases v with
  | str s =>
    simp only [Option.some.injEq] at h
    rw [← h]
    exact binary64_pdf_parseCurrency_gt (cleanText s) (parseFloat_cleanText_cleanText s)
  | num x =>
    simp only [Option.some.injEq] at h
    rw [← h]
    have hx : x.truthy = true := ht
    have hc := parseFloat_cleanText_of_clean _ (numberToString_clean x)
    have hc' : Binary64.parseFloat (cleanText (numberToString x)) =
        Binary64.parseFloat (numberToString x) := by
      unfold Binary64.parseFloat
      rw [hc]
    have e : Binary64.Pdf.parseCurrency (JSVal.num x) =
        some (if (Binary64.parseFloat (numberToString x)).isNaN then JSNum.fin 0
          else Binary64.parseFloat (numberToString x)) := by
      simp only [Binary64.Pdf.parseCurrency, JSVal.truthy, hx, JSVal.toStringMethod, hc']
      rfl
    exact ⟨_, e, binary64_nan_or_zero_gt _⟩
  | undefined => cases h
  | null => cases h
  | bool b => cases h
  | obj t => cases h

theorem binary64_get_recalculate_other (k' : String) (body u : Obj)
    (h : Binary64.Patch.recalculate body = some u) (h1 : "dueamount" ≠ k')
    (h2 : "withholding" ≠ k') : Obj.get u k' = Obj.get body k' := by
  unfold Binary64.Patch.recalculate at h
  by_cases ht : (Obj.get body "dueamount").truthy = true
  · rw [if_pos ht] at h
    cases hc : Patch.cleanCurrency (Obj.get body "dueamount") with
    | none => rw [hc] at h; cases h
    | some c =>
      rw [hc] at h
      simp only [Option.some.injEq] at h
      rw [← h, Obj.get_set, if_neg h2, Obj.get_set, if_neg h1]
  · rw [if_neg ht] at h
    simp only [Option.some.injEq] at h
    rw [h]

/-- The withholding and the due amount that reach the `SET` clause are the
ones left by the first two blocks. -/
theorem binary64_get_normalise_amounts (body u : Obj)
    (h : Binary64.Patch.normalise body = some u) :
    ∃ u0, Binary64.Patch.recalculate body = some u0 ∧
      Obj.get u "withholding" = Obj.get (Patch.ignoreManualWithholding u0) "withholding" ∧
      Obj.get u "dueamount" = Obj.get u0 "dueamount" := by
  unfold Binary64.Patch.normalise at h
  cases hr : Binary64.Patch.recalculate body with
  | none => rw [hr] at h; cases h
  | some u0 =>
    rw [hr] at h
    simp only [Option.map_some', Option.some.injEq] at h
    refine ⟨u0, rfl, ?_, ?_⟩
    · rw [← h, Patch.get_dateFields, Patch.get_ritenutaField_other _ _ (by decide),
        Patch.get_booleanField "ts" "withholding" _ (by decide),
        Patch.get_booleanField "traced" "withholding" _ (by decide)]
    · rw [← h, Patch.get_dateFields, Patch.get_ritenutaField_other _ _ (by decide),
        Patch.get_booleanField "ts" "dueamount" _ (by decide),
        Patch.get_booleanField "traced" "dueamount" _ (by decide),
        Patch.get_ignoreManualWithholding_other "dueamount" _ (by decide)]

theorem binary64_handler_update (body u : Obj)
    (h : Binary64.Patch.handler body = Patch.Outcome.update u) :
    Binary64.Patch.normalise body = some u := by
  unfold Binary64.Patch.handler at h
  cases hn : Binary64.Patch.normalise body with
  | none => rw [hn] at h; cases h
  | some v =>
    rw [hn] at h
    simp only at h
    split at h
    · cases h
    · simp only [Patch.Outcome.update.injEq] at h
      rw [h]

/-- With no truthy due amount in the body, the due amount reaches the `SET`
clause as sent and no withholding is computed: the one that reaches the
clause is the client's own value when that value is falsy, and is absent
when it is truthy. -/
theorem binary64_patch_falsy_dueamount (body u : Obj)
    (hd : (Obj.get body "dueamount").truthy = false)
    (h : Binary64.Patch.normalise body = some u) :
    Obj.get u "dueamount" = Obj.get body "dueamount" ∧
      Obj.get u "withholding" =
        if (Obj.get body "withholding").truthy then JSVal.undefined
        else Obj.get body "withholding" := by
  obtain ⟨u0, hr, hw, hdu⟩ := binary64_get_normalise_amounts body u h
  have e0 : u0 = body := by
    unfold Binary64.Patch.recalculate at hr
    simp only [hd] at hr
    simpa using hr.symm
  subst e0
  refine ⟨hdu, ?_⟩
  rw [hw]
  unfold Patch.ignoreManualWithholding
  by_cases ht : (Obj.get u0 "withholding").truthy = true
  · simp [ht, hd, Obj.get_delete]
  · simp [ht]

/-- A due amount that is truthy before and after cleaning: the withholding
that reaches the `SET` clause is the recomputed one, whatever the client
sent. -/
theorem binary64_patch_recomputed (body : Obj) (c : JSVal)
    (htr : (Obj.get body "dueamount").truthy = true)
    (hc : Patch.cleanCurrency (Obj.get body "dueamount") = some c) (hct : c.truthy = true) :
    ∃ u, Binary64.Patch.handler body = Patch.Outcome.update u ∧
      Obj.get u "dueamount" = c ∧
      Obj.get u "withholding" =
        JSVal.str (Binary64.Create.withholdingOf (Binary64.parseFloatVal c)) := by
  have hwt : ∀ x : JSNum, (JSVal.str (Binary64.Create.withholdingOf x)).truthy = true := by
    intro x
    unfold Binary64.Create.withholdingOf
    cases x.gt Binary64.threshold <;> rfl
  have hr : Binary64.Patch.recalculate body =
      some (Obj.set (Obj.set body "dueamount" c) "withholding"
        (JSVal.str (Binary64.Create.withholdingOf (Binary64.parseFloatVal c)))) := by
    unfold Binary64.Patch.recalculate
    rw [if_pos htr, hc]
    simp only [Obj.get_set, if_true, Binary64.Create.withholdingOf]
  generalize hwdef : JSVal.str (Binary64.Create.withholdingOf (Binary64.parseFloatVal c)) = w
    at hr ⊢
  have hwt' : w.truthy = true := by rw [← hwdef]; exact hwt _
  generalize hu0 : Obj.set (Obj.set body "dueamount" c) "withholding" w = u0 at hr
  have hn : Binary64.Patch.normalise body = some (Patch.dateFields (Patch.ritenutaField
      (Patch.booleanField "ts" (Patch.booleanField "traced"
        (Patch.ignoreManualWithholding u0))))) := by
    unfold Binary64.Patch.normalise
    rw [hr]; rfl
  obtain ⟨u1, hr1, hgw, hgd⟩ := binary64_get_normalise_amounts body _ hn
  rw [hr] at hr1
  simp only [Option.some.injEq] at hr1
  subst hr1
  have hd0 : Obj.get u0 "dueamount" = c := by
    rw [← hu0, Obj.get_set, if_neg (by decide), Obj.get_set, if_pos rfl]
  have hw0 : Obj.get u0 "withholding" = w := by
    rw [← hu0, Obj.get_set, if_pos rfl]
  have hig : Patch.ignoreManualWithholding u0 = u0 := by
    unfold Patch.ignoreManualWithholding
    rw [hd0, hct]; simp
  refine ⟨_, ?_, hgd.trans hd0, by rw [hgw, hig, hw0]⟩
  unfold Binary64.Patch.handler
  rw [hn]
  simp only
  split
  · rename_i hlen
    exfalso
    have hnil := List.eq_nil_of_length_eq_zero hlen
    rw [hnil] at hgd
    rw [hd0] at hgd
    rw [← hgd] at hct
    simp [Obj.get, JSVal.truthy] at hct
  · rfl


/-- C2 (the code at the failing inputs): an update with the due amount `0`
computes no withholding and writes only the due amount, so a row created
with `"100,00"` keeps its withholding `'2.00'` while the PDF route no longer
asks for the stamp; an update with the due amount `"€"` loses the recomputed
`'0.00'` to the guard against manual updates.  For every update whose due
amount is falsy, the withholding that reaches the `SET` clause is falsy or
absent, never `'0.00'`, and the PDF route asks for no stamp on that due
amount.  Everywhere else the two agree, in binary64: for every create
request that reaches the `INSERT`, and for every update whose due amount is
a string that is not empty after cleaning or a truthy number, the
withholding written is `'2.00'` exactly when `requiresStamp` is true on the
stored due amount, which is when `parseFloat` of the cleaned amount is above
`77.47`, and `'0.00'` exactly when it is false.  At `"77,47"`, and at
`"77.470000000000001"`, which is read as the same number, the withholding is
`'0.00'` with no stamp; at `"77,48"` it is `'2.00'` with the stamp. -/
theorem patch_withholding_not_recomputed :
    (∃ row, Binary64.Create.insertRow (sampleBody "100,00" false) = some row ∧
      Obj.get row "withholding" = JSVal.str "2.00".toList ∧
      Binary64.Pdf.requiresStamp (storedInvoice row) = some true ∧
      Binary64.Patch.handler [("dueamount", JSVal.num (JSNum.fin 0))] =
        Patch.Outcome.update [("dueamount", JSVal.num (JSNum.fin 0))] ∧
      Obj.get (updatedRow row [("dueamount", JSVal.num (JSNum.fin 0))]) "withholding" =
        JSVal.str "2.00".toList ∧
      Binary64.Pdf.requiresStamp
        (storedInvoice (updatedRow row [("dueamount", JSVal.num (JSNum.fin 0))])) =
        some false) ∧
    Binary64.Patch.handler [("dueamount", JSVal.str "€".toList)] =
      Patch.Outcome.update [("dueamount", JSVal.str [])] ∧
    (∀ body u : Obj, (Obj.get body "dueamount").truthy = false →
      Binary64.Patch.handler body = Patch.Outcome.update u →
      Obj.get u "dueamount" = Obj.get body "dueamount" ∧
      (Obj.get u "withholding").truthy = false ∧
      ∀ invoice : Invoice, invoice.dueamount = Obj.get u "dueamount" →
        Binary64.Pdf.requiresStamp invoice = some false) ∧
    (∀ (b : Create.Body) (row : Obj), Binary64.Create.insertRow b = some row →
      ∃ c w st, Obj.get row "dueamount" = JSVal.str c ∧
        Obj.get row "withholding" = JSVal.str w ∧
        Binary64.Pdf.requiresStamp (storedInvoice row) = some st ∧
        st = (Binary64.parseFloat c).gt Binary64.threshold ∧
        (w = "2.00".toList ↔ st = true) ∧ (w = "0.00".toList ↔ st = false)) ∧
    (∀ body : Obj,
      ((∃ s, Obj.get body "dueamount" = JSVal.str s ∧ cleanText s ≠ []) ∨
        (∃ x, Obj.get body "dueamount" = JSVal.num x ∧ x.truthy = true)) →
      ∃ u w st, Binary64.Patch.handler body = Patch.Outcome.update u ∧
        Obj.get u "withholding" = JSVal.str w ∧
        st = (Binary64.parseFloatVal (Obj.get u "dueamount")).gt Binary64.threshold ∧
        (∀ invoice : Invoice, invoice.dueamount = Obj.get u "dueamount" →
          Binary64.Pdf.requiresStamp invoice = some st) ∧
        (w = "2.00".toList ↔ st = true) ∧ (w = "0.00".toList ↔ st = false)) ∧
    (∃ row, Binary64.Create.insertRow (sampleBody "77,47" false) = some row ∧
      Obj.get row "withholding" = JSVal.str "0.00".toList ∧
      Binary64.Pdf.requiresStamp (storedInvoice row) = some false) ∧
    (∃ row, Binary64.Create.insertRow (sampleBody "77.470000000000001" false) = some row ∧
      Obj.get row "withholding" = JSVal.str "0.00".toList ∧
      Binary64.Pdf.requiresStamp (storedInvoice row) = some false) ∧
    (∃ row, Binary64.Create.insertRow (sampleBody "77,48" false) = some row ∧
      Obj.get row "withholding" = JSVal.str "2.00".toList ∧
      Binary64.Pdf.requiresStamp (storedInvoice row) = some true) := by
  refine ⟨⟨_, rfl, by decide!, by decide!, by decide!, by decide!, by decide!⟩, by decide!,
    ?_, ?_, ?_, ⟨_, rfl, by decide!, by decide!⟩, ⟨_, rfl, by decide!, by decide!⟩,
    ⟨_, rfl, by decide!, by decide!⟩⟩
  · intro body u hd h
    obtain ⟨hdu, hw⟩ := binary64_patch_falsy_dueamount body u hd (binary64_handler_update body u h)
    refine ⟨hdu, ?_, ?_⟩
    · rw [hw]
      by_cases ht : (Obj.get body "withholding").truthy = true
      · rw [if_pos ht]; rfl
      · rw [if_neg ht]; simpa using ht
    · intro invoice hi
      have hp : Binary64.Pdf.parseCurrency invoice.dueamount = some (JSNum.fin 0) := by
        rw [hi, hdu]
        simp [Binary64.Pdf.parseCurrency, hd]
      rw [binary64_requiresStamp_of_parsed invoice _ hp]
      decide!
  · intro b row h
    obtain ⟨c, hc, hd, hw⟩ := binary64_insertRow_amounts b row h
    obtain ⟨d, hp, hgt⟩ :=
      binary64_pdf_parseCurrency_gt c (Create.cleanCurrency_readable _ _ hc)
    have hst : Binary64.Pdf.requiresStamp (storedInvoice row) =
        some (d.gt Binary64.threshold) :=
      binary64_requiresStamp_of_parsed _ d (by simpa [storedInvoice, hd] using hp)
    refine ⟨c, _, _, hd, hw, hst, hgt, ?_, ?_⟩
    · rw [hgt]; exact (binary64_withholdingOf_iff _).1
    · rw [hgt]; exact (binary64_withholdingOf_iff _).2
  · intro body hb
    have key : ∃ c, (Obj.get body "dueamount").truthy = true ∧
        Patch.cleanCurrency (Obj.get body "dueamount") = some c ∧ c.truthy = true := by
      rcases hb with ⟨s, hs, hne⟩ | ⟨x, hx, hxt⟩
      · have hs0 : s ≠ [] := by
          intro h0; apply hne; subst h0; rfl
        have htr : (JSVal.str s).truthy = true := by
          cases s with
          | nil => exact absurd rfl hs0
          | cons a s => rfl
        refine ⟨JSVal.str (cleanText s), by rw [hs]; exact htr, ?_, ?_⟩
        · rw [hs]
          simp only [Patch.cleanCurrency, htr, Bool.not_true, Bool.false_eq_true, if_false]
        · cases hcs : cleanText s with
          | nil => exact absurd hcs hne
          | cons a t => rfl
      · have htr : (JSVal.num x).truthy = true := hxt
        refine ⟨JSVal.num x, by rw [hx]; exact htr, ?_, htr⟩
        rw [hx]
        simp only [Patch.cleanCurrency, htr, Bool.not_true, Bool.false_eq_true, if_false]
    obtain ⟨c, htr, hc, hct⟩ := key
    obtain ⟨u, hu, hdu, hwu⟩ := binary64_patch_recomputed body c htr hc hct
    obtain ⟨d, hp, hgt⟩ := binary64_patch_cleaned_gt _ c htr hc
    refine ⟨u, _, _, hu, hwu, rfl, ?_, ?_, ?_⟩
    · intro invoice hi
      rw [binary64_requiresStamp_of_parsed invoice d (by rw [hi, hdu]; exact hp), hgt, hdu]
    · rw [hdu]; exact (binary64_withholdingOf_iff _).1
    · rw [hdu]; exact (binary64_withholdingOf_iff _).2

/-- C2, applied to a create request with due amount `"100,00"`, to an update
request with due amount `"€ 77,48"`, and to an update request with due
amount `0`. -/
theorem patch_withholding_not_recomputed_witness :
    (∃ c w st, Obj.get [("dueamount", JSVal.str "100.00".toList),
          ("withholding", JSVal.str "2.00".toList), ("system", JSVal.undefined),
          ("invoicedate", JSVal.undefined), ("traced", JSVal.bool false),
          ("collecteddate", JSVal.undefined), ("ts", JSVal.bool false),
          ("ritenuta", JSVal.num (JSNum.fin 20))] "dueamount" = JSVal.str c ∧
        Obj.get [("dueamount", JSVal.str "100.00".toList),
          ("withholding", JSVal.str "2.00".toList), ("system", JSVal.undefined),
          ("invoicedate", JSVal.undefined), ("traced", JSVal.bool false),
          ("collecteddate", JSVal.undefined), ("ts", JSVal.bool false),
          ("ritenuta", JSVal.num (JSNum.fin 20))] "withholding" = JSVal.str w ∧
        Binary64.Pdf.requiresStamp (storedInvoice [("dueamount", JSVal.str "100.00".toList),
          ("withholding", JSVal.str "2.00".toList), ("system", JSVal.undefined),
          ("invoicedate", JSVal.undefined), ("traced", JSVal.bool false),
          ("collecteddate", JSVal.undefined), ("ts", JSVal.bool false),
          ("ritenuta", JSVal.num (JSNum.fin 20))]) = some st ∧
        st = (Binary64.parseFloat c).gt Binary64.threshold ∧
        (w = "2.00".toList ↔ st = true) ∧ (w = "0.00".toList ↔ st = false)) ∧
      (∃ u w st, Binary64.Patch.handler [("dueamount", JSVal.str "€ 77,48".toList)] =
          Patch.Outcome.update u ∧
        Obj.get u "withholding" = JSVal.str w ∧
        st = (Binary64.parseFloatVal (Obj.get u "dueamount")).gt Binary64.threshold ∧
        (∀ invoice : Invoice, invoice.dueamount = Obj.get u "dueamount" →
          Binary64.Pdf.requiresStamp invoice = some st) ∧
        (w = "2.00".toList ↔ st = true) ∧ (w = "0.00".toList ↔ st = false)) ∧
      (Obj.get [("dueamount", JSVal.num (JSNum.fin 0))] "withholding").truthy = false :=
  ⟨patch_withholding_not_recomputed.2.2.2.1 (sampleBody "100,00" true) _ (by decide!),
    patch_withholding_not_recomputed.2.2.2.2.1 [("dueamount", JSVal.str "€ 77,48".toList)]
      (Or.inl ⟨_, rfl, by decide⟩),
    (patch_withholding_not_recomputed.2.2.1 [("dueamount", JSVal.num (JSNum.fin 0))]
      [("dueamount", JSVal.num (JSNum.fin 0))] (by decide!) (by decide!)).2.1⟩


/-! ## Claim on the rate marker -/

/-- The rate marker that reaches the `SET` clause, for every request the
update route does not reject before the query. -/
theorem binary64_get_normalise_ritenuta (body u : Obj)
    (h : Binary64.Patch.normalise body = some u) :
    Obj.get u "ritenuta" =
      if Obj.get body "ritenuta" = JSVal.undefined then JSVal.undefined
      else JSVal.num (JSNum.fin (if Patch.isTrue (Obj.get body "ritenuta") then 20 else 0)) := by
  unfold Binary64.Patch.normalise at h
  cases hr : Binary64.Patch.recalculate body with
  | none => rw [hr] at h; cases h
  | some u0 =>
    rw [hr] at h
    simp only [Option.map_some', Option.some.injEq] at h
    have e0 : Obj.get u0 "ritenuta" = Obj.get body "ritenuta" :=
      binary64_get_recalculate_other "ritenuta" body u0 hr (by decide) (by decide)
    rw [← h, Patch.get_dateFields, Patch.get_ritenutaField,
      Patch.get_booleanField "ts" "ritenuta" _ (by decide),
      Patch.get_booleanField "traced" "ritenuta" _ (by decide),
      Patch.get_ignoreManualWithholding_other "ritenuta" _ (by decide), e0]

/-- C7 (the code at the failing inputs): for the truthy flags `1`, `20` and
`"yes"` the create route writes the rate marker `20` and the update route
writes `0`; the update route writes `20` for the boolean `true` and the
string `'true'` only.  For every request, the create route writes `20` when
the flag is truthy and `0` otherwise, and the update route writes no marker
when the flag is absent, `20` when it is the boolean `true` or the string
`'true'`, and `0` otherwise: no value other than `0` or `20` is written. -/
theorem patch_truthy_ritenuta_written_as_zero :
    ((JSVal.num (JSNum.fin 1)).truthy = true ∧
      (Binary64.Create.insertRow
        { sampleBody "100,00" true with ritenuta := JSVal.num (JSNum.fin 1) }).map
          (fun row => Obj.get row "ritenuta") = some (JSVal.num (JSNum.fin 20)) ∧
      Binary64.Patch.handler [("ritenuta", JSVal.num (JSNum.fin 1))] =
        Patch.Outcome.update [("ritenuta", JSVal.num (JSNum.fin 0))]) ∧
    ((JSVal.num (JSNum.fin 20)).truthy = true ∧
      (Binary64.Create.insertRow
        { sampleBody "100,00" true with ritenuta := JSVal.num (JSNum.fin 20) }).map
          (fun row => Obj.get row "ritenuta") = some (JSVal.num (JSNum.fin 20)) ∧
      Binary64.Patch.handler [("ritenuta", JSVal.num (JSNum.fin 20))] =
        Patch.Outcome.update [("ritenuta", JSVal.num (JSNum.fin 0))]) ∧
    ((JSVal.str "yes".toList).truthy = true ∧
      (Binary64.Create.insertRow
        { sampleBody "100,00" true with ritenuta := JSVal.str "yes".toList }).map
          (fun row => Obj.get row "ritenuta") = some (JSVal.num (JSNum.fin 20)) ∧
      Binary64.Patch.handler [("ritenuta", JSVal.str "yes".toList)] =
        Patch.Outcome.update [("ritenuta", JSVal.num (JSNum.fin 0))]) ∧
    (Binary64.Patch.handler [("ritenuta", JSVal.bool true)] =
        Patch.Outcome.update [("ritenuta", JSVal.num (JSNum.fin 20))] ∧
      Binary64.Patch.handler [("ritenuta", JSVal.str "true".toList)] =
        Patch.Outcome.update [("ritenuta", JSVal.num (JSNum.fin 20))]) ∧
    (∀ (b : Create.Body) (row : Obj), Binary64.Create.insertRow b = some row →
      Obj.get row "ritenuta" =
        JSVal.num (JSNum.fin (if b.ritenuta.truthy then 20 else 0))) ∧
    (∀ (body u : Obj), Binary64.Patch.handler body = Patch.Outcome.update u →
      Obj.get u "ritenuta" =
        if Obj.get body "ritenuta" = JSVal.undefined then JSVal.undefined
        else JSVal.num (JSNum.fin
          (if Obj.get body "ritenuta" = JSVal.bool true ∨
              Obj.get body "ritenuta" = JSVal.str "true".toList then 20 else 0))) := by
  refine ⟨⟨by decide!, by decide!, by decide!⟩, ⟨by decide!, by decide!, by decide!⟩,
    ⟨by decide!, by decide!, by decide!⟩, ⟨by decide!, by decide!⟩, ?_, ?_⟩
  · intro b row h
    unfold Binary64.Create.insertRow at h
    cases hc : Create.cleanCurrency b.dueamount with
    | none => rw [hc] at h; cases h
    | some d =>
      rw [hc] at h
      cases hf : Create.hasFiscalCode b.fiscalcode with
      | none => rw [hf] at h; cases h
      | some t =>
        rw [hf] at h
        cases t <;>
        · simp only [Option.some.injEq] at h
          rw [← h]
          simp [Obj.get, Create.rateMarker]
  · intro body u h
    rw [binary64_get_normalise_ritenuta body u (binary64_handler_update body u h)]
    simp [Patch.isTrue]

/-- C7, applied to a create request and to an update request that both send
the flag `1`: the create route writes `20`, the update route `0`. -/
theorem patch_truthy_ritenuta_written_as_zero_witness :
    (∃ row, Binary64.Create.insertRow
        { sampleBody "100,00" true with ritenuta := JSVal.num (JSNum.fin 1) } = some row ∧
      Obj.get row "ritenuta" = JSVal.num (JSNum.fin 20)) ∧
    (∃ u, Binary64.Patch.handler [("ritenuta", JSVal.num (JSNum.fin 1))] =
        Patch.Outcome.update u ∧
      Obj.get u "ritenuta" = JSVal.num (JSNum.fin 0)) :=
  ⟨⟨_, rfl,
    (patch_truthy_ritenuta_written_as_zero.2.2.2.2.1
      { sampleBody "100,00" true with ritenuta := JSVal.num (JSNum.fin 1) } _ rfl).trans
      (by decide!)⟩,
    ⟨[("ritenuta", JSVal.num (JSNum.fin 0))], by decide!,
      (patch_truthy_ritenuta_written_as_zero.2.2.2.2.2
        [("ritenuta", JSVal.num (JSNum.fin 1))] [("ritenuta", JSVal.num (JSNum.fin 0))]
        (by decide!)).trans (by decide!)⟩⟩

end IDoctor
